import Mathlib

/-!
# Lowering glue of the D front end (`src/glue.c`)

A shallow embedding of the object-emission layer: the per-module bookkeeping
sequences filled by `FuncDeclaration::toObjFile`, the driver routines built by
`callFuncsAndGates` / `Module::genobjfile`, the physical parameter list of a
routine, and `TypeFunction::totym`.

Conventions.  Back-end symbols are handles (`Nat`).  A C array (`ArrayBase`) is a
`List`; `push` appends at the end and `shift` inserts at index 0.  A failed
`assert`, or a null dereference, is a `Fault`.  The file is compiled for D
version 2 (`DMDV2`), so the shared static constructor / destructor paths and the
nothrow bit are present.
-/

namespace Glue

/-- Back-end symbol handle (`Symbol *`). -/
abbrev Symbol := Nat

/-- Ways in which the embedded code stops without returning. -/
inductive Fault where
  | assertFailed
  | nullDeref
  | outOfFuel
deriving DecidableEq, Repr

/-- Front-end variable declaration, identified by its declaration number. -/
structure VarDeclaration where
  ident : Nat
deriving DecidableEq, Repr

/-- Linkage tag of a function type (`enum LINK`). -/
inductive LINK where
  | LINKdefault
  | LINKd
  | LINKc
  | LINKcpp
  | LINKwindows
  | LINKpascal
deriving DecidableEq, Repr

/-- Return style of a function type (`enum RET`). -/
inductive RET where
  | RETregs
  | RETstack
deriving DecidableEq, Repr

/-- Dynamic class of a `FuncDeclaration` object.  `SharedStaticCtorDeclaration`
derives from `StaticCtorDeclaration`, and `SharedStaticDtorDeclaration` from
`StaticDtorDeclaration`. -/
inductive DeclKind where
  | func
  | ctor
  | staticCtor
  | sharedStaticCtor
  | staticDtor
  | sharedStaticDtor
  | unitTest
deriving DecidableEq, Repr

/-- Semantic pass reached by a declaration (`enum PASS`), in increasing order. -/
inductive PASS where
  | PASSinit
  | PASSsemantic
  | PASSsemanticdone
  | PASSsemantic2
  | PASSsemantic2done
  | PASSsemantic3
  | PASSsemantic3done
  | PASSobj
deriving DecidableEq, Repr

/-- Numeric value of a pass, for the `<` and `>=` comparisons of the source. -/
def PASS.toNat : PASS → Nat
  | .PASSinit => 0
  | .PASSsemantic => 1
  | .PASSsemanticdone => 2
  | .PASSsemantic2 => 3
  | .PASSsemantic2done => 4
  | .PASSsemantic3 => 5
  | .PASSsemantic3done => 6
  | .PASSobj => 7

/-- The immutable part of a `FuncDeclaration`.  Its mutable fields
(`semanticRun`, `deferred`) live in the lowering state, keyed by `ident`. -/
structure FuncDeclaration where
  /-- identity of the declaration object -/
  ident : Nat := 0
  /-- the routine's own back-end symbol, `func->toSymbol()` -/
  sym : Symbol := 0
  kind : DeclKind := .func
  /-- `StaticDtorDeclaration::vgate`, `none` when null -/
  vgate : Option VarDeclaration := none
  /-- `fbody != NULL` -/
  fbody : Bool := true
  /-- the symbols put into `irs.deferToObj` while the body is translated -/
  bodyDefers : List Nat := []
  /-- `type->next->ty == Terror` -/
  retError : Bool := false
  linkage : LINK := .LINKd
  varargs : Nat := 0
  isnothrow : Bool := false
  retStyle : RET := .RETregs
  vthis : Option VarDeclaration := none
  v_arguments : Option VarDeclaration := none
  parameters : Option (List VarDeclaration) := none
  /-- `isNested()` -/
  isNested : Bool := false
  /-- `toParent2()->isFuncDeclaration()`, the enclosing routine if any -/
  enclosing : Option Nat := none
  /-- some ancestor reached from `toParent()` is a template instance -/
  inTemplateInstance : Bool := false
  isMain : Bool := false
  /-- `strcmp(s->Sident, "main") == 0` -/
  sidentMain : Bool := false
  isWinMain : Bool := false
  isDllMain : Bool := false
  isExport : Bool := false
  /-- `tyrevfunc(s->Stype->Tty)`: the calling convention of the routine's
  symbol passes the arguments in reverse order -/
  tyrevfunc : Bool := false
deriving DecidableEq, Repr

/-- The switches of `global.params` read by the embedded code, with the
compile-time target family (`TARGET_LINUX || TARGET_OSX || ...`) and `I32`. -/
structure Param where
  cov : Bool := false
  useUnitTests : Bool := false
  multiobj : Bool := false
  isLinux : Bool := false
  isOSX : Bool := false
  isFreeBSD : Bool := false
  isSolaris : Bool := false
  /-- compile-time `TARGET_LINUX || TARGET_OSX || TARGET_FREEBSD || TARGET_OPENBSD || TARGET_SOLARIS` -/
  targetPosix : Bool := false
  /-- the `I32` predicate of the back end -/
  I32 : Bool := false
  /-- compile-time `TARGET_WINDOS` -/
  targetWindos : Bool := false
  /-- the library named by `debuglibname` or `defaultlibname` -/
  libname : String := "phobos"
  /-- `global.obj_ext` -/
  obj_ext : String := "o"
  /-- whether plain `char` is a signed type for the compiler that builds glue.c -/
  charSigned : Bool := true
deriving DecidableEq, Repr

/-- A `StaticDtorDeclaration *` is a `FuncDeclaration` used for its `vgate`. -/
abbrev StaticDtorDeclaration := FuncDeclaration

def FuncDeclaration.isSharedStaticCtorDeclaration (fd : FuncDeclaration) : Bool :=
  fd.kind == .sharedStaticCtor

def FuncDeclaration.isStaticCtorDeclaration (fd : FuncDeclaration) : Bool :=
  fd.kind == .staticCtor || fd.kind == .sharedStaticCtor

def FuncDeclaration.isSharedStaticDtorDeclaration (fd : FuncDeclaration) : Bool :=
  fd.kind == .sharedStaticDtor

def FuncDeclaration.isStaticDtorDeclaration (fd : FuncDeclaration) : Bool :=
  fd.kind == .staticDtor || fd.kind == .sharedStaticDtor

def FuncDeclaration.isUnitTestDeclaration (fd : FuncDeclaration) : Bool :=
  fd.kind == .unitTest

def FuncDeclaration.isCtorDeclaration (fd : FuncDeclaration) : Bool :=
  fd.kind == .ctor

/-! ## Expression trees of the drivers -/

/-- The back-end expression trees (`elem`) that the driver builders create. -/
inductive Elem where
  /-- `el_bin(OPaddass, TYint, el_var(v->toSymbol()), el_long(TYint, 1))`; the
  gate's symbol is named by its declaration -/
  | gateInc (v : VarDeclaration)
  /-- `el_una(OPucall, TYvoid, el_var(s))` -/
  | ucall (s : Symbol)
  /-- the call of `_d_cover_register` with the two tables and the file name -/
  | dcover (covLen : Nat) (cov : Symbol) (bcovLen : Nat) (bcov : Symbol)
      (efilename : Option Symbol)
  /-- `el_bin(OPcomma, _, e1, e2)`: evaluate `e1`, then `e2` -/
  | comma (e1 e2 : Elem)
deriving DecidableEq, Repr

/-- Modelled from the spec: `el_combine` of the back end is not among the
sources at hand; it sequences its first argument before its second (the
driver "emits increment gate ... followed by a call to each constructor") and
returns the other argument when one is null. -/
def el_combine : Option Elem → Option Elem → Option Elem
  | some e1, some e2 => some (.comma e1 e2)
  | some e1, none => some e1
  | none, e2 => e2

/-- The operations of an expression tree in evaluation order. -/
def Elem.seq : Elem → List Elem
  | .comma e1 e2 => e1.seq ++ e2.seq
  | e => [e]

/-- Evaluation-order listing of a possibly null tree. -/
def elemSeq : Option Elem → List Elem
  | none => []
  | some e => e.seq

/-- Whether an operation is a gate increment. -/
def Elem.isGateInc : Elem → Bool
  | .gateInc _ => true
  | _ => false

/-! ## Bookkeeping sequences -/

/-- The file-level sequences `sctors`, `ectorgates`, `sdtors`, `stests`,
`ssharedctors`, `esharedctorgates`, `sshareddtors`. -/
structure Bookkeeping where
  sctors : List Symbol := []
  ectorgates : List StaticDtorDeclaration := []
  sdtors : List Symbol := []
  stests : List Symbol := []
  ssharedctors : List Symbol := []
  esharedctorgates : List StaticDtorDeclaration := []
  sshareddtors : List Symbol := []
deriving DecidableEq, Repr

/-- The state after the `setDim(0)` calls at the top of `Module::genobjfile`. -/
def Bookkeeping.reset : Bookkeeping := {}

/-- Modelled from the spec: `ArrayBase::push` is not among the sources at hand;
registration "appends to the relevant sequence". -/
def push {α : Type} (a : List α) (x : α) : List α := a ++ [x]

/-- Modelled from the spec: `ArrayBase::shift` is not among the sources at hand;
"destructor registration additionally prepends (not appends) to its sequence". -/
def shift {α : Type} (a : List α) (x : α) : List α := x :: a

/-- Registration of static constructors (glue.c lines 952-963). -/
def registerCtor (fd : FuncDeclaration) (bk : Bookkeeping) : Bookkeeping :=
  if fd.isSharedStaticCtorDeclaration then
    { bk with ssharedctors := push bk.ssharedctors fd.sym }
  else if fd.isStaticCtorDeclaration then
    { bk with sctors := push bk.sctors fd.sym }
  else bk

/-- Registration of static destructors (glue.c lines 965-992). -/
def registerDtor (fd : FuncDeclaration) (bk : Bookkeeping) : Bookkeeping :=
  if fd.isSharedStaticDtorDeclaration then
    let bk1 := if fd.vgate.isSome then
        { bk with esharedctorgates := push bk.esharedctorgates fd } else bk
    { bk1 with sshareddtors := shift bk1.sshareddtors fd.sym }
  else if fd.isStaticDtorDeclaration then
    let bk1 := if fd.vgate.isSome then
        { bk with ectorgates := push bk.ectorgates fd } else bk
    { bk1 with sdtors := shift bk1.sdtors fd.sym }
  else bk

/-- Registration of unit tests (glue.c lines 994-998). -/
def registerTest (fd : FuncDeclaration) (bk : Bookkeeping) : Bookkeeping :=
  if fd.isUnitTestDeclaration then { bk with stests := push bk.stests fd.sym } else bk

/-- The bookkeeping part of `FuncDeclaration::toObjFile` (glue.c lines 952-998),
run once for every routine that is lowered. -/
def toObjFile_register (fd : FuncDeclaration) (bk : Bookkeeping) : Bookkeeping :=
  registerTest fd (registerDtor fd (registerCtor fd bk))

/-- The bookkeeping after lowering the routines `fds` in that order, starting
from the reset done by `Module::genobjfile`. -/
def registerAll (fds : List FuncDeclaration) : Bookkeeping :=
  fds.foldl (fun bk fd => toObjFile_register fd bk) Bookkeeping.reset

/-! ## `callFuncsAndGates` -/

/-- A function handed to `writefunc`: its name and the tree of its one block. -/
structure Driver where
  id : String
  Belem : Option Elem
deriving DecidableEq, Repr

/-- The gate loop of `callFuncsAndGates` (lines 182-189), continued from `ector`. -/
def gateLoop : List StaticDtorDeclaration → Option Elem → Except Fault (Option Elem)
  | [], ector => .ok ector
  | f :: fs, ector =>
    match f.vgate with
    | none => .error .nullDeref
    | some v => gateLoop fs (el_combine ector (some (.gateInc v)))

/-- The call loop of `callFuncsAndGates` (lines 194-198), continued from `ector`. -/
def callLoop : List Symbol → Option Elem → Option Elem
  | [], ector => ector
  | s :: ss, ector => callLoop ss (el_combine ector (some (.ucall s)))

/-- `callFuncsAndGates(m, sctors, ectorgates, id)`: `none` arguments are null
pointers; the result is the driver written by `writefunc`, or `none` for the
null symbol returned when there is nothing to call. -/
def callFuncsAndGates (sctors : Option (List Symbol))
    (ectorgates : Option (List StaticDtorDeclaration)) (id : String) :
    Except Fault (Option Driver) :=
  if (sctors.getD []).length != 0 || (ectorgates.getD []).length != 0 then
    let gated : Except Fault (Option Elem) :=
      match ectorgates with
      | some gs => gateLoop gs none
      | none => .ok none
    match gated with
    | .error f => .error f
    | .ok ector =>
      let ector := match sctors with
        | some ss => callLoop ss ector
        | none => ector
      .ok (some { id := id, Belem := ector })
  else .ok none

/-- The operations of a driver's body in evaluation order; empty for no driver. -/
def driverBody : Option Driver → List Elem
  | none => []
  | some d => elemSeq d.Belem

/-- The ordinary (non-shared) static destructors among `fds`, in order. -/
def ordinaryDtors (fds : List FuncDeclaration) : List FuncDeclaration :=
  fds.filter (fun fd => fd.kind == .staticDtor)

/-- The ordinary (non-shared) static constructors among `fds`, in order. -/
def ordinaryCtors (fds : List FuncDeclaration) : List FuncDeclaration :=
  fds.filter (fun fd => fd.kind == .staticCtor)

/-! ## The physical parameter list built by `FuncDeclaration::toObjFile` -/

/-- The symbols created so far: the cached `csym` of each variable declaration
that has one, and the next unused handle. -/
structure SymState where
  csym : List (Nat × Symbol) := []
  next : Symbol := 0
deriving DecidableEq, Repr

/-- The field `v->csym`, `none` when null. -/
def SymState.csymOf (st : SymState) (v : VarDeclaration) : Option Symbol :=
  st.csym.lookup v.ident

/-- Every cached symbol was handed out before: it is below the next handle. -/
def SymState.wf (st : SymState) : Prop :=
  ∀ p ∈ st.csym, p.2 < st.next

/-- Modelled from the spec: `symbol_name` / `symbol_calloc` of the back end are
not among the sources at hand; they allocate a new symbol, distinct from every
existing one. -/
def symbol_name (st : SymState) : Symbol × SymState :=
  (st.next, { st with next := st.next + 1 })

/-- Modelled from the spec: `VarDeclaration::toSymbol` is not among the sources
at hand.  It is the cached constructor that the source relies on when it tests
`v->csym` before the call (a "parameter already classified" is fatal): the
first call allocates the symbol and stores it in `csym`, later calls return it. -/
def VarDeclaration.toSymbol (v : VarDeclaration) (st : SymState) : Symbol × SymState :=
  match st.csymOf v with
  | some s => (s, st)
  | none => (st.next, { csym := (v.ident, st.next) :: st.csym, next := st.next + 1 })

/-- The hidden return pointer (lines 687-706): a new symbol `__HIDn` when the
return style is `RETstack`, else null. -/
def makeShidden (fd : FuncDeclaration) (st : SymState) : Option Symbol × SymState :=
  if fd.retStyle == .RETstack then
    let r := symbol_name st
    (some r.1, r.2)
  else (none, st)

/-- The context pointer (lines 714-721): `assert(!vthis->csym)`, then
`vthis->toSymbol()`. -/
def makeSthis (fd : FuncDeclaration) (st : SymState) : Except Fault (Option Symbol × SymState) :=
  match fd.vthis with
  | none => .ok (none, st)
  | some v =>
    if (st.csymOf v).isSome then .error .assertFailed
    else
      let r := v.toSymbol st
      .ok (some r.1, r.2)

/-- The estimate of lines 727-729, for which `pi + 2` entries are allocated. -/
def estimatePi (fd : FuncDeclaration) : Nat :=
  (if fd.v_arguments.isSome then 1 else 0) + (fd.parameters.getD []).length

/-- The loop of lines 742-750 over the declared parameters: a parameter that
already has a symbol is a fatal compiler error, otherwise its new symbol is
stored in the next entry. -/
def fillLoop : List VarDeclaration → List Symbol → SymState →
    Except Fault (List Symbol × SymState)
  | [], params, st => .ok (params, st)
  | v :: vs, params, st =>
    if (st.csymOf v).isSome then .error .assertFailed
    else
      let r := v.toSymbol st
      fillLoop vs (params ++ [r.1]) r.2

/-- Lines 733-752: the entries in source order, the variadic descriptor
`v_arguments` first when there is one. -/
def fillParams (fd : FuncDeclaration) (st : SymState) : Except Fault (List Symbol × SymState) :=
  let r : List Symbol × SymState :=
    match fd.v_arguments with
    | some va =>
      let r := va.toSymbol st
      ([r.1], r.2)
    | none => ([], st)
  match fd.parameters with
  | some ps => fillLoop ps r.1 r.2
  | none => .ok r

/-- Exchange of the entries `i` and `j` through a temporary (lines 758-760). -/
def swapEntries (p : List Symbol) (i j : Nat) : List Symbol :=
  match p[i]?, p[j]? with
  | some a, some b => (p.set i b).set j a
  | _, _ => p

/-- The reversal loop of lines 756-761: for `i < pi/2` exchange entries `i` and
`pi - 1 - i`. -/
def reverseEntries (params : List Symbol) : List Symbol :=
  (List.range (params.length / 2)).foldl
    (fun p i => swapEntries p i (params.length - 1 - i)) params

/-- The insertion of lines 771-772 and 785-786: `memmove` the entries up by one
and store `x` in entry 0. -/
def insertFirst (x : Symbol) (params : List Symbol) : List Symbol :=
  x :: params

/-- What the parameter code of `toObjFile` produces. -/
structure ParamList where
  params : List Symbol
  shidden : Option Symbol
  sthis : Option Symbol
  st : SymState
deriving DecidableEq, Repr

/-- Lines 687-789: the parameter array before the swap test of line 791. -/
def paramsBeforeSwap (fd : FuncDeclaration) (st : SymState) : Except Fault ParamList :=
  let h := makeShidden fd st
  match makeSthis fd h.2 with
  | .error f => .error f
  | .ok t =>
    match fillParams fd t.2 with
    | .error f => .error f
    | .ok r =>
      let p1 := if fd.tyrevfunc then reverseEntries r.1 else r.1
      let p2 := match h.1 with
        | some sh => insertFirst sh p1
        | none => p1
      let p3 := match t.1 with
        | some sth => insertFirst sth p2
        | none => p2
      .ok { params := p3, shidden := h.1, sthis := t.1, st := r.2 }

/-- The test of lines 791-792. -/
def swapApplies (gp : Param) (fd : FuncDeclaration) (shidden sthis : Option Symbol) : Bool :=
  (gp.isLinux || gp.isOSX || gp.isFreeBSD || gp.isSolaris) &&
    fd.linkage != .LINKd && shidden.isSome && sthis.isSome

/-- Lines 796-798: `sp = params[0]; params[0] = params[1]; params[1] = sp`. -/
def swapHidden (params : List Symbol) : List Symbol :=
  swapEntries params 0 1

/-- Lines 687-799: the final physical parameter array `params[0 .. pi-1]`. -/
def toObjFile_params (gp : Param) (fd : FuncDeclaration) (st : SymState) :
    Except Fault ParamList :=
  match paramsBeforeSwap fd st with
  | .error f => .error f
  | .ok r =>
    if swapApplies gp fd r.shidden r.sthis then .ok { r with params := swapHidden r.params }
    else .ok r

/-- The function type codes of the back end that `TypeFunction::totym` uses. -/
inductive TYM where
  | TYnfunc
  | TYnsfunc
  | TYnpfunc
  | TYjfunc
  | TYhfunc
deriving DecidableEq, Repr

/-- A type code `tym_t`: the basic code and the `mTYnothrow` bit. -/
structure Tym where
  basic : TYM
  mTYnothrow : Bool
deriving DecidableEq, Repr

/-- The fields of a `TypeFunction` read by `totym`. -/
structure TypeFunction where
  linkage : LINK := .LINKd
  varargs : Nat := 0
  isnothrow : Bool := false
  retStyle : RET := .RETregs
deriving DecidableEq, Repr

/-- `TypeFunction::totym()` (glue.c lines 1206-1246); the `default:` branch
ends in `assert(0)`. -/
def TypeFunction.totym (gp : Param) (tf : TypeFunction) : Except Fault Tym :=
  let tyf : Except Fault TYM :=
    match tf.linkage with
    | .LINKwindows => .ok (if tf.varargs == 1 then .TYnfunc else .TYnsfunc)
    | .LINKpascal => .ok (if tf.varargs == 1 then .TYnfunc else .TYnpfunc)
    | .LINKc =>
      .ok (if gp.targetPosix && (gp.I32 && tf.retStyle == .RETstack) then .TYhfunc
        else .TYnfunc)
    | .LINKd => .ok (if tf.varargs == 1 then .TYnfunc else .TYjfunc)
    | .LINKcpp => .ok .TYnfunc
    | .LINKdefault => .error .assertFailed
  match tyf with
  | .error f => .error f
  | .ok b => .ok { basic := b, mTYnothrow := tf.isnothrow }

/-! ## The lowering state and `FuncDeclaration::toObjFile` -/

/-- The mutable state touched by `FuncDeclaration::toObjFile`: the fields
`semanticRun` and `deferred` of every routine (keyed by its `ident`), the
bookkeeping sequences, the queue `obj_symbols_towrite`, `global.errors`, the
static flag of `onlyOneMain`, the symbols created, and the calls made to the
object writer (`writefunc`, `obj_export`, `objextdef`, `obj_includelib`) and to
`error`, each in the order made. -/
structure LowerState where
  semanticRun : Nat → PASS := fun _ => .PASSsemantic3done
  deferred : Nat → List Nat := fun _ => []
  bk : Bookkeeping := {}
  obj_symbols_towrite : List Nat := []
  errors : Nat := 0
  hasMain : Bool := false
  diagnostics : List String := []
  extdefs : List String := []
  includelibs : List String := []
  written : List Symbol := []
  exported : List Symbol := []
  syms : SymState := {}
  /-- the file-level `lastmname`, `none` when null -/
  lastmname : Option String := none
  /-- the static sequence counter `count` of `obj_write_deferred` -/
  count : Nat := 0

/-- The routines of the program; a symbol number that names none of them is a
symbol that is not a `FuncDeclaration`. -/
def lookupFunc (prog : List FuncDeclaration) (id : Nat) : Option FuncDeclaration :=
  prog.find? (fun fd => fd.ident == id)

/-- `semanticRun >= PASSobj`. -/
def PASS.geObj (p : PASS) : Bool := decide (PASS.PASSobj.toNat ≤ p.toNat)

/-- Store into the `semanticRun` field of routine `id`. -/
def LowerState.setSemanticRun (st : LowerState) (id : Nat) (p : PASS) : LowerState :=
  { st with semanticRun := fun i => if i = id then p else st.semanticRun i }

/-- `fdp->deferred.push(fd)`. -/
def LowerState.pushDeferred (st : LowerState) (fdp fd : Nat) : LowerState :=
  { st with deferred := fun i => if i = fdp then push (st.deferred i) fd else st.deferred i }

/-- `obj_append(s)` (lines 78-81). -/
def obj_append (s : Nat) (st : LowerState) : LowerState :=
  { st with obj_symbols_towrite := push st.obj_symbols_towrite s }

/-- Modelled from the spec: `error` of the front end is not among the sources at
hand; "diagnostic issued" and the global error count becomes non-zero. -/
def error (msg : String) (st : LowerState) : LowerState :=
  { st with errors := st.errors + 1, diagnostics := push st.diagnostics msg }

/-- `onlyOneMain(loc)` (lines 1049-1063). -/
def onlyOneMain (gp : Param) (st : LowerState) : Bool × LowerState :=
  if st.hasMain then
    (false, error (if gp.targetWindos then "only one main/WinMain/DllMain allowed"
      else "only one main allowed") st)
  else (true, { st with hasMain := true })

/-- `objextdef(name)`. -/
def objextdef (name : String) (st : LowerState) : LowerState :=
  { st with extdefs := push st.extdefs name }

/-- `obj_includelib(name)`. -/
def obj_includelib (name : String) (st : LowerState) : LowerState :=
  { st with includelibs := push st.includelibs name }

/-- The condition `c && onlyOneMain(loc)`: `onlyOneMain` is called only when
`c` holds. -/
def andOnlyOneMain (gp : Param) (c : Bool) (st : LowerState) : Bool × LowerState :=
  if c then onlyOneMain gp st else (false, st)

/-- The `else` branch of lines 613-656: pulling in the startup code for the
program entry routines. -/
def toObjFile_startup (gp : Param) (fd : FuncDeclaration) (st : LowerState) : LowerState :=
  let r1 := andOnlyOneMain gp fd.isMain st
  if r1.1 then
    let a := objextdef "_main" r1.2
    let b := if gp.targetWindos then objextdef "__acrtused_con" a else a
    obj_includelib gp.libname b
  else if fd.sidentMain && fd.linkage == .LINKc then
    if gp.targetWindos then obj_includelib "snn.lib" ( objextdef "__acrtused_con" r1.2)
    else r1.2
  else if gp.targetWindos then
    let r2 := andOnlyOneMain gp fd.isWinMain r1.2
    if r2.1 then obj_includelib gp.libname ( objextdef "__acrtused" r2.2)
    else
      let r3 := andOnlyOneMain gp fd.isDllMain r2.2
      if r3.1 then obj_includelib gp.libname ( objextdef "__acrtused_dll" r3.2)
      else r3.2
  else r1.2

/-- The type of the recursive calls `x->toObjFile(multiobj)`. -/
abbrev ToObjFile := Bool → Nat → LowerState → Except Fault LowerState

/-- Lines 585-612: for a nested routine, the enclosing routine `fdp` is lowered
first when it lies inside a template instance (`owner`), its `semanticRun` is
`PASSsemantic3done` and it is not a unit test. -/
def toObjFile_enclosing (self : ToObjFile) (prog : List FuncDeclaration) (multiobj : Bool)
    (fd : FuncDeclaration) (st : LowerState) : Except Fault LowerState :=
  match fd.enclosing.bind (lookupFunc prog) with
  | none => .ok st
  | some fdp =>
    if fdp.inTemplateInstance && st.semanticRun fdp.ident == .PASSsemantic3done &&
        !fdp.isUnitTestDeclaration then
      self multiobj fdp.ident st
    else .ok st

/-- The loop of lines 1007-1027 over `irs.deferToObj`. -/
def deferToObjLoop (self : ToObjFile) (prog : List FuncDeclaration) :
    List Nat → LowerState → Except Fault LowerState
  | [], st => .ok st
  | s :: rest, st =>
    let queued : Option Nat :=
      match lookupFunc prog s with
      | none => none
      | some fd =>
        match fd.enclosing.bind (lookupFunc prog) with
        | none => none
        | some fdp => if !(st.semanticRun fdp.ident).geObj then some fdp.ident else none
    match queued with
    | some fdp => deferToObjLoop self prog rest (st.pushDeferred fdp s)
    | none =>
      match self false s st with
      | .error f => .error f
      | .ok st1 => deferToObjLoop self prog rest st1

/-- The loop of lines 1029-1033 over `this->deferred`, whose length is read
again at every iteration; `n` bounds the number of calls made. -/
def deferredLoop (self : ToObjFile) (id : Nat) : Nat → Nat → LowerState →
    Except Fault LowerState
  | n, i, st =>
    match (st.deferred id)[i]? with
    | none => .ok st
    | some fd =>
      match n with
      | 0 => .error .outOfFuel
      | m + 1 =>
        match self false fd st with
        | .error f => .error f
        | .ok st1 => deferredLoop self id m (i + 1) st1

/-- Lines 658-1033: the parameter list, the body, the registration in the
bookkeeping sequences, and, unless errors were reported, `writefunc` followed by
the two loops over the postponed routines. -/
def toObjFile_emit (self : ToObjFile) (prog : List FuncDeclaration) (gp : Param)
    (fuel : Nat) (fd : FuncDeclaration) (st : LowerState) : Except Fault LowerState :=
  match toObjFile_params gp fd st.syms with
  | .error f => .error f
  | .ok pl =>
    if fd.isCtorDeclaration && pl.sthis.isNone then .error .assertFailed
    else
      let st1 := { st with syms := pl.st, bk := toObjFile_register fd st.bk }
      if st1.errors != 0 then .ok st1
      else
        let st2 := { st1 with written := push st1.written fd.sym }
        let st3 := if fd.isExport then { st2 with exported := push st2.exported fd.sym }
          else st2
        match deferToObjLoop self prog fd.bodyDefers st3 with
        | .error f => .error f
        | .ok st4 => deferredLoop self fd.ident fuel 0 st4

/-- The body of `FuncDeclaration::toObjFile(multiobj)` (lines 506-1047), with
`self` standing for the recursive calls. -/
def toObjFile_body (self : ToObjFile) (prog : List FuncDeclaration) (gp : Param)
    (fuel : Nat) (multiobj : Bool) (fd : FuncDeclaration) (st : LowerState) :
    Except Fault LowerState :=
  if (st.semanticRun fd.ident).geObj then .ok st
  else if fd.retError then .ok st
  else if !fd.fbody then .ok st
  else if fd.isUnitTestDeclaration && !gp.useUnitTests then .ok st
  else if multiobj && !fd.isStaticDtorDeclaration && !fd.isStaticCtorDeclaration then
    .ok (obj_append fd.ident st)
  else if st.semanticRun fd.ident != .PASSsemantic3done then .error .assertFailed
  else
    let st1 := st.setSemanticRun fd.ident .PASSobj
    let st2 : Except Fault LowerState :=
      if fd.isNested then toObjFile_enclosing self prog multiobj fd st1
      else .ok (toObjFile_startup gp fd st1)
    match st2 with
    | .error f => .error f
    | .ok st3 => toObjFile_emit self prog gp fuel fd st3

/-- `s->toObjFile(multiobj)` for the symbol numbered `id`, with `fuel` bounding
the depth of the recursion and the length of the `deferred` loops.  For a symbol
that is not a routine the call is outside this embedding and leaves the state
as it is. -/
def toObjFile (prog : List FuncDeclaration) (gp : Param) :
    Nat → Bool → Nat → LowerState → Except Fault LowerState
  | 0, _, _, _ => .error .outOfFuel
  | fuel + 1, multiobj, id, st =>
    match lookupFunc prog id with
    | none => .ok st
    | some fd => toObjFile_body (toObjFile prog gp fuel) prog gp fuel multiobj fd st

/-- What later states keep of earlier ones: a routine that reached `PASSobj`
stays there, the error count does not decrease, and what was written stays
written. -/
def Grows (a b : LowerState) : Prop :=
  (∀ k, (a.semanticRun k).geObj = true → (b.semanticRun k).geObj = true) ∧
  a.errors ≤ b.errors ∧
  (∀ s, s ∈ a.written → s ∈ b.written)

/-- The recursive calls keep what `Grows` records. -/
def SelfGrows (self : ToObjFile) : Prop :=
  ∀ mo id st st2, self mo id st = .ok st2 → Grows st st2

/-- A module reached through `aimports`: what `Module::genobjfile` reads of it,
namely which of its driver symbols are set, its module-info symbol
`m->toSymbol()` and that symbol's `Sxtrnnum`. -/
structure ImportedModule where
  number : Nat := 0
  sictor : Bool := false
  sctor : Bool := false
  sdtor : Bool := false
  ssharedctor : Bool := false
  sshareddtor : Bool := false
  infoSym : Symbol := 0
  Sxtrnnum : Nat := 0
deriving DecidableEq, Repr

/-- The fields of a `Module` read or written by `Module::genobjfile` and
`obj_write_deferred`. -/
structure Module where
  doppelganger : Bool := false
  numlines : Nat := 0
  /-- the `__coverage` table symbol -/
  cov : Symbol := 0
  /-- the file-name symbol `sfilename`, `none` when null -/
  sfilename : Option Symbol := none
  /-- identity of the module object -/
  number : Nat := 0
  /-- `ident->toChars()` -/
  ident : String := ""
  /-- `srcfile->toChars()` -/
  srcfile : String := ""
  /-- the module declaration `md`, `none` when null -/
  md : Option Nat := none
  /-- the member symbols, by number -/
  members : List Nat := []
  aimports : List ImportedModule := []
  massert : Option Symbol := none
  munittest : Option Symbol := none
  marray : Option Symbol := none
  /-- the module-info symbol `toSymbol()` and its `Sxtrnnum` -/
  infoSym : Symbol := 0
  Sxtrnnum : Nat := 0
  sictor : Option Driver := none
  sctor : Option Driver := none
  sdtor : Option Driver := none
  ssharedctor : Option Driver := none
  sshareddtor : Option Driver := none
  stest : Option Driver := none
deriving DecidableEq, Repr

/-- The module `m` as an entry of another module's `aimports`. -/
def Module.toImport (m : Module) : ImportedModule :=
  { number := m.number, sictor := m.sictor.isSome, sctor := m.sctor.isSome,
    sdtor := m.sdtor.isSome, ssharedctor := m.ssharedctor.isSome,
    sshareddtor := m.sshareddtor.isSome, infoSym := m.infoSym, Sxtrnnum := m.Sxtrnnum }

/-- The tree `eictor` at line 392: reset to null at line 277 and, with coverage
on, set to the `_d_cover_register` call combined in front of it (lines 383-388);
`bcov` is the `__bcoverage` table symbol, and `m` the module once `toEfilename()`
has set `sfilename`. -/
def genobjfile_eictor (params : Param) (m : Module) (bcov : Symbol) : Option Elem :=
  if params.cov then
    el_combine (some (.dcover m.numlines m.cov m.numlines bcov m.sfilename)) none
  else none

/-- The driver symbols of a module after synthesis, and the functions handed to
`writefunc`, in the order written. -/
structure Drivers where
  sictor : Option Driver := none
  sctor : Option Driver := none
  sdtor : Option Driver := none
  ssharedctor : Option Driver := none
  sshareddtor : Option Driver := none
  stest : Option Driver := none
  written : List Driver := []
deriving DecidableEq, Repr

/-- Lines 392-416 of `Module::genobjfile`: synthesis of the drivers from
`eictor` and the bookkeeping sequences. -/
def genobjfile_drivers (eictor : Option Elem) (bk : Bookkeeping) : Except Fault Drivers :=
  if eictor.isSome || bk.sctors.length != 0 || bk.ectorgates.length != 0 ||
      bk.sdtors.length != 0 || bk.ssharedctors.length != 0 ||
      bk.esharedctorgates.length != 0 || bk.sshareddtors.length != 0 ||
      bk.stests.length != 0 then
    let sictor : Option Driver :=
      if eictor.isSome then some { id := "__modictor", Belem := eictor } else none
    match callFuncsAndGates (some bk.sctors) (some bk.ectorgates) "__modctor" with
    | .error f => .error f
    | .ok sctor =>
    match callFuncsAndGates (some bk.sdtors) none "__moddtor" with
    | .error f => .error f
    | .ok sdtor =>
    match callFuncsAndGates (some bk.ssharedctors) (some bk.esharedctorgates)
        "__modsharedctor" with
    | .error f => .error f
    | .ok ssharedctor =>
    match callFuncsAndGates (some bk.sshareddtors) none "__modshareddtor" with
    | .error f => .error f
    | .ok sshareddtor =>
    match callFuncsAndGates (some bk.stests) none "__modtest" with
    | .error f => .error f
    | .ok stest =>
      .ok { sictor := sictor, sctor := sctor, sdtor := sdtor, ssharedctor := ssharedctor,
            sshareddtor := sshareddtor, stest := stest,
            written := sictor.toList ++ sctor.toList ++ sdtor.toList ++
              ssharedctor.toList ++ sshareddtor.toList ++ stest.toList }
  else .ok {}

/-- The unit of the spec's concrete scenario: constructors `A`, `B` registered,
then destructors `Da` (with gate `Ga`) and `Db`. -/
def scenarioM : List FuncDeclaration :=
  [ { ident := 1, sym := 101, kind := .staticCtor },
    { ident := 2, sym := 102, kind := .staticCtor },
    { ident := 3, sym := 103, kind := .staticDtor, vgate := some ⟨7⟩ },
    { ident := 4, sym := 104, kind := .staticDtor } ]

/-- The drivers synthesized for `scenarioM`. -/
def scenarioDrivers : Drivers :=
  let ctor : Driver :=
    { id := "__modctor",
      Belem := some (.comma (.comma (.gateInc ⟨7⟩) (.ucall 101)) (.ucall 102)) }
  let dtor : Driver :=
    { id := "__moddtor", Belem := some (.comma (.ucall 104) (.ucall 103)) }
  { sctor := some ctor, sdtor := some dtor, written := [ctor, dtor] }

/-- A member routine returning through a hidden pointer, with two declared
parameters. -/
def exHiddenThis : FuncDeclaration :=
  { retStyle := .RETstack, vthis := some ⟨1⟩, parameters := some [⟨2⟩, ⟨3⟩] }

/-- The parameter list of `exHiddenThis` on a target without the swap
exception: symbol 0 is the hidden return pointer, symbol 1 the context. -/
def exHiddenThisResult : ParamList :=
  { params := [1, 0, 2, 3], shidden := some 0, sthis := some 1,
    st := { csym := [(3, 3), (2, 2), (1, 1)], next := 4 } }

/-- The same routine with C linkage, for a Linux target. -/
def exHiddenThisC : FuncDeclaration :=
  { linkage := .LINKc, retStyle := .RETstack, vthis := some ⟨1⟩,
    parameters := some [⟨2⟩, ⟨3⟩] }

/-- A Linux target. -/
def exLinux : Param := { isLinux := true, targetPosix := true }

/-- A D variadic member routine (`linkage == LINKd`, `varargs == 1`) with the
descriptor `_arguments` and two declared parameters. -/
def exVariadic : FuncDeclaration :=
  { varargs := 1, vthis := some ⟨1⟩, v_arguments := some ⟨9⟩,
    parameters := some [⟨2⟩, ⟨3⟩] }

/-- The parameter list of `exVariadic`: context 0, descriptor 1, parameters 2, 3. -/
def exVariadicResult : ParamList :=
  { params := [0, 1, 2, 3], shidden := none, sthis := some 0,
    st := { csym := [(3, 3), (2, 2), (9, 1), (1, 0)], next := 4 } }

/-- The shared static destructors among `fds`, in order. -/
def sharedDtors (fds : List FuncDeclaration) : List FuncDeclaration :=
  fds.filter (fun fd => fd.kind == .sharedStaticDtor)

/-- The shared static constructors among `fds`, in order. -/
def sharedCtors (fds : List FuncDeclaration) : List FuncDeclaration :=
  fds.filter (fun fd => fd.kind == .sharedStaticCtor)

/-- The unit tests among `fds`, in order. -/
def unitTests (fds : List FuncDeclaration) : List FuncDeclaration :=
  fds.filter (fun fd => fd.kind == .unitTest)

/-- A relation between an earlier and a later lowering state that is kept by
every state update `FuncDeclaration::toObjFile` makes, apart from `obj_append`. -/
structure StepInv (R : LowerState → LowerState → Prop) : Prop where
  refl : ∀ st, R st st
  trans : ∀ a b c, R a b → R b c → R a c
  setObj : ∀ st id, (st.semanticRun id).geObj = false → R st (st.setSemanticRun id .PASSobj)
  pushDef : ∀ st fdp s, (st.semanticRun fdp).geObj = false → R st (st.pushDeferred fdp s)
  oneMain : ∀ gp st, R st (onlyOneMain gp st).2
  extName : ∀ name st, R st (objextdef name st)
  inclib : ∀ name st, R st (obj_includelib name st)
  register : ∀ (st : LowerState) fd syms,
    R st { st with syms := syms, bk := toObjFile_register fd st.bk }
  write : ∀ (st : LowerState) s, R st { st with written := push st.written s }
  expSym : ∀ (st : LowerState) s, R st { st with exported := push st.exported s }

/-- The relation is also kept by `obj_append` of a routine not yet lowered. -/
def AppendOK (R : LowerState → LowerState → Prop) : Prop :=
  ∀ st id, (st.semanticRun id).geObj = false → R st (obj_append id st)

/-- The recursive calls keep the relation `R`; calls in unit-splitting mode are
covered only when `obj_append` keeps it. -/
def SelfRespects (R : LowerState → LowerState → Prop) (self : ToObjFile) : Prop :=
  ∀ mo id st st2, (mo = true → AppendOK R) → self mo id st = .ok st2 → R st st2

/-- Every entry of the sequences of `a` is still an entry of the same sequence
of `b`. -/
def Bookkeeping.le (a b : Bookkeeping) : Prop :=
  (∀ s, s ∈ a.sctors → s ∈ b.sctors) ∧
  (∀ f, f ∈ a.ectorgates → f ∈ b.ectorgates) ∧
  (∀ s, s ∈ a.sdtors → s ∈ b.sdtors) ∧
  (∀ s, s ∈ a.stests → s ∈ b.stests) ∧
  (∀ s, s ∈ a.ssharedctors → s ∈ b.ssharedctors) ∧
  (∀ f, f ∈ a.esharedctorgates → f ∈ b.esharedctorgates) ∧
  (∀ s, s ∈ a.sshareddtors → s ∈ b.sshareddtors)

/-- What a later state `b` keeps of an earlier state `a`: routines at `PASSobj`
stay there; the log of `writefunc` calls is only extended; the `deferred` queue
of a routine at `PASSobj` is not touched; the error count does not decrease; a
routine at `PASSobj` is not appended to `obj_symbols_towrite`; and the
bookkeeping sequences keep their entries. -/
def Stable (a b : LowerState) : Prop :=
  (∀ k, (a.semanticRun k).geObj = true → (b.semanticRun k).geObj = true) ∧
  (∃ w, b.written = a.written ++ w) ∧
  (∀ k, (a.semanticRun k).geObj = true → b.deferred k = a.deferred k) ∧
  a.errors ≤ b.errors ∧
  (∀ k, (a.semanticRun k).geObj = true →
    b.obj_symbols_towrite.count k = a.obj_symbols_towrite.count k) ∧
  Bookkeeping.le a.bk b.bk

/-- The queue `obj_symbols_towrite` is the same in both states. -/
def SameQueue (a b : LowerState) : Prop :=
  b.obj_symbols_towrite = a.obj_symbols_towrite

/-- The state of `toObjFile_emit` at line 1000: the parameter symbols created
and the routine registered in the bookkeeping sequences. -/
def emitRegistered (fd : FuncDeclaration) (pl : ParamList) (st : LowerState) : LowerState :=
  { st with syms := pl.st, bk := toObjFile_register fd st.bk }

/-- The state of `toObjFile_emit` at line 1007: after `writefunc(s)` and, for an
exported routine, `obj_export`. -/
def emitWritten (fd : FuncDeclaration) (st : LowerState) : LowerState :=
  if fd.isExport then
    { st with written := push st.written fd.sym, exported := push st.exported fd.sym }
  else { st with written := push st.written fd.sym }

/-- A unit of one unit test (number 1, symbol 11), to be lowered with unit
tests enabled. -/
def progTest : List FuncDeclaration :=
  [ { ident := 1, sym := 11, kind := .unitTest } ]

/-- A unit of one ordinary routine (number 1, symbol 11). -/
def progOne : List FuncDeclaration :=
  [ { ident := 1, sym := 11 } ]

/-- The ordinary routine of `progOne`. -/
def exOne : FuncDeclaration := { ident := 1, sym := 11 }

/-- A unit of one static constructor (number 1, symbol 11). -/
def progCtor : List FuncDeclaration :=
  [ { ident := 1, sym := 11, kind := .staticCtor } ]

/-- The static constructor of `progCtor`. -/
def exCtor : FuncDeclaration := { ident := 1, sym := 11, kind := .staticCtor }

/-- What is observed of a lowering state in the unit-splitting examples: the
queue `obj_symbols_towrite`, the `semanticRun` of routine 1, the sequences
`sctors` and `stests`, and the symbols written. -/
def observeSplit (r : Except Fault LowerState) :
    Except Fault (List Nat × PASS × List Symbol × List Symbol × List Symbol) :=
  r.map (fun s => (s.obj_symbols_towrite, s.semanticRun 1, s.bk.sctors, s.bk.stests, s.written))

/-- What one run of `Module::genobjfile` hands to the object writer. -/
structure UnitOutput where
  /-- symbols referenced through `reftoident` (lines 308-310) -/
  refs : List Symbol := []
  /-- data symbols handed to `outdata`, in the order of the calls -/
  data : List Symbol := []
  /-- routines handed to `writefunc` while the members were lowered -/
  funcs : List Symbol := []
  /-- driver functions handed to `writefunc` (lines 405-415) -/
  drivers : List Driver := []
  /-- number of calls of `genmoduleinfo()` -/
  moduleInfo : Nat := 0
  /-- the functions `marray`, `massert`, `munittest` written at line 496 -/
  support : List Symbol := []
deriving DecidableEq, Repr

/-- Lines 289-316: a doppelganger refers to the module-info symbol of the
module it imports, when that module has an initializer driver and the symbol
has no external number yet.  The result lists the symbols referenced. -/
def genobjfile_reference (m : Module) : Except Fault (List Symbol) :=
  if m.doppelganger then
    match m.aimports[0]? with
    | none => .error .assertFailed
    | some m0 =>
      if m0.sictor || m0.sctor || m0.sdtor || m0.ssharedctor || m0.sshareddtor then
        if m0.Sxtrnnum == 0 then .ok [m0.infoSym] else .ok []
      else .ok []
  else .ok []

/-- Lines 318-337: with coverage on, the table `__coverage` is created and
handed to `outdata`. -/
def genobjfile_cov (gp : Param) (m : Module) (st : LowerState) :
    Module × List Symbol × LowerState :=
  if gp.cov then
    let r := symbol_name st.syms
    ({ m with cov := r.1 }, [r.1], { st with syms := r.2 })
  else (m, [], st)

/-- The loop of lines 339-343: `member->toObjFile(multiobj)` for every member
in turn. -/
def membersLoop (self : ToObjFile) (multiobj : Bool) :
    List Nat → LowerState → Except Fault LowerState
  | [], st => .ok st
  | member :: rest, st =>
    match self multiobj member st with
    | .error f => .error f
    | .ok st1 => membersLoop self multiobj rest st1

/-- `Module::toEfilename()` (lines 1288-1318): the symbol `sfilename` is created
and handed to `outdata` on the first call. -/
def toEfilename (m : Module) (st : LowerState) : Module × List Symbol × LowerState :=
  match m.sfilename with
  | some _ => (m, [], st)
  | none =>
    let r := symbol_name st.syms
    ({ m with sfilename := some r.1 }, [r.1], { st with syms := r.2 })

/-- Lines 345-390: with coverage on, the table `__bcoverage` is created and
handed to `outdata`, and `eictor` becomes the `_d_cover_register` call.  The
result is the module, `eictor`, the symbols handed to `outdata`, and the state. -/
def genobjfile_bcov (gp : Param) (m : Module) (st : LowerState) :
    Module × Option Elem × List Symbol × LowerState :=
  if gp.cov then
    let r := symbol_name st.syms
    let e := toEfilename m { st with syms := r.2 }
    (e.1, genobjfile_eictor gp e.1 r.1, r.1 :: e.2.1, e.2.2)
  else (m, none, [], st)

/-- The condition of line 393. -/
def genobjfile_entered (eictor : Option Elem) (bk : Bookkeeping) : Bool :=
  eictor.isSome || bk.sctors.length != 0 || bk.ectorgates.length != 0 ||
    bk.sdtors.length != 0 || bk.ssharedctors.length != 0 ||
    bk.esharedctorgates.length != 0 || bk.sshareddtors.length != 0 ||
    bk.stests.length != 0

/-- The driver fields of the module after lines 392-416: `sictor` is assigned
only with coverage on (line 378), the others only inside the block of line 393. -/
def Module.setDrivers (m : Module) (entered : Bool) (drv : Drivers) : Module :=
  let m1 := if drv.sictor.isSome then { m with sictor := drv.sictor } else m
  if entered then
    { m1 with sctor := drv.sctor, sdtor := drv.sdtor, ssharedctor := drv.ssharedctor,
              sshareddtor := drv.sshareddtor, stest := drv.stest }
  else m1

/-- Modelled from the spec: `Module::toModuleAssert`, `toModuleUnittest` and
`toModuleArray` are not among the sources at hand.  Each returns the symbol of
the support function, creating it when the field is still null, so that after
lines 433-435 the three fields are set. -/
def toModuleSupport (m : Module) (st : LowerState) : Module × LowerState :=
  let a := match m.massert with
    | some x => (x, st.syms)
    | none => symbol_name st.syms
  let u := match m.munittest with
    | some x => (x, a.2)
    | none => symbol_name a.2
  let r := match m.marray with
    | some x => (x, u.2)
    | none => symbol_name u.2
  ({ m with massert := some a.1, munittest := some u.1, marray := some r.1 },
   { st with syms := r.2 })

/-- Lines 273-287: `lastmname` is set and the bookkeeping sequences are
emptied. -/
def genobjfile_init (m : Module) (st : LowerState) : LowerState :=
  { st with lastmname := some m.srcfile, bk := Bookkeeping.reset }

/-- Lines 417-500, after the drivers `drv` were synthesized: `st` is the state
on entry of `genobjfile`, `refs` the references made for a doppelganger, `c` the
result of lines 318-337, `st2` the state after the members loop and `b` the
result of lines 345-390.  A doppelganger generates its module info only inside
the block of line 393 and returns at line 424; another module creates the
support functions when `global.params.multiobj` is set, generates its module
info, and writes the support functions that exist. -/
def genobjfile_exit (gp : Param) (m : Module) (st : LowerState) (refs : List Symbol)
    (c : Module × List Symbol × LowerState) (st2 : LowerState)
    (b : Module × Option Elem × List Symbol × LowerState) (drv : Drivers) :
    Module × UnitOutput × LowerState :=
  let entered := genobjfile_entered b.2.1 b.2.2.2.bk
  let m3 := b.1.setDrivers entered drv
  let out : UnitOutput :=
    { refs := refs, data := c.2.1 ++ b.2.2.1,
      funcs := st2.written.drop st.written.length,
      drivers := drv.written,
      moduleInfo := if entered && m.doppelganger then 1 else 0 }
  if m.doppelganger then (m3, out, b.2.2.2)
  else
    let s := if gp.multiobj then toModuleSupport m3 b.2.2.2 else (m3, b.2.2.2)
    (s.1,
      { out with moduleInfo := out.moduleInfo + 1,
                 support := s.1.marray.toList ++ s.1.massert.toList ++
                   s.1.munittest.toList },
      s.2)

/-- `Module::genobjfile(multiobj)` (lines 267-501).  The result is the module
with its driver fields set, what was handed to the object writer, and the
lowering state; `fuel` bounds the lowering of the members. -/
def genobjfile (prog : List FuncDeclaration) (gp : Param) (fuel : Nat) (m : Module)
    (multiobj : Bool) (st : LowerState) : Except Fault (Module × UnitOutput × LowerState) :=
  match genobjfile_reference m with
  | .error f => .error f
  | .ok refs =>
    let c := genobjfile_cov gp m (genobjfile_init m st)
    match membersLoop (toObjFile prog gp fuel) multiobj c.1.members c.2.2 with
    | .error f => .error f
    | .ok st2 =>
      let b := genobjfile_bcov gp c.1 st2
      match genobjfile_drivers b.2.1 b.2.2.2.bk with
      | .error f => .error f
      | .ok drv => .ok (genobjfile_exit gp m st refs c st2 b drv)

/-- One argument of a `printf` call: a string, an `int`, or an `unsigned`. -/
inductive PrintfArg where
  | str (s : String)
  | int (i : Int)
  | uns (n : Nat)
deriving DecidableEq, Repr

/-- Modelled from the spec: `OutBuffer::printf` is not among the sources at
hand; it formats as C `printf` does.  Only the conversions that glue.c uses are
covered: `%s` copies a string, `%d` writes an `int` in decimal, `%x` writes an
`unsigned` in lowercase hexadecimal digits, none of them padded; every other
character of the format is copied. -/
def printfLoop : List Char → List PrintfArg → List Char
  | [], _ => []
  | '%' :: 's' :: fmt, .str s :: args => s.data ++ printfLoop fmt args
  | '%' :: 'd' :: fmt, .int i :: args => (toString i).data ++ printfLoop fmt args
  | '%' :: 'x' :: fmt, .uns n :: args => Nat.toDigits 16 n ++ printfLoop fmt args
  | c :: fmt, args => c :: printfLoop fmt args

/-- The text that `OutBuffer::printf(format, args...)` appends to an empty
buffer. -/
def OutBuffer.printf (format : String) (args : List PrintfArg) : String :=
  String.mk (printfLoop format.data args)

/-- The value that `hash += *p` adds for the byte `b`: `*p` has type `char` and
is converted to `unsigned`, so a byte above 127 of a signed `char` counts as
`b - 256` modulo `2 ^ 32`. -/
def charValue (gp : Param) (b : Nat) : Nat :=
  if gp.charSigned && decide (128 ≤ b % 256) then 2 ^ 32 - 256 + b % 256 else b % 256

/-- The loop of lines 135-137 over the bytes of `s->toChars()`, up to the
terminating zero, with `unsigned` arithmetic. -/
def nameHash (gp : Param) : List Nat → Nat → Nat
  | [], hash => hash
  | b :: p, hash =>
    if b % 256 = 0 then hash else nameHash gp p ((hash + charValue gp b) % 2 ^ 32)

/-- Lines 115-126: the module `md` created for the deferred symbol `s`. -/
def shadowModule (m : Option Module) (mname idstr : String) (s : Nat) : Module :=
  let md : Module := { srcfile := mname, ident := idstr, members := [s] }
  match m with
  | some m =>
    { md with doppelganger := true, md := m.md, aimports := [m.toImport],
              massert := m.massert, munittest := m.munittest, marray := m.marray }
  | none => md

/-- One object file written by `obj_write_deferred`: the deferred symbol, the
sequence number and source name used, the module `md` handed to
`genobjfile(0)`, what that call handed to the object writer, and the name of
the object file. -/
structure Shadow where
  sym : Nat
  count : Nat
  mname : String
  md : Module
  out : UnitOutput
  fname : String
deriving DecidableEq, Repr

/-- The name of the object file (lines 133-141) for the source name `mname`,
the sequence number `count` and the display name `name` of the symbol. -/
def shadowFileName (gp : Param) (removeExt : String → String) (mname : String) (count : Nat)
    (name : List Nat) : String :=
  OutBuffer.printf "%s_%x_%x.%s"
    [.str (removeExt mname), .uns (count % 2 ^ 32), .uns (nameHash gp name 0), .str gp.obj_ext]

/-- One iteration of the loop of `obj_write_deferred` (lines 86-145) for the
queue entry `s`.  `getModule s` is `s->getModule()`, `toChars s` the bytes of
`s->toChars()`, and `removeExt` is `FileName::removeExt`; the counter `count` is
taken as unbounded. -/
def obj_write_deferred_step (prog : List FuncDeclaration) (gp : Param) (fuel : Nat)
    (getModule : Nat → Option Module) (toChars : Nat → List Nat)
    (removeExt : String → String) (s : Nat) (st : LowerState) :
    Except Fault (Shadow × LowerState) :=
  let m := getModule s
  let mname? : Option String :=
    match m with
    | some m => some m.srcfile
    | none => st.lastmname
  match mname? with
  | none => .error .assertFailed
  | some mname =>
    let st1 : LowerState := { st with lastmname := some mname, count := st.count + 1 }
    let idstr := OutBuffer.printf "%s.%d"
      [.str (match m with
        | some m => m.ident
        | none => mname), .int st1.count]
    let md := shadowModule m mname idstr s
    match genobjfile prog gp fuel md false st1 with
    | .error f => .error f
    | .ok r =>
      .ok ({ sym := s, count := st1.count, mname := mname, md := md, out := r.2.1,
             fname := shadowFileName gp removeExt mname st1.count (toChars s) }, r.2.2)

/-- The loop of lines 85-146, whose bound `obj_symbols_towrite.dim` is read
again at every iteration; `n` bounds the number of iterations made. -/
def obj_write_deferred_loop (step : Nat → LowerState → Except Fault (Shadow × LowerState)) :
    Nat → Nat → LowerState → List Shadow → Except Fault (List Shadow × LowerState)
  | n, i, st, acc =>
    match st.obj_symbols_towrite[i]? with
    | none => .ok (acc, st)
    | some s =>
      match n with
      | 0 => .error .outOfFuel
      | k + 1 =>
        match step s st with
        | .error f => .error f
        | .ok r => obj_write_deferred_loop step k (i + 1) r.2 (push acc r.1)

/-- `obj_write_deferred(library)` (lines 83-148): the object files written, in
order, and the state afterwards. -/
def obj_write_deferred (prog : List FuncDeclaration) (gp : Param) (fuel : Nat)
    (getModule : Nat → Option Module) (toChars : Nat → List Nat)
    (removeExt : String → String) (n : Nat) (st : LowerState) :
    Except Fault (List Shadow × LowerState) :=
  match obj_write_deferred_loop
      (obj_write_deferred_step prog gp fuel getModule toChars removeExt) n 0 st [] with
  | .error f => .error f
  | .ok r => .ok (r.1, { r.2 with obj_symbols_towrite := [] })

/-- What a run of `Module::genobjfile` handed to the object writer, and the
driver fields of the module afterwards. -/
def observeUnit (r : Except Fault (Module × UnitOutput × LowerState)) :
    Except Fault (UnitOutput × List (Option Driver)) :=
  r.map (fun x => (x.2.1,
    [x.1.sictor, x.1.sctor, x.1.sdtor, x.1.ssharedctor, x.1.sshareddtor, x.1.stest]))

/-- A unit of five lines whose members are the four routines of `scenarioM`. -/
def exCovModule : Module := { numlines := 5, members := [1, 2, 3, 4] }

/-- Coverage enabled. -/
def exCov : Param := { cov := true }

/-- The module from which `obj_write_deferred` makes the shadow of
`exShadowTest`: a unit that has a construct driver. -/
def exOriginal : Module :=
  { number := 1, ident := "a", srcfile := "a.d", infoSym := 50,
    sctor := some { id := "__modctor", Belem := some (.ucall 21) } }

/-- The shadow unit that `obj_write_deferred` makes for the unit test of
`progTest` (number 1), deferred from `exOriginal`. -/
def exShadowTest : Module := shadowModule (some exOriginal) "a.d" "a.1" 1

/-- Unit tests enabled. -/
def exUnitTests : Param := { useUnitTests := true }

/-- The sequence counter of `obj_write_deferred` is the same in both states. -/
def SameCount (a b : LowerState) : Prop :=
  b.count = a.count

/-- Successive iterations of `obj_write_deferred` for the entries of a fixed
list, each one completing before the next is made. -/
def stepEach (step : Nat → LowerState → Except Fault (Shadow × LowerState)) :
    List Nat → LowerState → Except Fault (List Shadow × LowerState)
  | [], st => .ok ([], st)
  | s :: rest, st =>
    match step s st with
    | .error f => .error f
    | .ok r =>
      match stepEach step rest r.2 with
      | .error f => .error f
      | .ok r2 => .ok (r.1 :: r2.1, r2.2)

/-- A unit of two ordinary routines (numbers 1 and 2, symbols 11 and 12). -/
def progTwo : List FuncDeclaration :=
  [ { ident := 1, sym := 11 }, { ident := 2, sym := 12 } ]

/-- The state in which both routines of `progTwo` are queued in
`obj_symbols_towrite`. -/
def exQueued : LowerState := { obj_symbols_towrite := [1, 2] }

/-- Every symbol is owned by `exOriginal`. -/
def exGetModule : Nat → Option Module := fun _ => some exOriginal

/-- Display names: `foo` for symbol 1, `bar` for the others. -/
def exToChars : Nat → List Nat := fun s => if s = 1 then [102, 111, 111] else [98, 97, 114]

/-- A file name cut at its first dot. -/
def exRemoveExt : String → String := fun s => String.mk (s.data.takeWhile (fun c => c != '.'))

/-- For every object file written by `obj_write_deferred`: the deferred symbol,
the sequence number, the file name, the members of the shadow module, whether
it is a doppelganger, and the routines written; and the queue afterwards. -/
def observeShadows (r : Except Fault (List Shadow × LowerState)) :
    Except Fault (List (Nat × Nat × String × List Nat × Bool × List Symbol) × List Nat) :=
  r.map (fun x => (x.1.map (fun sh =>
    (sh.sym, sh.count, sh.fname, sh.md.members, sh.md.doppelganger, sh.out.funcs)),
    x.2.obj_symbols_towrite))

/-- The lowercase hexadecimal digits. -/
def isLowerHexDigit (c : Char) : Bool := "0123456789abcdef".data.contains c

/-- The value of a lowercase hexadecimal digit. -/
def hexDigitValue (c : Char) : Nat := "0123456789abcdef".data.indexOf c

/-- The number that a list of hexadecimal digits writes, most significant digit
first. -/
def hexRead (l : List Char) : Nat := l.foldl (fun a c => 16 * a + hexDigitValue c) 0

/-- The sum of the character values of a display name, up to its terminating
zero. -/
def nameSum (gp : Param) (name : List Nat) : Nat :=
  ((name.takeWhile (fun b => b % 256 != 0)).map (charValue gp)).sum

/-! ## Splitting a unit -/

/-- The tests of `toObjFile` under which it returns at once: the routine was
lowered already, has an error type, has no body, or is a unit test while unit
tests are disabled. -/
def skipped (gp : Param) (fd : FuncDeclaration) (st : LowerState) : Bool :=
  (st.semanticRun fd.ident).geObj || fd.retError || !fd.fbody ||
    (fd.isUnitTestDeclaration && !gp.useUnitTests)

/-- The state `b` has the `semanticRun` and `deferred` fields, the error count,
the flag of `onlyOneMain` and the log of `writefunc` calls of `a`. -/
def SameCore (a b : LowerState) : Prop :=
  b.semanticRun = a.semanticRun ∧ b.deferred = a.deferred ∧ b.errors = a.errors ∧
  b.hasMain = a.hasMain ∧ b.written = a.written

/-- The three states of a flag option (`llvm::cl::boolOrDefault`). -/
inductive BoolOrDefault where
  | BOU_UNSET
  | BOU_TRUE
  | BOU_FALSE
deriving DecidableEq, Repr

/-- The command-line options declared at lines 61-127 that the functions below
read.  `optimizeLevel` is a `signed char`; `disableLoopUnrollingOccurrences` is
`disableLoopUnrolling.getNumOccurrences()`. -/
structure Options where
  optimizeLevel : Int := 0
  noVerify : Bool := false
  verifyEach : Bool := false
  disableLangSpecificPasses : Bool := false
  disableSimplifyDruntimeCalls : Bool := false
  disableSimplifyLibCalls : Bool := false
  disableGCToStack : Bool := false
  enableInlining : BoolOrDefault := .BOU_UNSET
  enableCrossModuleInlining : BoolOrDefault := .BOU_UNSET
  stripDebug : Bool := false
  disableLoopUnrolling : Bool := false
  disableLoopUnrollingOccurrences : Nat := 0
  disableLoopVectorization : Bool := false
  disableSLPVectorization : Bool := false
deriving DecidableEq, Repr

/-- The values that the option parser can store in `optimizeLevel` (lines
63-73): `-O`, `-O0` .. `-O5`, `-Os`, `-Oz`. -/
def declaredLevels : List Int := [3, 0, 1, 2, 3, 4, 5, -1, -2]

/-- `optLevel()` (lines 129-132); the result is `unsigned`. -/
def optLevel (o : Options) : Nat :=
  if o.optimizeLevel ≥ 0 then o.optimizeLevel.toNat % 2 ^ 32 else 2

/-- `sizeLevel()` (line 134); the result is `unsigned`. -/
def sizeLevel (o : Options) : Nat :=
  if o.optimizeLevel < 0 then (-o.optimizeLevel).toNat % 2 ^ 32 else 0

/-- `willInline()` (lines 137-140). -/
def willInline (o : Options) : Bool :=
  o.enableInlining == .BOU_TRUE ||
    (o.enableInlining == .BOU_UNSET && decide (optLevel o > 1))

/-- `willCrossModuleInline()` (lines 142-144). -/
def willCrossModuleInline (o : Options) : Bool :=
  o.enableCrossModuleInlining == .BOU_TRUE && willInline o

/-- `isOptimizationEnabled()` (line 146). -/
def isOptimizationEnabled (o : Options) : Bool :=
  o.optimizeLevel != 0

/-- The values of `llvm::CodeGenOptLevel`. -/
inductive CodeGenOptLevel where
  | None
  | Less
  | Default
  | Aggressive
deriving DecidableEq, Repr

/-- `codeGenOptLevel()` (lines 148-157). -/
def codeGenOptLevel (o : Options) : CodeGenOptLevel :=
  if optLevel o == 0 then .None
  else if optLevel o ≥ 3 then .Aggressive
  else .Default

/-- The constants of `llvm::OptimizationLevel`.  Its `==` compares the speed
level and the size level, so the six constants are pairwise different: `Os` and
`Oz` have the speed level of `O2` but are not equal to it. -/
inductive OptimizationLevel where
  | O0
  | O1
  | O2
  | O3
  | Os
  | Oz
deriving DecidableEq, Repr

/-- `getOptimizationLevel()` (lines 167-181); `none` stands for reaching
`llvm_unreachable`. -/
def getOptimizationLevel (o : Options) : Option OptimizationLevel :=
  if o.optimizeLevel = 0 then some .O0
  else if o.optimizeLevel = 1 then some .O1
  else if o.optimizeLevel = 2 then some .O2
  else if o.optimizeLevel = 3 ∨ o.optimizeLevel = 4 ∨ o.optimizeLevel = 5 then some .O3
  else if o.optimizeLevel = -1 then some .Os
  else if o.optimizeLevel = -2 then some .Oz
  else none

/-- The passes that the callbacks of lines 266-297 add to a module pass manager. -/
inductive Pass where
  | StripExternalsPass
  | VerifierPass
  | GlobalDCEPass
  | SimplifyDRuntimeCallsPass
  | GarbageCollect2StackPass
deriving DecidableEq, Repr

/-- `addStripExternalsPass(mpm, level)` (lines 266-277): the passes added. -/
def addStripExternalsPass (o : Options) (level : OptimizationLevel) : List Pass :=
  if level = .O1 ∨ level = .O2 ∨ level = .O3 then
    [.StripExternalsPass] ++ (if o.verifyEach then [.VerifierPass] else []) ++ [.GlobalDCEPass]
  else []

/-- `addSimplifyDRuntimeCallsPass(mpm, level)` (lines 279-287): the passes
added. -/
def addSimplifyDRuntimeCallsPass (o : Options) (level : OptimizationLevel) : List Pass :=
  if level = .O2 ∨ level = .O3 then
    [.SimplifyDRuntimeCallsPass] ++ (if o.verifyEach then [.VerifierPass] else [])
  else []

/-- `addGarbageCollect2StackPass(mpm, level)` (lines 289-297): the passes
added. -/
def addGarbageCollect2StackPass (o : Options) (level : OptimizationLevel) : List Pass :=
  if level = .O2 ∨ level = .O3 then
    [.GarbageCollect2StackPass] ++ (if o.verifyEach then [.VerifierPass] else [])
  else []

/-- The callbacks that lines 459-475 of `runOptimizationPasses` register with
the pass builder, in the order registered. -/
def registeredCallbacks (o : Options) : List (Options → OptimizationLevel → List Pass) :=
  (if !o.disableLangSpecificPasses then
    (if !o.disableSimplifyDruntimeCalls then [addSimplifyDRuntimeCallsPass] else []) ++
    (if !o.disableGCToStack then [addGarbageCollect2StackPass] else [])
   else []) ++ [addStripExternalsPass]

/-- The passes that the registered callbacks add when the pass builder calls
them, in the order registered, with the level that line 486 hands to the
pipeline builders. -/
def scheduledPasses (o : Options) : Option (List Pass) :=
  (getOptimizationLevel o).map (fun level =>
    ((registeredCallbacks o).map (fun cb => cb o level)).flatten)

/-- The D-specific passes, those of `gen/passes`. -/
def Pass.isDSpecific : Pass → Bool
  | .StripExternalsPass => true
  | .SimplifyDRuntimeCallsPass => true
  | .GarbageCollect2StackPass => true
  | _ => false

/-- The fields of `llvm::PipelineTuningOptions` that `getPipelineTuningOptions`
assigns. -/
structure PipelineTuningOptions where
  LoopUnrolling : Bool
  LoopVectorization : Bool
  SLPVectorization : Bool
deriving DecidableEq, Repr

/-- `getPipelineTuningOptions(optLevelVal, sizeLevelVal)` (lines 345-367);
`pto` is the default-constructed value of line 346. -/
def getPipelineTuningOptions (o : Options) (pto : PipelineTuningOptions)
    (optLevelVal sizeLevelVal : Nat) : PipelineTuningOptions :=
  let pto1 := { pto with LoopUnrolling := decide (optLevelVal > 0) }
  let pto2 := { pto1 with
    LoopUnrolling := !(if o.disableLoopUnrollingOccurrences > 0 then o.disableLoopUnrolling
      else optLevelVal == 0) }
  let pto3 :=
    if o.disableLoopVectorization then { pto2 with LoopVectorization := false }
    else if !pto2.LoopVectorization then
      { pto2 with LoopVectorization := decide (optLevelVal > 1) && decide (sizeLevelVal < 2) }
    else pto2
  { pto3 with
    SLPVectorization :=
      if o.disableSLPVectorization then false
      else decide (optLevelVal > 1) && decide (sizeLevelVal < 2) }

/-- What `hash_os << b` writes for a `bool`: the value is promoted to `int` and
written in decimal, the character `0` or `1`. -/
def putBool (b : Bool) : List Nat := if b then [49] else [48]

/-- What `hash_os << c` writes for a `signed char`: the one byte `c`. -/
def putSignedChar (c : Int) : List Nat := [(c % 256).toNat]

/-- `outputOptimizationSettings(hash_os)` (lines 550-561): the bytes written. -/
def outputOptimizationSettings (o : Options) : List Nat :=
  putSignedChar o.optimizeLevel ++ putBool (willInline o) ++
    putBool o.disableLangSpecificPasses ++ putBool o.disableSimplifyDruntimeCalls ++
    putBool o.disableSimplifyLibCalls ++ putBool o.disableGCToStack ++
    putBool o.stripDebug ++ putBool o.disableLoopUnrolling ++
    putBool o.disableLoopVectorization ++ putBool o.disableSLPVectorization

/-- The default options at `-Os`. -/
def exOs : Options := { optimizeLevel := -1 }

/-- The default options at `-O2`. -/
def exO2 : Options := { optimizeLevel := 2 }

/-- The default options, with `-disable-loop-unrolling=false` given. -/
def exUnrollGiven : Options := { disableLoopUnrollingOccurrences := 1 }

/-- The tuning options as `llvm::PipelineTuningOptions` constructs them. -/
def exPTO : PipelineTuningOptions :=
  { LoopUnrolling := true, LoopVectorization := true, SLPVectorization := false }

/-- The options `-O2 -verify-each -disable-verify`. -/
def exVerifying : Options := { optimizeLevel := 2, verifyEach := true, noVerify := true }

/-- The options `-O2 -inlining`. -/
def exInlining : Options := { optimizeLevel := 2, enableInlining := .BOU_TRUE }

/-- The queue `obj_symbols_towrite` and the symbols written, as observed in the
examples of repeated calls. -/
def observeAgain (r : Except Fault LowerState) : Except Fault (List Nat × List Symbol) :=
  r.map (fun s => (s.obj_symbols_towrite, s.written))

/-- An exported routine (number 1, symbol 11) whose body puts routine 2
(symbol 12) into `irs.deferToObj`. -/
def exExported : FuncDeclaration := { ident := 1, sym := 11, isExport := true, bodyDefers := [2] }

/-- A unit of the exported routine and the routine its body postpones. -/
def progExported : List FuncDeclaration := [exExported, { ident := 2, sym := 12 }]

/-- A state in which a diagnostic has been counted already. -/
def exErrors : LowerState := { errors := 1 }

/-- What is observed in the examples with errors: the symbols written, the
symbols exported, and the `semanticRun` of routines 1 and 2. -/
def observeEmit (r : Except Fault LowerState) :
    Except Fault (List Symbol × List Symbol × PASS × PASS) :=
  r.map (fun s => (s.written, s.exported, s.semanticRun 1, s.semanticRun 2))

/-- The flag of `onlyOneMain`, once set in `a`, is still set in `b`. -/
def KeepsMain (a b : LowerState) : Prop :=
  a.hasMain = true → b.hasMain = true

/-- The results of `n` successive calls of `onlyOneMain`, and the state after
the last one. -/
def onlyOneMainCalls (gp : Param) : Nat → LowerState → List Bool × LowerState
  | 0, st => ([], st)
  | n + 1, st =>
    let r := onlyOneMain gp st
    let rest := onlyOneMainCalls gp n r.2
    (r.1 :: rest.1, rest.2)

/-- The diagnostic of `onlyOneMain` for the target (lines 1054-1058). -/
def onlyOneMainMessage (gp : Param) : String :=
  if gp.targetWindos then "only one main/WinMain/DllMain allowed" else "only one main allowed"

/-- A build for a Windows target. -/
def exWindos : Param := { targetWindos := true }

/-- A state in which the program entry role has been granted. -/
def exHasMain : LowerState := { hasMain := true }

/-- A unit of two routines that both claim to be the D `main` (numbers 1 and
2, symbols 11 and 12). -/
def progTwoMains : List FuncDeclaration :=
  [ { ident := 1, sym := 11, isMain := true }, { ident := 2, sym := 12, isMain := true } ]

/-- What is observed of the startup references: the names given to
`objextdef`, the libraries given to `obj_includelib`, and the diagnostics. -/
def observeStartup (r : Except Fault LowerState) :
    Except Fault (List String × List String × List String) :=
  r.map (fun s => (s.extdefs, s.includelibs, s.diagnostics))

/-- One call made by the driver into the glue layer. -/
inductive GlueCall where
  | genobjfile (m : Module) (multiobj : Bool)
  | toObjFile (multiobj : Bool) (id : Nat)
  | obj_write_deferred (n : Nat)

/-- Modelled from the spec: the driver that calls the glue layer is not among
the sources at hand; the lifetime of a process is taken to be any sequence of
completed calls of `Module::genobjfile`, `FuncDeclaration::toObjFile` and
`obj_write_deferred`, each starting in the state the previous one left.  The
result lists the object files written by the calls of `obj_write_deferred`, in
order. -/
def runCalls (prog : List FuncDeclaration) (gp : Param) (fuel : Nat)
    (getModule : Nat → Option Module) (toChars : Nat → List Nat)
    (removeExt : String → String) :
    List GlueCall → LowerState → Except Fault (List Shadow × LowerState)
  | [], st => .ok ([], st)
  | .genobjfile m multiobj :: rest, st =>
    match genobjfile prog gp fuel m multiobj st with
    | .error f => .error f
    | .ok r => runCalls prog gp fuel getModule toChars removeExt rest r.2.2
  | .toObjFile multiobj id :: rest, st =>
    match toObjFile prog gp fuel multiobj id st with
    | .error f => .error f
    | .ok st1 => runCalls prog gp fuel getModule toChars removeExt rest st1
  | .obj_write_deferred n :: rest, st =>
    match obj_write_deferred prog gp fuel getModule toChars removeExt n st with
    | .error f => .error f
    | .ok r =>
      match runCalls prog gp fuel getModule toChars removeExt rest r.2 with
      | .error f => .error f
      | .ok r2 => .ok (r.1 ++ r2.1, r2.2)

/-- A process over `progTwo` that queues routine 1 twice, writes the deferred
routines, queues routine 2 and writes the deferred routines again. -/
def exProcess : List GlueCall :=
  [.toObjFile true 1, .toObjFile true 1, .obj_write_deferred 5, .toObjFile true 2,
   .obj_write_deferred 1]

/-- What is observed of a process: the sequence numbers and the names of the
object files written, and the counter at the end. -/
def observeProcess (r : Except Fault (List Shadow × LowerState)) :
    Except Fault (List Nat × List String × Nat) :=
  r.map (fun x => (x.1.map Shadow.count, x.1.map Shadow.fname, x.2.count))

/-- The routines `fds` are the routines lowered between the states `a` and `b`,
in the order in which they passed the registration of lines 952-998: the
bookkeeping of `b` is that of `a` with `toObjFile_register` applied for each of
them in turn; the routines whose `semanticRun` reached `PASSobj` in between are
exactly these; each is a routine of the program that was not lowered in `a`,
and none occurs twice; the error count did not decrease; and, when it is still
zero in `b`, `writefunc` was called for exactly these routines, in this order. -/
def Lowered (prog : List FuncDeclaration) (a b : LowerState) (fds : List FuncDeclaration) :
    Prop :=
  b.bk = fds.foldl (fun bk fd => toObjFile_register fd bk) a.bk ∧
  (∀ k, (b.semanticRun k).geObj = true ↔
    ((a.semanticRun k).geObj = true ∨ k ∈ fds.map (fun fd => fd.ident))) ∧
  (∀ fd ∈ fds, lookupFunc prog fd.ident = some fd ∧ (a.semanticRun fd.ident).geObj = false) ∧
  (fds.map (fun fd => fd.ident)).Nodup ∧
  a.errors ≤ b.errors ∧
  (b.errors = 0 → b.written = a.written ++ fds.map (fun fd => fd.sym))

/-- Every completed recursive call lowered some sequence of routines. -/
def SelfLowers (prog : List FuncDeclaration) (self : ToObjFile) : Prop :=
  ∀ mo id st st2, self mo id st = .ok st2 → ∃ fds, Lowered prog st st2 fds

/-- The routines of the program that are not yet lowered in `st`. -/
def unlowered (prog : List FuncDeclaration) (st : LowerState) : List FuncDeclaration :=
  prog.filter (fun fd => !(st.semanticRun fd.ident).geObj)

/-- The work left in `st`: one step for each routine not yet lowered and one for
each entry that its body puts into `irs.deferToObj`. -/
def potential (prog : List FuncDeclaration) (st : LowerState) : Nat :=
  ((unlowered prog st).map (fun fd => fd.bodyDefers.length + 1)).sum

/-- Every `deferred` queue of a routine of the program, together with the work
left, stays within `B`. -/
def Within (prog : List FuncDeclaration) (st : LowerState) (B : Nat) : Prop :=
  ∀ fd ∈ prog, (st.deferred fd.ident).length + potential prog st ≤ B

/-- An amount of fuel that suffices for every call of `toObjFile` in `st`: the
lengths of the `deferred` queues, the work left, and one. -/
def fuelBound (prog : List FuncDeclaration) (st : LowerState) : Nat :=
  (prog.map (fun fd => (st.deferred fd.ident).length)).sum + potential prog st + 1

/-- The run `r` ended: it returned a state within `B`, or it stopped on a
failed assertion of the source, not for lack of fuel. -/
def Ends (prog : List FuncDeclaration) (B : Nat) (r : Except Fault LowerState) : Prop :=
  match r with
  | .ok st2 => Within prog st2 B
  | .error f => f = .assertFailed

/-- The recursive calls end when made with fuel `F` in a state within `B < F`. -/
def SelfEnds (prog : List FuncDeclaration) (F : Nat) (self : ToObjFile) : Prop :=
  ∀ B, B + 1 ≤ F → ∀ mo id st, Within prog st B → Ends prog B (self mo id st)

/-- What is observed of a run of `Module::genobjfile` in the examples on the
drivers: the routines written, the sequences `sctors` and `sdtors`, and
the bodies of the construct and destruct drivers of the module. -/
def observeRun (r : Except Fault (Module × UnitOutput × LowerState)) :
    Except Fault (List Symbol × List Symbol × List Symbol × List Elem × List Elem) :=
  r.map (fun x => (x.2.1.funcs, x.2.2.bk.sctors, x.2.2.bk.sdtors, driverBody x.1.sctor,
    driverBody x.1.sdtor))

/-- The unit of `scenarioM`: its members are the four routines, in order. -/
def exScenarioUnit : Module := { members := [1, 2, 3, 4] }

/-- A unit with one static constructor and one static destructor of each
family: shared (numbers 1 and 3, symbols 21 and 23, the destructor gated by
variable 8) and ordinary (numbers 2 and 4, symbols 22 and 24). -/
def progFamilies : List FuncDeclaration :=
  [ { ident := 1, sym := 21, kind := .sharedStaticCtor },
    { ident := 2, sym := 22, kind := .staticCtor },
    { ident := 3, sym := 23, kind := .sharedStaticDtor, vgate := some ⟨8⟩ },
    { ident := 4, sym := 24, kind := .staticDtor } ]

/-- What is observed of the two families after a run of `Module::genobjfile`:
`sctors`, `sdtors`, `ssharedctors`, `sshareddtors` and the drivers written. -/
def observeFamilies (r : Except Fault (Module × UnitOutput × LowerState)) :
    Except Fault (List Symbol × List Symbol × List Symbol × List Symbol × List Driver) :=
  r.map (fun x => (x.2.2.bk.sctors, x.2.2.bk.sdtors, x.2.2.bk.ssharedctors,
    x.2.2.bk.sshareddtors, x.2.1.drivers))

theorem elemSeq_el_combine (a b : Option Elem) :
    elemSeq (el_combine a b) = elemSeq a ++ elemSeq b := by
  cases a <;> cases b <;> simp [el_combine, elemSeq, Elem.seq]

theorem elemSeq_callLoop (ss : List Symbol) (ector : Option Elem) :
    elemSeq (callLoop ss ector) = elemSeq ector ++ ss.map Elem.ucall := by
  induction ss generalizing ector with
  | nil => simp [callLoop]
  | cons s ss ih =>
    rw [callLoop, ih, elemSeq_el_combine]
    simp [elemSeq, Elem.seq]

theorem gateLoop_ok (gs : List StaticDtorDeclaration) (ector : Option Elem)
    (h : ∀ f ∈ gs, f.vgate.isSome = true) :
    ∃ r, gateLoop gs ector = .ok r ∧
      elemSeq r = elemSeq ector ++ (gs.filterMap (fun f => f.vgate)).map Elem.gateInc := by
  induction gs generalizing ector with
  | nil => exact ⟨ector, rfl, by simp⟩
  | cons f fs ih =>
    have hf := h f (List.mem_cons_self _ _)
    obtain ⟨v, hv⟩ := Option.isSome_iff_exists.mp hf
    obtain ⟨r, hr, hs⟩ := ih (el_combine ector (some (.gateInc v)))
      (fun g hg => h g (List.mem_cons_of_mem _ hg))
    refine ⟨r, ?_, ?_⟩
    · simp [gateLoop, hv, hr]
    · rw [hs, elemSeq_el_combine]
      simp [hv, elemSeq, Elem.seq]

theorem register_sdtors (fd : FuncDeclaration) (bk : Bookkeeping) :
    (toObjFile_register fd bk).sdtors =
      if fd.kind == .staticDtor then fd.sym :: bk.sdtors else bk.sdtors := by
  unfold toObjFile_register registerTest registerDtor registerCtor
  cases h : fd.kind <;> cases hv : fd.vgate <;>
    simp [FuncDeclaration.isSharedStaticCtorDeclaration, FuncDeclaration.isStaticCtorDeclaration,
      FuncDeclaration.isSharedStaticDtorDeclaration, FuncDeclaration.isStaticDtorDeclaration,
      FuncDeclaration.isUnitTestDeclaration, h, hv, push, shift]

theorem register_sctors (fd : FuncDeclaration) (bk : Bookkeeping) :
    (toObjFile_register fd bk).sctors =
      if fd.kind == .staticCtor then bk.sctors ++ [fd.sym] else bk.sctors := by
  unfold toObjFile_register registerTest registerDtor registerCtor
  cases h : fd.kind <;> cases hv : fd.vgate <;>
    simp [FuncDeclaration.isSharedStaticCtorDeclaration, FuncDeclaration.isStaticCtorDeclaration,
      FuncDeclaration.isSharedStaticDtorDeclaration, FuncDeclaration.isStaticDtorDeclaration,
      FuncDeclaration.isUnitTestDeclaration, h, hv, push, shift]

theorem register_ectorgates (fd : FuncDeclaration) (bk : Bookkeeping) :
    (toObjFile_register fd bk).ectorgates =
      if fd.kind == .staticDtor && fd.vgate.isSome then bk.ectorgates ++ [fd]
      else bk.ectorgates := by
  unfold toObjFile_register registerTest registerDtor registerCtor
  cases h : fd.kind <;> cases hv : fd.vgate <;>
    simp [FuncDeclaration.isSharedStaticCtorDeclaration, FuncDeclaration.isStaticCtorDeclaration,
      FuncDeclaration.isSharedStaticDtorDeclaration, FuncDeclaration.isStaticDtorDeclaration,
      FuncDeclaration.isUnitTestDeclaration, h, hv, push, shift]

theorem foldl_register_sdtors (fds : List FuncDeclaration) (bk : Bookkeeping) :
    (fds.foldl (fun b fd => toObjFile_register fd b) bk).sdtors =
      ((ordinaryDtors fds).map (fun fd => fd.sym)).reverse ++ bk.sdtors := by
  induction fds generalizing bk with
  | nil => simp [ordinaryDtors]
  | cons fd fds ih =>
    simp only [List.foldl_cons, ih, register_sdtors, ordinaryDtors]
    by_cases h : fd.kind = .staticDtor <;> simp [List.filter_cons, h]

theorem foldl_register_sctors (fds : List FuncDeclaration) (bk : Bookkeeping) :
    (fds.foldl (fun b fd => toObjFile_register fd b) bk).sctors =
      bk.sctors ++ (ordinaryCtors fds).map (fun fd => fd.sym) := by
  induction fds generalizing bk with
  | nil => simp [ordinaryCtors]
  | cons fd fds ih =>
    simp only [List.foldl_cons, ih, register_sctors, ordinaryCtors]
    by_cases h : fd.kind = .staticCtor <;> simp [List.filter_cons, h]

theorem foldl_register_ectorgates (fds : List FuncDeclaration) (bk : Bookkeeping) :
    (fds.foldl (fun b fd => toObjFile_register fd b) bk).ectorgates =
      bk.ectorgates ++ (ordinaryDtors fds).filter (fun fd => fd.vgate.isSome) := by
  induction fds generalizing bk with
  | nil => simp [ordinaryDtors]
  | cons fd fds ih =>
    simp only [List.foldl_cons, ih, register_ectorgates, ordinaryDtors]
    by_cases h : fd.kind = .staticDtor <;> cases hv : fd.vgate <;>
      simp [List.filter_cons, h, hv]

theorem callFuncsAndGates_noGates (ss : List Symbol) (id : String) :
    ∃ d, callFuncsAndGates (some ss) none id = .ok d ∧ driverBody d = ss.map Elem.ucall := by
  cases ss with
  | nil => exact ⟨none, by simp [callFuncsAndGates], by simp [driverBody]⟩
  | cons s ss =>
    refine ⟨some ⟨id, callLoop (s :: ss) none⟩, by simp [callFuncsAndGates], ?_⟩
    rw [driverBody, elemSeq_callLoop]
    simp [elemSeq]

theorem callFuncsAndGates_gates (ss : List Symbol) (gs : List StaticDtorDeclaration)
    (id : String) (h : ∀ f ∈ gs, f.vgate.isSome = true) :
    ∃ d, callFuncsAndGates (some ss) (some gs) id = .ok d ∧
      driverBody d = (gs.filterMap (fun f => f.vgate)).map Elem.gateInc ++ ss.map Elem.ucall := by
  obtain ⟨r, hr, hs⟩ := gateLoop_ok gs none h
  by_cases hc : ss = [] ∧ gs = []
  · obtain ⟨h1, h2⟩ := hc
    subst h1 h2
    exact ⟨none, by simp [callFuncsAndGates], by simp [driverBody]⟩
  · refine ⟨some ⟨id, callLoop ss r⟩, ?_, ?_⟩
    · have hlen : ((ss.length != 0) || (gs.length != 0)) = true := by
        cases ss <;> cases gs <;> simp_all
      simp [callFuncsAndGates, hlen, hr]
    · rw [driverBody, elemSeq_callLoop, hs]
      simp [elemSeq]

theorem filterMap_vgate_filter (l : List FuncDeclaration) :
    (l.filter (fun fd => fd.vgate.isSome)).filterMap (fun f => f.vgate) =
      l.filterMap (fun f => f.vgate) := by
  induction l with
  | nil => rfl
  | cons a l ih =>
    cases hv : a.vgate <;> simp [List.filter_cons, List.filterMap_cons, hv, ih]

theorem count_gateInc_map_ucall (g : VarDeclaration) (ss : List Symbol) :
    (ss.map Elem.ucall).count (Elem.gateInc g) = 0 := by
  induction ss with
  | nil => rfl
  | cons s ss ih => simp [List.count_cons, ih]

theorem count_gateInc_filterMap (g : VarDeclaration) (l : List FuncDeclaration) :
    ((l.filterMap (fun f => f.vgate)).map Elem.gateInc).count (Elem.gateInc g) =
      (l.filter (fun fd => fd.vgate == some g)).length := by
  induction l with
  | nil => rfl
  | cons a l ih =>
    cases hv : a.vgate with
    | none => simp [List.filterMap_cons, List.filter_cons, hv, ih]
    | some v =>
      by_cases hg : v = g
      · subst hg
        simp [List.filterMap_cons, List.filter_cons, hv, ih, List.count_cons]
      · have hg2 : ¬ g = v := fun h => hg h.symm
        simp [List.filterMap_cons, List.filter_cons, hv, ih, List.count_cons, hg, hg2]

/-- C3: whatever the bookkeeping sequences hold, when driver synthesis in
`Module::genobjfile` completes, the bodies of the destruct, shared-destruct and
test drivers, and of the coverage-init driver, contain no gate increment: gate
increments can occur only in the construct and shared-construct drivers. -/
theorem C3_gate_increments_only_in_construct_drivers (params : Param) (m : Module)
    (bcov : Symbol) (bk : Bookkeeping) (drv : Drivers)
    (h : genobjfile_drivers (genobjfile_eictor params m bcov) bk = .ok drv) :
    (∀ e ∈ driverBody drv.sdtor, e.isGateInc = false) ∧
    (∀ e ∈ driverBody drv.sshareddtor, e.isGateInc = false) ∧
    (∀ e ∈ driverBody drv.stest, e.isGateInc = false) ∧
    (∀ e ∈ driverBody drv.sictor, e.isGateInc = false) := by
  obtain ⟨d1, h1, b1⟩ := callFuncsAndGates_noGates bk.sdtors "__moddtor"
  obtain ⟨d2, h2, b2⟩ := callFuncsAndGates_noGates bk.sshareddtors "__modshareddtor"
  obtain ⟨d3, h3, b3⟩ := callFuncsAndGates_noGates bk.stests "__modtest"
  have hucall : ∀ (ss : List Symbol), ∀ e ∈ ss.map Elem.ucall, e.isGateInc = false := by
    intro ss e he
    obtain ⟨s, _, rfl⟩ := List.mem_map.mp he
    rfl
  have hict : ∀ e ∈ elemSeq (genobjfile_eictor params m bcov), e.isGateInc = false := by
    intro e he
    unfold genobjfile_eictor at he
    split at he
    · simp [el_combine, elemSeq, Elem.seq] at he
      subst he
      rfl
    · simp [elemSeq] at he
  unfold genobjfile_drivers at h
  rw [h1, h2, h3] at h
  split at h
  · cases hc : callFuncsAndGates (some bk.sctors) (some bk.ectorgates) "__modctor" with
    | error f => simp [hc] at h
    | ok c1 =>
      cases hc2 : callFuncsAndGates (some bk.ssharedctors) (some bk.esharedctorgates)
          "__modsharedctor" with
      | error f => simp [hc, hc2] at h
      | ok c2 =>
        simp only [hc, hc2, Except.ok.injEq] at h
        subst h
        refine ⟨?_, ?_, ?_, ?_⟩
        · simpa [b1] using hucall bk.sdtors
        · simpa [b2] using hucall bk.sshareddtors
        · simpa [b3] using hucall bk.stests
        · intro e he
          by_cases hs : (genobjfile_eictor params m bcov).isSome = true
          · simp only [hs, if_true, driverBody] at he
            exact hict e he
          · simp [hs, driverBody] at he
  · simp only [Except.ok.injEq] at h
    subst h
    simp [driverBody]

/-- Witness for C3 on the spec's concrete scenario. -/
theorem C3_gate_increments_only_in_construct_drivers_witness :
    genobjfile_drivers (genobjfile_eictor {} {} 0) (registerAll scenarioM) = .ok scenarioDrivers ∧
    ((∀ e ∈ driverBody scenarioDrivers.sdtor, e.isGateInc = false) ∧
     (∀ e ∈ driverBody scenarioDrivers.sshareddtor, e.isGateInc = false) ∧
     (∀ e ∈ driverBody scenarioDrivers.stest, e.isGateInc = false) ∧
     (∀ e ∈ driverBody scenarioDrivers.sictor, e.isGateInc = false)) :=
  ⟨rfl, C3_gate_increments_only_in_construct_drivers {} {} 0 (registerAll scenarioM)
    scenarioDrivers rfl⟩

theorem length_swapEntries (p : List Symbol) (i j : Nat) :
    (swapEntries p i j).length = p.length := by
  unfold swapEntries
  split <;> simp

theorem getElem?_swapEntries (p : List Symbol) (i j k : Nat) (hi : i < p.length)
    (hj : j < p.length) :
    (swapEntries p i j)[k]? = if k = j then p[i]? else if k = i then p[j]? else p[k]? := by
  unfold swapEntries
  rw [List.getElem?_eq_getElem hi, List.getElem?_eq_getElem hj]
  simp only [List.getElem?_set, List.length_set]
  by_cases h1 : j = k
  · subst h1
    simp [hj]
  · have h1' : ¬ k = j := fun h => h1 h.symm
    by_cases h2 : i = k
    · subst h2
      simp [h1, h1', hi, hj]
    · have h2' : ¬ k = i := fun h => h2 h.symm
      simp [h1, h1', h2, h2']

theorem reverseLoop_spec (p : List Symbol) (k : Nat) (hk : k ≤ p.length / 2) :
    ((List.range k).foldl (fun q i => swapEntries q i (p.length - 1 - i)) p).length = p.length ∧
    ∀ idx, ((List.range k).foldl (fun q i => swapEntries q i (p.length - 1 - i)) p)[idx]? =
      if idx < k ∨ (p.length - k ≤ idx ∧ idx < p.length) then p[p.length - 1 - idx]?
      else p[idx]? := by
  induction k with
  | zero =>
    refine ⟨rfl, fun idx => ?_⟩
    simp only [List.range_zero, List.foldl_nil]
    split
    · rename_i h
      omega
    · rfl
  | succ k ih =>
    obtain ⟨hlen, hget⟩ := ih (by omega)
    rw [List.range_succ, List.foldl_append]
    simp only [List.foldl_cons, List.foldl_nil]
    refine ⟨by rw [length_swapEntries, hlen], fun idx => ?_⟩
    rw [getElem?_swapEntries _ _ _ _ (by omega) (by omega), hget, hget, hget]
    have hk1 : k + 1 ≤ p.length / 2 := hk
    have h2 : 2 * (k + 1) ≤ p.length := by omega
    by_cases c1 : idx = p.length - 1 - k
    · subst c1
      rw [if_pos rfl, if_neg (by omega), if_pos (by omega)]
      congr 1
      omega
    · rw [if_neg c1]
      by_cases c2 : idx = k
      · subst c2
        rw [if_pos rfl, if_neg (by omega), if_pos (by omega)]
      · rw [if_neg c2]
        by_cases c3 : idx < k ∨ (p.length - k ≤ idx ∧ idx < p.length)
        · rw [if_pos c3, if_pos (by omega)]
        · rw [if_neg c3, if_neg (by omega)]

theorem reverseEntries_eq_reverse (p : List Symbol) : reverseEntries p = p.reverse := by
  obtain ⟨hlen, hget⟩ := reverseLoop_spec p (p.length / 2) (le_refl _)
  apply List.ext_getElem?
  intro idx
  unfold reverseEntries
  rw [hget]
  by_cases hlt : idx < p.length
  · rw [List.getElem?_reverse hlt]
    split
    · rfl
    · rename_i h
      congr 1
      omega
  · rw [if_neg (by omega), List.getElem?_eq_none (by omega),
      List.getElem?_eq_none (by simp; omega)]

theorem csymOf_insert (st : SymState) (v w : VarDeclaration) (s : Symbol) :
    SymState.csymOf { csym := (v.ident, s) :: st.csym, next := st.next + 1 } w =
      if w.ident = v.ident then some s else st.csymOf w := by
  unfold SymState.csymOf
  simp only [List.lookup_cons]
  by_cases h : w.ident = v.ident
  · simp [h]
  · have : (w.ident == v.ident) = false := by simpa using h
    simp [h, this]

theorem toSymbol_none (v : VarDeclaration) (st : SymState) (h : st.csymOf v = none) :
    v.toSymbol st = (st.next, { csym := (v.ident, st.next) :: st.csym, next := st.next + 1 }) := by
  simp [VarDeclaration.toSymbol, h]

theorem toSymbol_some (v : VarDeclaration) (st : SymState) (s : Symbol)
    (h : st.csymOf v = some s) : v.toSymbol st = (s, st) := by
  simp [VarDeclaration.toSymbol, h]

theorem csymOf_lt_of_wf (st : SymState) (hwf : st.wf) (v : VarDeclaration) (s : Symbol)
    (h : st.csymOf v = some s) : s < st.next := by
  unfold SymState.csymOf at h
  have hmem : (v.ident, s) ∈ st.csym := by
    generalize st.csym = l at h
    induction l with
    | nil => simp at h
    | cons a l ih =>
      obtain ⟨k, b⟩ := a
      rw [List.lookup_cons] at h
      by_cases hk : (v.ident == k) = true
      · simp only [hk] at h
        have hk2 : v.ident = k := by simpa using hk
        cases h
        simp [hk2]
      · have hk3 : (v.ident == k) = false := by simpa using hk
        simp only [hk3] at h
        exact List.mem_cons_of_mem _ (ih h)
  exact hwf _ hmem

theorem fillLoop_ok (vs : List VarDeclaration) (params : List Symbol) (st : SymState)
    (r : List Symbol) (st2 : SymState) (h : fillLoop vs params st = .ok (r, st2)) :
    r = params ++ List.range' st.next vs.length ∧ st2.next = st.next + vs.length ∧
    (∀ w s, st.csymOf w = some s → st2.csymOf w = some s) ∧
    vs.map st2.csymOf = (List.range' st.next vs.length).map some := by
  induction vs generalizing params st with
  | nil =>
    simp only [fillLoop, Except.ok.injEq, Prod.mk.injEq] at h
    obtain ⟨h1, h2⟩ := h
    subst h1 h2
    simp
  | cons v vs ih =>
    rw [fillLoop] at h
    cases hv : st.csymOf v with
    | some s => simp [hv] at h
    | none =>
      simp only [hv, Option.isSome_none, Bool.false_eq_true, if_false, toSymbol_none v st hv] at h
      obtain ⟨h1, h2, h3, h4⟩ := ih _ _ h
      simp only at h1 h2 h3 h4
      have hmono : ∀ w s, st.csymOf w = some s → st2.csymOf w = some s := by
        intro w s hw
        apply h3
        rw [csymOf_insert]
        have hne : ¬ w.ident = v.ident := by
          intro he
          have : w = v := by cases w; cases v; simp_all
          rw [this, hv] at hw
          cases hw
        simp [hne, hw]
      have hhead : st2.csymOf v = some st.next := by
        apply h3
        rw [csymOf_insert]
        simp
      refine ⟨?_, ?_, hmono, ?_⟩
      · rw [h1]
        simp [List.range'_succ]
      · rw [h2]
        simp only [List.length_cons]
        rw [Nat.add_assoc, Nat.add_comm 1]
      · simp [List.range'_succ, hhead, h4]

theorem toSymbol_csymOf_self (v : VarDeclaration) (st : SymState) :
    (v.toSymbol st).2.csymOf v = some (v.toSymbol st).1 := by
  cases hv : st.csymOf v with
  | none => rw [toSymbol_none v st hv, csymOf_insert]; simp
  | some s => rw [toSymbol_some v st s hv]; exact hv

theorem toSymbol_mono (v w : VarDeclaration) (st : SymState) (s : Symbol)
    (hw : st.csymOf w = some s) : (v.toSymbol st).2.csymOf w = some s := by
  cases hv : st.csymOf v with
  | none =>
    rw [toSymbol_none v st hv, csymOf_insert]
    have hne : ¬ w.ident = v.ident := by
      intro he
      have : w = v := by cases w; cases v; simp_all
      rw [this, hv] at hw
      cases hw
    simp [hne, hw]
  | some s2 => rw [toSymbol_some v st s2 hv]; exact hw

theorem makeShidden_spec (fd : FuncDeclaration) (st : SymState) :
    (fd.retStyle = .RETstack ∧
      makeShidden fd st = (some st.next, { st with next := st.next + 1 })) ∨
    (fd.retStyle ≠ .RETstack ∧ makeShidden fd st = (none, st)) := by
  unfold makeShidden symbol_name
  by_cases h : fd.retStyle = .RETstack
  · left; simp [h]
  · right; simp [h]

theorem makeSthis_spec (fd : FuncDeclaration) (st : SymState) (t : Option Symbol × SymState)
    (h : makeSthis fd st = .ok t) :
    (fd.vthis = none ∧ t = (none, st)) ∨
    (∃ v, fd.vthis = some v ∧ st.csymOf v = none ∧
      t = (some st.next, { csym := (v.ident, st.next) :: st.csym, next := st.next + 1 })) := by
  unfold makeSthis at h
  cases hv : fd.vthis with
  | none =>
    simp only [hv, Except.ok.injEq] at h
    exact Or.inl ⟨rfl, h.symm⟩
  | some v =>
    simp only [hv] at h
    cases hc : st.csymOf v with
    | some s => simp [hc] at h
    | none =>
      simp only [hc, Option.isSome_none, Bool.false_eq_true, if_false, toSymbol_none v st hc,
        Except.ok.injEq] at h
      exact Or.inr ⟨v, rfl, hc, h.symm⟩

theorem fillParams_spec (fd : FuncDeclaration) (st : SymState) (S0 : List Symbol)
    (st2 : SymState) (h : fillParams fd st = .ok (S0, st2)) :
    ∃ (sv : Option Symbol) (stv : SymState),
      ((fd.v_arguments = none ∧ sv = none ∧ stv = st) ∨
        (∃ va, fd.v_arguments = some va ∧ sv = some (va.toSymbol st).1 ∧
          stv = (va.toSymbol st).2)) ∧
      S0 = sv.toList ++ List.range' stv.next (fd.parameters.getD []).length ∧
      (∀ w s, stv.csymOf w = some s → st2.csymOf w = some s) ∧
      (fd.parameters.getD []).map st2.csymOf =
        (List.range' stv.next (fd.parameters.getD []).length).map some := by
  unfold fillParams at h
  cases hva : fd.v_arguments with
  | none =>
    refine ⟨none, st, Or.inl ⟨rfl, rfl, rfl⟩, ?_⟩
    simp only [hva] at h
    cases hp : fd.parameters with
    | none =>
      simp only [hp, Except.ok.injEq, Prod.mk.injEq] at h
      obtain ⟨h1, h2⟩ := h
      subst h1 h2
      simp
    | some ps =>
      simp only [hp] at h
      obtain ⟨h1, _, h3, h4⟩ := fillLoop_ok ps [] st S0 st2 h
      exact ⟨by simpa using h1, h3, by simpa using h4⟩
  | some va =>
    refine ⟨some (va.toSymbol st).1, (va.toSymbol st).2, Or.inr ⟨va, rfl, rfl, rfl⟩, ?_⟩
    simp only [hva] at h
    cases hp : fd.parameters with
    | none =>
      simp only [hp, Except.ok.injEq, Prod.mk.injEq] at h
      obtain ⟨h1, h2⟩ := h
      subst h1 h2
      simp
    | some ps =>
      simp only [hp] at h
      obtain ⟨h1, _, h3, h4⟩ := fillLoop_ok ps _ _ S0 st2 h
      exact ⟨by simpa using h1, h3, by simpa using h4⟩

theorem paramsBeforeSwap_shape (fd : FuncDeclaration) (st : SymState) (r : ParamList)
    (h : paramsBeforeSwap fd st = .ok r) :
    ∃ (sv : Option Symbol) (ps : List Symbol),
      r.params = r.sthis.toList ++ r.shidden.toList ++
        (if fd.tyrevfunc then (sv.toList ++ ps).reverse else sv.toList ++ ps) ∧
      r.shidden.isSome = (fd.retStyle == .RETstack) ∧
      r.sthis.isSome = fd.vthis.isSome ∧
      sv.isSome = fd.v_arguments.isSome ∧
      ps.length = (fd.parameters.getD []).length ∧
      fd.v_arguments.map r.st.csymOf = sv.map some ∧
      (fd.parameters.getD []).map r.st.csymOf = ps.map some ∧
      fd.vthis.map r.st.csymOf = r.sthis.map some ∧
      (st.wf → (∀ v, fd.vthis = some v → fd.v_arguments ≠ some v) →
        (r.sthis.toList ++ r.shidden.toList ++ sv.toList ++ ps).Nodup) := by
  unfold paramsBeforeSwap at h
  cases ht : makeSthis fd (makeShidden fd st).2 with
  | error f => simp [ht] at h
  | ok t =>
    simp only [ht] at h
    cases hf : fillParams fd t.2 with
    | error f => simp [hf] at h
    | ok q =>
      simp only [hf, Except.ok.injEq] at h
      obtain ⟨S0, st2⟩ := q
      obtain ⟨sv, stv, hsv, hS0, hmono, hps⟩ := fillParams_spec fd t.2 S0 st2 hf
      have hthis := makeSthis_spec fd _ t ht
      have hhid := makeShidden_spec fd st
      refine ⟨sv, List.range' stv.next (fd.parameters.getD []).length, ?_⟩
      subst h
      simp only [reverseEntries_eq_reverse, insertFirst]
      refine ⟨?_, ?_, ?_, ?_, ?_, ?_, hps, ?_, ?_⟩
      · rw [← hS0]
        cases t.1 <;> cases (makeShidden fd st).1 <;> simp
      · rcases hhid with ⟨h1, h2⟩ | ⟨h1, h2⟩
        · simp [h1, h2]
        · simp [h1, h2]
      · rcases hthis with ⟨h1, h2⟩ | ⟨v, h1, _, h2⟩
        · simp [h1, h2]
        · simp [h1, h2]
      · rcases hsv with ⟨h1, h2, _⟩ | ⟨va, h1, h2, _⟩
        · simp [h1, h2]
        · simp [h1, h2]
      · simp
      · rcases hsv with ⟨h1, h2, _⟩ | ⟨va, h1, h2, h3⟩
        · simp [h1, h2]
        · simp only [h1, h2, Option.map_some']
          congr 1
          apply hmono
          rw [h3]
          exact toSymbol_csymOf_self va t.2
      · rcases hthis with ⟨h1, h2⟩ | ⟨v, h1, _, h2⟩
        · simp [h1, h2]
        · simp only [h1, h2, Option.map_some']
          congr 1
          apply hmono
          have hin : t.2.csymOf v = some (makeShidden fd st).2.next := by
            rw [h2, csymOf_insert]
            simp
          rcases hsv with ⟨_, _, h5⟩ | ⟨va, _, _, h5⟩
          · rw [h5]; exact hin
          · rw [h5]; exact toSymbol_mono va v t.2 _ hin
      · intro hwf hne
        have hcached : ∀ va c, fd.v_arguments = some va → t.2.csymOf va = some c →
            c < st.next := by
          intro va c hva hc
          have hst : (makeShidden fd st).2.csymOf va = some c := by
            rcases hthis with ⟨_, h2⟩ | ⟨v, h1, _, h2⟩
            · rw [h2] at hc; exact hc
            · rw [h2, csymOf_insert] at hc
              have hvv : ¬ va.ident = v.ident := by
                intro he
                have : va = v := by cases va; cases v; simp_all
                exact hne v h1 (this ▸ hva)
              simpa [hvv] using hc
          have hst2 : st.csymOf va = some c := by
            rcases hhid with ⟨_, h2⟩ | ⟨_, h2⟩
            · rw [h2] at hst; exact hst
            · rw [h2] at hst; exact hst
          exact csymOf_lt_of_wf st hwf va c hst2
        have hn1 : (makeShidden fd st).1.toList = [] ∧ (makeShidden fd st).2.next = st.next ∨
            (makeShidden fd st).1.toList = [st.next] ∧
              (makeShidden fd st).2.next = st.next + 1 := by
          rcases hhid with ⟨_, h2⟩ | ⟨_, h2⟩
          · right; simp [h2]
          · left; simp [h2]
        have hn2 : t.1.toList = [] ∧ t.2.next = (makeShidden fd st).2.next ∨
            t.1.toList = [(makeShidden fd st).2.next] ∧
              t.2.next = (makeShidden fd st).2.next + 1 := by
          rcases hthis with ⟨_, h2⟩ | ⟨v, _, _, h2⟩
          · left; simp [h2]
          · right; simp [h2]
        have hn3 : sv.toList = [] ∧ stv.next = t.2.next ∨
            (∃ c, sv.toList = [c] ∧ c < st.next ∧ stv.next = t.2.next) ∨
            sv.toList = [t.2.next] ∧ stv.next = t.2.next + 1 := by
          rcases hsv with ⟨_, h2, h3⟩ | ⟨va, h1, h2, h3⟩
          · left; simp [h2, h3]
          · cases hc : t.2.csymOf va with
            | none =>
              right; right
              rw [h2, h3, toSymbol_none va t.2 hc]
              simp
            | some c =>
              right; left
              refine ⟨c, ?_, hcached va c h1 hc, ?_⟩
              · rw [h2, toSymbol_some va t.2 c hc]; rfl
              · rw [h3, toSymbol_some va t.2 c hc]
        generalize (fd.parameters.getD []).length = n
        generalize (makeShidden fd st).1.toList = l1 at hn1 ⊢
        generalize (makeShidden fd st).2.next = n1 at hn1 hn2 ⊢
        generalize t.1.toList = l2 at hn2 ⊢
        generalize t.2.next = n2 at hn2 hn3 ⊢
        generalize sv.toList = l3 at hn3 ⊢
        generalize stv.next = n3 at hn3 ⊢
        generalize st.next = n0 at hn1 hn3 ⊢
        unfold Symbol at *
        rcases hn1 with ⟨rfl, rfl⟩ | ⟨rfl, rfl⟩ <;>
        rcases hn2 with ⟨rfl, rfl⟩ | ⟨rfl, rfl⟩ <;>
        rcases hn3 with ⟨rfl, rfl⟩ | ⟨c, rfl, hc, rfl⟩ | ⟨rfl, rfl⟩ <;>
        simp [List.nodup_range', List.mem_range'_1] <;> omega

theorem swapHidden_cons_cons (a b : Symbol) (rest : List Symbol) :
    swapHidden (a :: b :: rest) = b :: a :: rest := by
  simp [swapHidden, swapEntries]

theorem toObjFile_params_eq (gp : Param) (fd : FuncDeclaration) (st : SymState)
    (r : ParamList) (h : toObjFile_params gp fd st = .ok r) :
    ∃ r0, paramsBeforeSwap fd st = .ok r0 ∧ r.shidden = r0.shidden ∧ r.sthis = r0.sthis ∧
      r.st = r0.st ∧
      r.params = if swapApplies gp fd r0.shidden r0.sthis then swapHidden r0.params
        else r0.params := by
  unfold toObjFile_params at h
  cases h0 : paramsBeforeSwap fd st with
  | error f => simp [h0] at h
  | ok r0 =>
    simp only [h0] at h
    refine ⟨r0, rfl, ?_⟩
    split at h
    · rename_i hs
      simp only [Except.ok.injEq] at h
      subst h
      simp [hs]
    · rename_i hs
      simp only [Except.ok.injEq] at h
      subst h
      simp [hs]

theorem toObjFile_params_shape (gp : Param) (fd : FuncDeclaration) (st : SymState)
    (r : ParamList) (h : toObjFile_params gp fd st = .ok r) :
    ∃ (sv : Option Symbol) (ps : List Symbol),
      r.params =
        (if swapApplies gp fd r.shidden r.sthis then r.shidden.toList ++ r.sthis.toList
          else r.sthis.toList ++ r.shidden.toList) ++
        (if fd.tyrevfunc then (sv.toList ++ ps).reverse else sv.toList ++ ps) ∧
      r.shidden.isSome = (fd.retStyle == .RETstack) ∧
      r.sthis.isSome = fd.vthis.isSome ∧
      sv.isSome = fd.v_arguments.isSome ∧
      ps.length = (fd.parameters.getD []).length ∧
      fd.v_arguments.map r.st.csymOf = sv.map some ∧
      (fd.parameters.getD []).map r.st.csymOf = ps.map some ∧
      fd.vthis.map r.st.csymOf = r.sthis.map some ∧
      (st.wf → (∀ v, fd.vthis = some v → fd.v_arguments ≠ some v) →
        (r.sthis.toList ++ r.shidden.toList ++ sv.toList ++ ps).Nodup) := by
  obtain ⟨r0, h0, e1, e2, e3, e4⟩ := toObjFile_params_eq gp fd st r h
  obtain ⟨sv, ps, k1, k2, k3, k4, k5, k6, k7, k8, k9⟩ := paramsBeforeSwap_shape fd st r0 h0
  refine ⟨sv, ps, ?_, e1 ▸ k2, e2 ▸ k3, k4, k5, e3 ▸ k6, e3 ▸ k7, ?_, ?_⟩
  · rw [e4, e1, e2, k1]
    by_cases hs : swapApplies gp fd r0.shidden r0.sthis = true
    · simp only [hs, if_true]
      have hb : r0.shidden.isSome = true ∧ r0.sthis.isSome = true := by
        simp only [swapApplies, Bool.and_eq_true] at hs
        exact ⟨hs.1.2, hs.2⟩
      obtain ⟨a, ha⟩ := Option.isSome_iff_exists.mp hb.1
      obtain ⟨b, hb2⟩ := Option.isSome_iff_exists.mp hb.2
      simp only [ha, hb2, Option.toList, List.singleton_append, List.cons_append,
        List.nil_append, swapHidden_cons_cons]
    · simp [hs]
  · rw [e2, e3]; exact k8
  · rw [e1, e2]; exact k9

theorem wf_empty : SymState.wf {} := by
  intro p hp
  simp at hp

/-- C4 as stated fails: for a routine with both a hidden return pointer
(symbol 0) and a context pointer (symbol 1), with no swap exception applying,
the list starts with the context, then the hidden return pointer. -/
theorem C4_counterexample_context_precedes_hidden :
    toObjFile_params {} exHiddenThis {} = .ok exHiddenThisResult ∧
    swapApplies {} exHiddenThis exHiddenThisResult.shidden exHiddenThisResult.sthis = false ∧
    exHiddenThisResult.shidden = some 0 ∧ exHiddenThisResult.sthis = some 1 ∧
    exHiddenThisResult.params.take 2 = [1, 0] ∧
    ¬ (exHiddenThisResult.params.take 2 = [0, 1]) :=
  ⟨rfl, rfl, rfl, rfl, rfl, by decide⟩

/-- C4 (amended): for every routine that has both a hidden return pointer and a
context pointer, when the swap exception does not apply, the first two physical
parameters of the final list are the context, then the hidden return pointer. -/
theorem C4_context_then_hidden_return (gp : Param) (fd : FuncDeclaration) (st : SymState)
    (r : ParamList) (sh sth : Symbol)
    (h : toObjFile_params gp fd st = .ok r)
    (hsh : r.shidden = some sh) (hth : r.sthis = some sth)
    (hno : swapApplies gp fd r.shidden r.sthis = false) :
    ∃ rest, r.params = sth :: sh :: rest := by
  obtain ⟨sv, ps, k1, _⟩ := toObjFile_params_shape gp fd st r h
  rw [hno, hsh, hth] at k1
  exact ⟨_, by simpa using k1⟩

/-- Witness for C4 (amended). -/
theorem C4_context_then_hidden_return_witness :
    toObjFile_params {} exHiddenThis {} = .ok exHiddenThisResult ∧
    ∃ rest, exHiddenThisResult.params = 1 :: 0 :: rest :=
  ⟨rfl, C4_context_then_hidden_return {} exHiddenThis {} exHiddenThisResult 0 1 rfl rfl rfl rfl⟩

/-- C5: the swap exception applies exactly when the target is Linux, OSX,
FreeBSD or Solaris, the linkage is not D and both the hidden return pointer and
the context pointer are present; when it applies the final list is the list
before the test with its first two entries (context, hidden return) exchanged
and the rest unchanged, and when it does not apply the list is not altered. -/
theorem C5_swap_exception (gp : Param) (fd : FuncDeclaration) (st : SymState)
    (r0 : ParamList) (h0 : paramsBeforeSwap fd st = .ok r0) :
    (swapApplies gp fd r0.shidden r0.sthis = true ↔
      (gp.isLinux = true ∨ gp.isOSX = true ∨ gp.isFreeBSD = true ∨ gp.isSolaris = true) ∧
        fd.linkage ≠ .LINKd ∧ r0.shidden.isSome = true ∧ r0.sthis.isSome = true) ∧
    (swapApplies gp fd r0.shidden r0.sthis = true →
      ∃ sth sh rest, r0.sthis = some sth ∧ r0.shidden = some sh ∧
        r0.params = sth :: sh :: rest ∧
        toObjFile_params gp fd st = .ok { r0 with params := sh :: sth :: rest }) ∧
    (swapApplies gp fd r0.shidden r0.sthis = false → toObjFile_params gp fd st = .ok r0) := by
  refine ⟨?_, ?_, ?_⟩
  · simp only [swapApplies, Bool.and_eq_true, Bool.or_eq_true, bne_iff_ne, ne_eq]
    tauto
  · intro hs
    obtain ⟨sv, ps, k1, _⟩ := paramsBeforeSwap_shape fd st r0 h0
    have hb : r0.shidden.isSome = true ∧ r0.sthis.isSome = true := by
      simp only [swapApplies, Bool.and_eq_true] at hs
      exact ⟨hs.1.2, hs.2⟩
    obtain ⟨sh, hsh⟩ := Option.isSome_iff_exists.mp hb.1
    obtain ⟨sth, hth⟩ := Option.isSome_iff_exists.mp hb.2
    rw [hsh, hth] at k1
    refine ⟨sth, sh, _, hth, hsh, by simpa using k1, ?_⟩
    unfold toObjFile_params
    simp only [h0, hs, if_true]
    rw [k1]
    simp [swapHidden_cons_cons]
  · intro hs
    unfold toObjFile_params
    simp [h0, hs]

/-- Witness for C5: a C-linkage member routine with hidden return on Linux. -/
theorem C5_swap_exception_witness :
    paramsBeforeSwap exHiddenThisC {} = .ok exHiddenThisResult ∧
    swapApplies exLinux exHiddenThisC exHiddenThisResult.shidden exHiddenThisResult.sthis = true ∧
    ∃ sth sh rest, exHiddenThisResult.sthis = some sth ∧ exHiddenThisResult.shidden = some sh ∧
      exHiddenThisResult.params = sth :: sh :: rest ∧
      toObjFile_params exLinux exHiddenThisC {} =
        .ok { exHiddenThisResult with params := sh :: sth :: rest } :=
  ⟨rfl, rfl, (C5_swap_exception exLinux exHiddenThisC {} exHiddenThisResult rfl).2.1 rfl⟩

theorem option_toList_map_csymOf (o : Option VarDeclaration) (sv : Option Symbol)
    (st : SymState) (h : o.map st.csymOf = sv.map some) :
    o.toList.map st.csymOf = sv.toList.map some := by
  cases o <;> cases sv <;> simp_all

/-- C6: the final physical parameter list is `hidden ++ S`, where `hidden`
consists of the context pointer and the hidden return pointer (those present,
next to each other, in one or the other order) and `S` is the list of entries
filled in source order (the symbol of the variadic descriptor, if any, then the
symbols of the declared parameters) when the convention is not reversed, and its
exact reverse when `tyrevfunc` holds: the reversal does not touch the hidden
parameters, which occupy the leading positions. -/
theorem C6_hidden_then_source_or_reversed (gp : Param) (fd : FuncDeclaration)
    (st : SymState) (r : ParamList) (h : toObjFile_params gp fd st = .ok r) :
    ∃ (hidden S0 : List Symbol),
      r.params = hidden ++ (if fd.tyrevfunc then S0.reverse else S0) ∧
      (hidden = r.sthis.toList ++ r.shidden.toList ∨
        hidden = r.shidden.toList ++ r.sthis.toList) ∧
      S0.map some = (fd.v_arguments.toList ++ fd.parameters.getD []).map r.st.csymOf ∧
      S0.length = estimatePi fd := by
  obtain ⟨sv, ps, k1, _, _, k4, k5, k6, k7, _, _⟩ := toObjFile_params_shape gp fd st r h
  refine ⟨_, sv.toList ++ ps, k1, ?_, ?_, ?_⟩
  · split
    · right; rfl
    · left; rfl
  · rw [List.map_append, List.map_append, k7, option_toList_map_csymOf _ _ _ k6]
  · unfold estimatePi
    rw [List.length_append, k5, ← k4]
    cases sv <;> simp

/-- Witness for C6 on a member routine with hidden return. -/
theorem C6_hidden_then_source_or_reversed_witness :
    toObjFile_params {} exHiddenThis {} = .ok exHiddenThisResult ∧
    ∃ (hidden S0 : List Symbol),
      exHiddenThisResult.params = hidden ++ (if exHiddenThis.tyrevfunc then S0.reverse else S0) ∧
      (hidden = exHiddenThisResult.sthis.toList ++ exHiddenThisResult.shidden.toList ∨
        hidden = exHiddenThisResult.shidden.toList ++ exHiddenThisResult.sthis.toList) ∧
      S0.map some = (exHiddenThis.v_arguments.toList ++ exHiddenThis.parameters.getD []).map
        exHiddenThisResult.st.csymOf ∧
      S0.length = estimatePi exHiddenThis :=
  ⟨rfl, C6_hidden_then_source_or_reversed {} exHiddenThis {} exHiddenThisResult rfl⟩

theorem toObjFile_params_perm (gp : Param) (fd : FuncDeclaration)
    (r : ParamList) (sv : Option Symbol) (ps : List Symbol)
    (k1 : r.params =
      (if swapApplies gp fd r.shidden r.sthis then r.shidden.toList ++ r.sthis.toList
        else r.sthis.toList ++ r.shidden.toList) ++
      (if fd.tyrevfunc then (sv.toList ++ ps).reverse else sv.toList ++ ps)) :
    List.Perm r.params (r.sthis.toList ++ r.shidden.toList ++ sv.toList ++ ps) := by
  rw [k1, List.append_assoc (r.sthis.toList ++ r.shidden.toList)]
  apply List.Perm.append
  · split
    · exact List.perm_append_comm
    · exact List.Perm.refl _
  · split
    · exact List.reverse_perm _
    · exact List.Perm.refl _

/-- C7: the number of physical parameters is the number of declared parameters
plus one for each hidden parameter present (the variadic descriptor, the hidden
return pointer for the `RETstack` return style, the context pointer); the
entries are pairwise distinct (for a well-formed symbol state and distinct
declarations of the context and the descriptor); and the number never exceeds
the estimate plus 2 for which the array was allocated. -/
theorem C7_parameter_count_and_distinct (gp : Param) (fd : FuncDeclaration)
    (st : SymState) (r : ParamList) (hwf : st.wf)
    (hdist : ∀ v, fd.vthis = some v → fd.v_arguments ≠ some v)
    (h : toObjFile_params gp fd st = .ok r) :
    r.params.length = (fd.parameters.getD []).length +
        (if fd.v_arguments.isSome then 1 else 0) +
        (if fd.retStyle = .RETstack then 1 else 0) +
        (if fd.vthis.isSome then 1 else 0) ∧
    r.params.Nodup ∧
    r.params.length ≤ estimatePi fd + 2 := by
  obtain ⟨sv, ps, k1, k2, k3, k4, k5, _, _, _, k9⟩ := toObjFile_params_shape gp fd st r h
  have hperm := toObjFile_params_perm gp fd r sv ps k1
  have hlen : r.params.length = (fd.parameters.getD []).length +
        (if fd.v_arguments.isSome then 1 else 0) +
        (if fd.retStyle = .RETstack then 1 else 0) +
        (if fd.vthis.isSome then 1 else 0) := by
    rw [hperm.length_eq]
    simp only [List.length_append, k5]
    have e1 : r.sthis.toList.length = if fd.vthis.isSome then 1 else 0 := by
      rw [← k3]; cases r.sthis <;> simp
    have e2 : r.shidden.toList.length = if fd.retStyle = .RETstack then 1 else 0 := by
      have : (fd.retStyle == RET.RETstack) = decide (fd.retStyle = .RETstack) := by
        cases fd.retStyle <;> rfl
      rw [this] at k2
      cases hh : r.shidden <;> simp [hh] at k2 <;> simp [k2]
    have e3 : sv.toList.length = if fd.v_arguments.isSome then 1 else 0 := by
      rw [← k4]; cases sv <;> simp
    rw [e1, e2, e3]
    omega
  refine ⟨hlen, hperm.nodup_iff.mpr (k9 hwf hdist), ?_⟩
  rw [hlen]
  unfold estimatePi
  split <;> split <;> split <;> omega

/-- Witness for C7 on a variadic member routine. -/
theorem C7_parameter_count_and_distinct_witness :
    toObjFile_params {} exVariadic {} = .ok exVariadicResult ∧
    (exVariadicResult.params.length = (exVariadic.parameters.getD []).length +
        (if exVariadic.v_arguments.isSome then 1 else 0) +
        (if exVariadic.retStyle = .RETstack then 1 else 0) +
        (if exVariadic.vthis.isSome then 1 else 0) ∧
      exVariadicResult.params.Nodup ∧
      exVariadicResult.params.length ≤ estimatePi exVariadic + 2) :=
  ⟨rfl, C7_parameter_count_and_distinct {} exVariadic {} exVariadicResult wf_empty
    (by decide) rfl⟩

/-- C9: `TypeFunction::totym` stops on its `assert(0)` exactly when the linkage
is none of windows, pascal, c, d, cpp; for each of those five it returns the
calling-convention code of that linkage (`TYnfunc` for `varargs == 1` under
windows, pascal and d, otherwise `TYnsfunc`, `TYnpfunc`, `TYjfunc`; `TYnfunc`
for c and cpp, except `TYhfunc` for c on a 32-bit POSIX target with stack
return) with the nothrow bit set exactly when the type is nothrow; it returns
no value for an unrecognized linkage. -/
theorem C9_totym_total_on_known_linkages (gp : Param) (tf : TypeFunction) :
    (tf.totym gp = .error .assertFailed ↔
      (tf.linkage ≠ .LINKwindows ∧ tf.linkage ≠ .LINKpascal ∧ tf.linkage ≠ .LINKc ∧
        tf.linkage ≠ .LINKd ∧ tf.linkage ≠ .LINKcpp)) ∧
    (tf.linkage = .LINKwindows → tf.totym gp =
      .ok ⟨if tf.varargs = 1 then .TYnfunc else .TYnsfunc, tf.isnothrow⟩) ∧
    (tf.linkage = .LINKpascal → tf.totym gp =
      .ok ⟨if tf.varargs = 1 then .TYnfunc else .TYnpfunc, tf.isnothrow⟩) ∧
    (tf.linkage = .LINKd → tf.totym gp =
      .ok ⟨if tf.varargs = 1 then .TYnfunc else .TYjfunc, tf.isnothrow⟩) ∧
    (tf.linkage = .LINKcpp → tf.totym gp = .ok ⟨.TYnfunc, tf.isnothrow⟩) ∧
    (tf.linkage = .LINKc → tf.totym gp =
      .ok ⟨if gp.targetPosix = true ∧ gp.I32 = true ∧ tf.retStyle = .RETstack then .TYhfunc
        else .TYnfunc, tf.isnothrow⟩) ∧
    (∀ t, tf.totym gp = .ok t →
      (tf.linkage = .LINKwindows ∨ tf.linkage = .LINKpascal ∨ tf.linkage = .LINKc ∨
        tf.linkage = .LINKd ∨ tf.linkage = .LINKcpp) ∧ t.mTYnothrow = tf.isnothrow) := by
  unfold TypeFunction.totym
  cases hl : tf.linkage <;> simp

theorem Grows.refl (a : LowerState) : Grows a a :=
  ⟨fun _ h => h, le_refl _, fun _ h => h⟩

theorem Grows.trans {a b c : LowerState} (h1 : Grows a b) (h2 : Grows b c) : Grows a c :=
  ⟨fun k h => h2.1 k (h1.1 k h), le_trans h1.2.1 h2.2.1, fun s h => h2.2.2 s (h1.2.2 s h)⟩

theorem lookupFunc_ident (prog : List FuncDeclaration) (id : Nat) (fd : FuncDeclaration)
    (h : lookupFunc prog id = some fd) : fd.ident = id := by
  have := List.find?_some h
  simpa using this

theorem grows_setSemanticRun_obj (st : LowerState) (id : Nat) :
    Grows st (st.setSemanticRun id .PASSobj) := by
  refine ⟨fun k h => ?_, le_refl _, fun _ h => h⟩
  simp only [LowerState.setSemanticRun]
  by_cases hk : k = id
  · simp [hk, PASS.geObj]
  · simpa [hk] using h

theorem grows_onlyOneMain (gp : Param) (st : LowerState) : Grows st (onlyOneMain gp st).2 := by
  unfold onlyOneMain
  split
  · exact ⟨fun _ h => h, by simp [error], fun _ h => h⟩
  · exact ⟨fun _ h => h, le_refl _, fun _ h => h⟩

theorem grows_objextdef (name : String) (st : LowerState) : Grows st (objextdef name st) :=
  ⟨fun _ h => h, le_refl _, fun _ h => h⟩

theorem grows_obj_includelib (name : String) (st : LowerState) :
    Grows st (obj_includelib name st) :=
  ⟨fun _ h => h, le_refl _, fun _ h => h⟩

theorem grows_andOnlyOneMain (gp : Param) (c : Bool) (st : LowerState) :
    Grows st (andOnlyOneMain gp c st).2 := by
  unfold andOnlyOneMain
  cases c
  · exact Grows.refl st
  · exact grows_onlyOneMain gp st

theorem grows_startup (gp : Param) (fd : FuncDeclaration) (st : LowerState) :
    Grows st (toObjFile_startup gp fd st) := by
  unfold toObjFile_startup
  simp only []
  have h1 := grows_andOnlyOneMain gp fd.isMain st
  generalize andOnlyOneMain gp fd.isMain st = r1 at h1 ⊢
  have h2 := grows_andOnlyOneMain gp fd.isWinMain r1.2
  generalize andOnlyOneMain gp fd.isWinMain r1.2 = r2 at h2 ⊢
  have h3 := grows_andOnlyOneMain gp fd.isDllMain r2.2
  generalize andOnlyOneMain gp fd.isDllMain r2.2 = r3 at h3 ⊢
  by_cases c1 : r1.1 = true
  · rw [if_pos c1]
    refine h1.trans ?_
    by_cases cw : gp.targetWindos = true
    · rw [if_pos cw]
      exact ((grows_objextdef _ _).trans (grows_objextdef _ _)).trans (grows_obj_includelib _ _)
    · rw [if_neg cw]
      exact (grows_objextdef _ _).trans (grows_obj_includelib _ _)
  · rw [if_neg c1]
    by_cases c2 : (fd.sidentMain && fd.linkage == .LINKc) = true
    · rw [if_pos c2]
      by_cases cw : gp.targetWindos = true
      · rw [if_pos cw]
        exact h1.trans ((grows_objextdef _ _).trans (grows_obj_includelib _ _))
      · rw [if_neg cw]
        exact h1
    · rw [if_neg c2]
      by_cases cw : gp.targetWindos = true
      · rw [if_pos cw]
        by_cases c3 : r2.1 = true
        · rw [if_pos c3]
          exact (h1.trans h2).trans ((grows_objextdef _ _).trans (grows_obj_includelib _ _))
        · rw [if_neg c3]
          by_cases c4 : r3.1 = true
          · rw [if_pos c4]
            exact ((h1.trans h2).trans h3).trans
              ((grows_objextdef _ _).trans (grows_obj_includelib _ _))
          · rw [if_neg c4]
            exact (h1.trans h2).trans h3
      · rw [if_neg cw]
        exact h1

theorem grows_enclosing (self : ToObjFile) (hself : SelfGrows self)
    (prog : List FuncDeclaration) (mo : Bool) (fd : FuncDeclaration) (st st2 : LowerState)
    (h : toObjFile_enclosing self prog mo fd st = .ok st2) : Grows st st2 := by
  unfold toObjFile_enclosing at h
  split at h
  · cases h; exact Grows.refl _
  · split at h
    · exact hself _ _ _ _ h
    · cases h; exact Grows.refl _

theorem grows_pushDeferred (st : LowerState) (a b : Nat) : Grows st (st.pushDeferred a b) :=
  ⟨fun _ h => h, le_refl _, fun _ h => h⟩

theorem grows_deferToObjLoop (self : ToObjFile) (hself : SelfGrows self)
    (prog : List FuncDeclaration) (l : List Nat) (st st2 : LowerState)
    (h : deferToObjLoop self prog l st = .ok st2) : Grows st st2 := by
  induction l generalizing st with
  | nil =>
    simp only [deferToObjLoop, Except.ok.injEq] at h
    subst h
    exact Grows.refl _
  | cons s rest ih =>
    rw [deferToObjLoop] at h
    split at h
    · exact (grows_pushDeferred _ _ _).trans (ih _ h)
    · cases hs : self false s st with
      | error f => simp [hs] at h
      | ok st1 =>
        simp only [hs] at h
        exact (hself _ _ _ _ hs).trans (ih _ h)

theorem grows_deferredLoop (self : ToObjFile) (hself : SelfGrows self) (id : Nat)
    (n i : Nat) (st st2 : LowerState)
    (h : deferredLoop self id n i st = .ok st2) : Grows st st2 := by
  induction n generalizing i st with
  | zero =>
    rw [deferredLoop] at h
    split at h
    · cases h; exact Grows.refl _
    · simp at h
  | succ m ih =>
    rw [deferredLoop] at h
    split at h
    · cases h; exact Grows.refl _
    · rename_i fd hfd
      cases hs : self false fd st with
      | error f => simp [hs] at h
      | ok st1 =>
        simp only [hs] at h
        exact (hself _ _ _ _ hs).trans (ih _ _ h)

theorem emit_cases (self : ToObjFile) (hself : SelfGrows self) (prog : List FuncDeclaration)
    (gp : Param) (fuel : Nat) (fd : FuncDeclaration) (st st2 : LowerState)
    (h : toObjFile_emit self prog gp fuel fd st = .ok st2) :
    Grows st st2 ∧ (st2.errors = 0 → fd.sym ∈ st2.written) := by
  unfold toObjFile_emit at h
  cases hp : toObjFile_params gp fd st.syms with
  | error f => simp [hp] at h
  | ok pl =>
    simp only [hp] at h
    split at h
    · simp at h
    · split at h
      · rename_i herr
        simp only [Except.ok.injEq] at h
        subst h
        refine ⟨⟨fun _ hk => hk, le_refl _, fun _ hs => hs⟩, ?_⟩
        intro h0
        simp at herr
        exact absurd h0 herr
      · cases hd : deferToObjLoop self prog fd.bodyDefers
            (if fd.isExport = true then
              { st with syms := pl.st, bk := toObjFile_register fd st.bk,
                        written := push st.written fd.sym,
                        exported := push st.exported fd.sym }
            else
              { st with syms := pl.st, bk := toObjFile_register fd st.bk,
                        written := push st.written fd.sym }) with
        | error f => simp [hd] at h
        | ok st4 =>
          simp only [hd] at h
          have g1 := grows_deferToObjLoop self hself prog _ _ _ hd
          have g2 := grows_deferredLoop self hself _ _ _ _ _ h
          have g0 : Grows st (if fd.isExport = true then
              { st with syms := pl.st, bk := toObjFile_register fd st.bk,
                        written := push st.written fd.sym,
                        exported := push st.exported fd.sym }
            else
              { st with syms := pl.st, bk := toObjFile_register fd st.bk,
                        written := push st.written fd.sym }) := by
            split
            · exact ⟨fun _ hk => hk, le_refl _, fun s hs => by simp [push, hs]⟩
            · exact ⟨fun _ hk => hk, le_refl _, fun s hs => by simp [push, hs]⟩
          refine ⟨(g0.trans g1).trans g2, fun _ => ?_⟩
          apply g2.2.2
          apply g1.2.2
          split <;> simp [push]

theorem body_grows (self : ToObjFile) (hself : SelfGrows self) (prog : List FuncDeclaration)
    (gp : Param) (fuel : Nat) (mo : Bool) (fd : FuncDeclaration) (st st2 : LowerState)
    (h : toObjFile_body self prog gp fuel mo fd st = .ok st2) : Grows st st2 := by
  unfold toObjFile_body at h
  split at h
  · cases h; exact Grows.refl _
  · split at h
    · cases h; exact Grows.refl _
    · split at h
      · cases h; exact Grows.refl _
      · split at h
        · cases h; exact Grows.refl _
        · split at h
          · cases h; exact ⟨fun _ hk => hk, le_refl _, fun _ hs => hs⟩
          · split at h
            · simp at h
            · simp only [] at h
              split at h
              · simp at h
              · rename_i st3 h3
                have g1 := grows_setSemanticRun_obj st fd.ident
                have g2 : Grows (st.setSemanticRun fd.ident .PASSobj) st3 := by
                  split at h3
                  · exact grows_enclosing self hself prog mo fd _ _ h3
                  · cases h3; exact grows_startup gp fd _
                exact (g1.trans g2).trans (emit_cases self hself prog gp fuel fd _ _ h).1

theorem toObjFile_grows (prog : List FuncDeclaration) (gp : Param) (fuel : Nat) :
    SelfGrows (toObjFile prog gp fuel) := by
  induction fuel with
  | zero =>
    intro mo id st st2 h
    simp [toObjFile] at h
  | succ n ih =>
    intro mo id st st2 h
    rw [toObjFile] at h
    split at h
    · cases h; exact Grows.refl _
    · exact body_grows _ ih prog gp n mo _ _ _ h

theorem body_lowers (self : ToObjFile) (hself : SelfGrows self) (prog : List FuncDeclaration)
    (gp : Param) (fuel : Nat) (fd : FuncDeclaration) (st st2 : LowerState)
    (hrun : st.semanticRun fd.ident = .PASSsemantic3done)
    (herr : fd.retError = false) (hbody : fd.fbody = true)
    (hut : (fd.isUnitTestDeclaration && !gp.useUnitTests) = false)
    (h : toObjFile_body self prog gp fuel false fd st = .ok st2) :
    ∃ st1, (if fd.isNested then toObjFile_enclosing self prog false fd
              (st.setSemanticRun fd.ident .PASSobj)
            else .ok (toObjFile_startup gp fd (st.setSemanticRun fd.ident .PASSobj))) = .ok st1 ∧
      toObjFile_emit self prog gp fuel fd st1 = .ok st2 ∧
      (st1.semanticRun fd.ident).geObj = true ∧
      (st2.semanticRun fd.ident).geObj = true ∧
      (st2.errors = 0 → fd.sym ∈ st2.written) := by
  unfold toObjFile_body at h
  simp only [hrun, herr, hbody, hut, PASS.geObj, PASS.toNat, Bool.false_and] at h
  simp only [Bool.not_true, Bool.false_eq_true, if_false, bne_self_eq_false,
    Nat.reduceLeDiff, decide_False] at h
  split at h
  · simp at h
  · rename_i st1 h1
    have g1 : Grows (st.setSemanticRun fd.ident .PASSobj) st1 := by
      split at h1
      · exact grows_enclosing self hself prog false fd _ _ h1
      · cases h1; exact grows_startup gp fd _
    have hobj : ((st.setSemanticRun fd.ident .PASSobj).semanticRun fd.ident).geObj = true := by
      simp [LowerState.setSemanticRun, PASS.geObj]
    have e := emit_cases self hself prog gp fuel fd _ _ h
    exact ⟨st1, h1, h, g1.1 _ hobj, e.1.1 _ (g1.1 _ hobj), e.2⟩

theorem register_ssharedctors (fd : FuncDeclaration) (bk : Bookkeeping) :
    (toObjFile_register fd bk).ssharedctors =
      if fd.kind == .sharedStaticCtor then bk.ssharedctors ++ [fd.sym] else bk.ssharedctors := by
  unfold toObjFile_register registerTest registerDtor registerCtor
  cases h : fd.kind <;> cases hv : fd.vgate <;>
    simp [FuncDeclaration.isSharedStaticCtorDeclaration, FuncDeclaration.isStaticCtorDeclaration,
      FuncDeclaration.isSharedStaticDtorDeclaration, FuncDeclaration.isStaticDtorDeclaration,
      FuncDeclaration.isUnitTestDeclaration, h, hv, push, shift]

theorem register_sshareddtors (fd : FuncDeclaration) (bk : Bookkeeping) :
    (toObjFile_register fd bk).sshareddtors =
      if fd.kind == .sharedStaticDtor then fd.sym :: bk.sshareddtors else bk.sshareddtors := by
  unfold toObjFile_register registerTest registerDtor registerCtor
  cases h : fd.kind <;> cases hv : fd.vgate <;>
    simp [FuncDeclaration.isSharedStaticCtorDeclaration, FuncDeclaration.isStaticCtorDeclaration,
      FuncDeclaration.isSharedStaticDtorDeclaration, FuncDeclaration.isStaticDtorDeclaration,
      FuncDeclaration.isUnitTestDeclaration, h, hv, push, shift]

theorem register_esharedctorgates (fd : FuncDeclaration) (bk : Bookkeeping) :
    (toObjFile_register fd bk).esharedctorgates =
      if fd.kind == .sharedStaticDtor && fd.vgate.isSome then bk.esharedctorgates ++ [fd]
      else bk.esharedctorgates := by
  unfold toObjFile_register registerTest registerDtor registerCtor
  cases h : fd.kind <;> cases hv : fd.vgate <;>
    simp [FuncDeclaration.isSharedStaticCtorDeclaration, FuncDeclaration.isStaticCtorDeclaration,
      FuncDeclaration.isSharedStaticDtorDeclaration, FuncDeclaration.isStaticDtorDeclaration,
      FuncDeclaration.isUnitTestDeclaration, h, hv, push, shift]

theorem register_stests (fd : FuncDeclaration) (bk : Bookkeeping) :
    (toObjFile_register fd bk).stests =
      if fd.kind == .unitTest then bk.stests ++ [fd.sym] else bk.stests := by
  unfold toObjFile_register registerTest registerDtor registerCtor
  cases h : fd.kind <;> cases hv : fd.vgate <;>
    simp [FuncDeclaration.isSharedStaticCtorDeclaration, FuncDeclaration.isStaticCtorDeclaration,
      FuncDeclaration.isSharedStaticDtorDeclaration, FuncDeclaration.isStaticDtorDeclaration,
      FuncDeclaration.isUnitTestDeclaration, h, hv, push, shift]

theorem foldl_register_sshareddtors (fds : List FuncDeclaration) (bk : Bookkeeping) :
    (fds.foldl (fun b fd => toObjFile_register fd b) bk).sshareddtors =
      ((sharedDtors fds).map (fun fd => fd.sym)).reverse ++ bk.sshareddtors := by
  induction fds generalizing bk with
  | nil => simp [sharedDtors]
  | cons fd fds ih =>
    simp only [List.foldl_cons, ih, register_sshareddtors, sharedDtors]
    by_cases h : fd.kind = .sharedStaticDtor <;> simp [List.filter_cons, h]

theorem foldl_register_ssharedctors (fds : List FuncDeclaration) (bk : Bookkeeping) :
    (fds.foldl (fun b fd => toObjFile_register fd b) bk).ssharedctors =
      bk.ssharedctors ++ (sharedCtors fds).map (fun fd => fd.sym) := by
  induction fds generalizing bk with
  | nil => simp [sharedCtors]
  | cons fd fds ih =>
    simp only [List.foldl_cons, ih, register_ssharedctors, sharedCtors]
    by_cases h : fd.kind = .sharedStaticCtor <;> simp [List.filter_cons, h]

theorem foldl_register_esharedctorgates (fds : List FuncDeclaration) (bk : Bookkeeping) :
    (fds.foldl (fun b fd => toObjFile_register fd b) bk).esharedctorgates =
      bk.esharedctorgates ++ (sharedDtors fds).filter (fun fd => fd.vgate.isSome) := by
  induction fds generalizing bk with
  | nil => simp [sharedDtors]
  | cons fd fds ih =>
    simp only [List.foldl_cons, ih, register_esharedctorgates, sharedDtors]
    by_cases h : fd.kind = .sharedStaticDtor <;> cases hv : fd.vgate <;>
      simp [List.filter_cons, h, hv]

theorem foldl_register_stests (fds : List FuncDeclaration) (bk : Bookkeeping) :
    (fds.foldl (fun b fd => toObjFile_register fd b) bk).stests =
      bk.stests ++ (unitTests fds).map (fun fd => fd.sym) := by
  induction fds generalizing bk with
  | nil => simp [unitTests]
  | cons fd fds ih =>
    simp only [List.foldl_cons, ih, register_stests, unitTests]
    by_cases h : fd.kind = .unitTest <;> simp [List.filter_cons, h]

theorem registerAll_fields (fds : List FuncDeclaration) :
    (registerAll fds).sctors = (ordinaryCtors fds).map (fun fd => fd.sym) ∧
    (registerAll fds).ectorgates = (ordinaryDtors fds).filter (fun fd => fd.vgate.isSome) ∧
    (registerAll fds).sdtors = ((ordinaryDtors fds).map (fun fd => fd.sym)).reverse ∧
    (registerAll fds).stests = (unitTests fds).map (fun fd => fd.sym) ∧
    (registerAll fds).ssharedctors = (sharedCtors fds).map (fun fd => fd.sym) ∧
    (registerAll fds).esharedctorgates = (sharedDtors fds).filter (fun fd => fd.vgate.isSome) ∧
    (registerAll fds).sshareddtors = ((sharedDtors fds).map (fun fd => fd.sym)).reverse := by
  simp [registerAll, foldl_register_sctors, foldl_register_ectorgates, foldl_register_sdtors,
    foldl_register_stests, foldl_register_ssharedctors, foldl_register_esharedctorgates,
    foldl_register_sshareddtors, Bookkeeping.reset]

theorem callFuncsAndGates_isSome (ss : Option (List Symbol))
    (gs : Option (List StaticDtorDeclaration)) (id : String) (r : Option Driver)
    (h : callFuncsAndGates ss gs id = .ok r) :
    (r.isSome = true ↔ ((ss.getD []).length ≠ 0 ∨ (gs.getD []).length ≠ 0)) ∧
    (∀ d, r = some d → d.id = id) := by
  unfold callFuncsAndGates at h
  by_cases hc : ((ss.getD []).length != 0 || (gs.getD []).length != 0) = true
  · rw [if_pos hc] at h
    simp only [] at h
    split at h
    · cases h
    · simp only [Except.ok.injEq] at h
      subst h
      exact ⟨by simpa using hc, by intro d hd; cases hd; rfl⟩
  · rw [if_neg hc] at h
    simp only [Except.ok.injEq] at h
    subst h
    exact ⟨by simpa using hc, by intro d hd; cases hd⟩

theorem genobjfile_drivers_ok (eictor : Option Elem) (bk : Bookkeeping)
    (h1 : ∀ f ∈ bk.ectorgates, f.vgate.isSome = true)
    (h2 : ∀ f ∈ bk.esharedctorgates, f.vgate.isSome = true) :
    ∃ c d sc sd t,
      callFuncsAndGates (some bk.sctors) (some bk.ectorgates) "__modctor" = .ok c ∧
      callFuncsAndGates (some bk.sdtors) none "__moddtor" = .ok d ∧
      callFuncsAndGates (some bk.ssharedctors) (some bk.esharedctorgates)
        "__modsharedctor" = .ok sc ∧
      callFuncsAndGates (some bk.sshareddtors) none "__modshareddtor" = .ok sd ∧
      callFuncsAndGates (some bk.stests) none "__modtest" = .ok t ∧
      genobjfile_drivers eictor bk =
        .ok { sictor := if eictor.isSome then some { id := "__modictor", Belem := eictor }
                else none,
              sctor := c, sdtor := d, ssharedctor := sc, sshareddtor := sd, stest := t,
              written :=
                (if eictor.isSome then some { id := "__modictor", Belem := eictor }
                  else none).toList ++ c.toList ++ d.toList ++ sc.toList ++ sd.toList ++
                  t.toList } := by
  obtain ⟨c, hc, _⟩ := callFuncsAndGates_gates bk.sctors bk.ectorgates "__modctor" h1
  obtain ⟨d, hd, _⟩ := callFuncsAndGates_noGates bk.sdtors "__moddtor"
  obtain ⟨sc, hsc, _⟩ := callFuncsAndGates_gates bk.ssharedctors bk.esharedctorgates
    "__modsharedctor" h2
  obtain ⟨sd, hsd, _⟩ := callFuncsAndGates_noGates bk.sshareddtors "__modshareddtor"
  obtain ⟨t, ht, _⟩ := callFuncsAndGates_noGates bk.stests "__modtest"
  refine ⟨c, d, sc, sd, t, hc, hd, hsc, hsd, ht, ?_⟩
  unfold genobjfile_drivers
  split
  · simp only [hc, hd, hsc, hsd, ht]
  · rename_i hn
    simp only [Bool.or_eq_true, not_or, Bool.not_eq_true, bne_eq_false_iff_eq,
      List.length_eq_zero] at hn
    obtain ⟨⟨⟨⟨⟨⟨⟨e0, e1⟩, e2⟩, e3⟩, e4⟩, e5⟩, e6⟩, e7⟩ := hn
    rw [e1, e2] at hc
    rw [e3] at hd
    rw [e4, e5] at hsc
    rw [e6] at hsd
    rw [e7] at ht
    simp [callFuncsAndGates] at hc hd hsc hsd ht
    subst hc hd hsc hsd ht
    simp [e0]

theorem registerAll_gates_wf (fds : List FuncDeclaration) :
    (∀ f ∈ (registerAll fds).ectorgates, f.vgate.isSome = true) ∧
    (∀ f ∈ (registerAll fds).esharedctorgates, f.vgate.isSome = true) := by
  obtain ⟨_, h2, _, _, _, h6, _⟩ := registerAll_fields fds
  rw [h2, h6]
  exact ⟨fun f hf => (List.mem_filter.mp hf).2, fun f hf => (List.mem_filter.mp hf).2⟩

/-- C18: `callFuncsAndGates` returns a driver (the one function it writes)
exactly when the routine list is non-empty or a gate list is supplied and
non-empty, and returns null otherwise; hence, after any sequence of lowered
routines, the construct driver exists iff an ordinary constructor or a gated
ordinary destructor was registered, the destruct driver iff an ordinary
destructor was registered, the test driver iff a unit test was registered, and
the functions written are exactly the drivers that exist, each once. -/
theorem C18_driver_exists_iff_registered (ss : Option (List Symbol))
    (gs : Option (List StaticDtorDeclaration)) (id : String)
    (fds : List FuncDeclaration) (eictor : Option Elem) :
    (∀ r, callFuncsAndGates ss gs id = .ok r →
      (r.isSome = true ↔ ((ss.getD []).length ≠ 0 ∨ (gs.getD []).length ≠ 0))) ∧
    (((ss.getD []).length = 0 ∧ (gs.getD []).length = 0) →
      callFuncsAndGates ss gs id = .ok none) ∧
    ∃ drv, genobjfile_drivers eictor (registerAll fds) = .ok drv ∧
      (drv.sctor.isSome = true ↔
        (ordinaryCtors fds ≠ [] ∨ ∃ fd ∈ ordinaryDtors fds, fd.vgate.isSome = true)) ∧
      (drv.sdtor.isSome = true ↔ ordinaryDtors fds ≠ []) ∧
      (drv.stest.isSome = true ↔ unitTests fds ≠ []) ∧
      drv.written = drv.sictor.toList ++ drv.sctor.toList ++ drv.sdtor.toList ++
        drv.ssharedctor.toList ++ drv.sshareddtor.toList ++ drv.stest.toList := by
  refine ⟨fun r h => (callFuncsAndGates_isSome ss gs id r h).1, ?_, ?_⟩
  · intro h
    simp [callFuncsAndGates, h.1, h.2]
  · obtain ⟨w1, w2⟩ := registerAll_gates_wf fds
    obtain ⟨c, d, sc, sd, t, hc, hd, _, _, ht, hdrv⟩ :=
      genobjfile_drivers_ok eictor (registerAll fds) w1 w2
    obtain ⟨f1, f2, f3, f4, _, _, _⟩ := registerAll_fields fds
    refine ⟨_, hdrv, ?_, ?_, ?_, rfl⟩
    · rw [(callFuncsAndGates_isSome _ _ _ c hc).1, f1, f2]
      simp only [Option.getD_some, List.length_map, ne_eq, List.length_eq_zero]
      constructor
      · rintro (h | h)
        · exact Or.inl h
        · right
          obtain ⟨fd, hfd⟩ := List.exists_mem_of_ne_nil _ h
          exact ⟨fd, (List.mem_filter.mp hfd).1, (List.mem_filter.mp hfd).2⟩
      · rintro (h | ⟨fd, hfd, hv⟩)
        · exact Or.inl h
        · right
          intro he
          have : fd ∈ (ordinaryDtors fds).filter (fun fd => fd.vgate.isSome) :=
            List.mem_filter.mpr ⟨hfd, hv⟩
          rw [he] at this
          cases this
    · rw [(callFuncsAndGates_isSome _ _ _ d hd).1, f3]
      simp
    · rw [(callFuncsAndGates_isSome _ _ _ t ht).1, f4]
      simp

theorem startup_rel (R : LowerState → LowerState → Prop)
    (hrefl : ∀ st, R st st) (htrans : ∀ a b c, R a b → R b c → R a c)
    (hone : ∀ gp st, R st (onlyOneMain gp st).2)
    (hext : ∀ name st, R st (objextdef name st))
    (hlib : ∀ name st, R st (obj_includelib name st))
    (gp : Param) (fd : FuncDeclaration) (st : LowerState) :
    R st (toObjFile_startup gp fd st) := by
  have hand : ∀ (c : Bool) (s : LowerState), R s (andOnlyOneMain gp c s).2 := by
    intro c s
    unfold andOnlyOneMain
    cases c
    · exact hrefl s
    · exact hone gp s
  unfold toObjFile_startup
  simp only []
  have h1 := hand fd.isMain st
  generalize andOnlyOneMain gp fd.isMain st = r1 at h1 ⊢
  have h2 := hand fd.isWinMain r1.2
  generalize andOnlyOneMain gp fd.isWinMain r1.2 = r2 at h2 ⊢
  have h3 := hand fd.isDllMain r2.2
  generalize andOnlyOneMain gp fd.isDllMain r2.2 = r3 at h3 ⊢
  have t2 : ∀ {a b c : LowerState}, R a b → R b c → R a c := fun h k => htrans _ _ _ h k
  by_cases c1 : r1.1 = true
  · rw [if_pos c1]
    refine t2 h1 ?_
    by_cases cw : gp.targetWindos = true
    · rw [if_pos cw]
      exact t2 (t2 (hext _ _) (hext _ _)) (hlib _ _)
    · rw [if_neg cw]
      exact t2 (hext _ _) (hlib _ _)
  · rw [if_neg c1]
    by_cases c2 : (fd.sidentMain && fd.linkage == .LINKc) = true
    · rw [if_pos c2]
      by_cases cw : gp.targetWindos = true
      · rw [if_pos cw]
        exact t2 h1 (t2 (hext _ _) (hlib _ _))
      · rw [if_neg cw]
        exact h1
    · rw [if_neg c2]
      by_cases cw : gp.targetWindos = true
      · rw [if_pos cw]
        by_cases c3 : r2.1 = true
        · rw [if_pos c3]
          exact t2 (t2 h1 h2) (t2 (hext _ _) (hlib _ _))
        · rw [if_neg c3]
          by_cases c4 : r3.1 = true
          · rw [if_pos c4]
            exact t2 (t2 (t2 h1 h2) h3) (t2 (hext _ _) (hlib _ _))
          · rw [if_neg c4]
            exact t2 (t2 h1 h2) h3
      · rw [if_neg cw]
        exact h1

theorem inv_startup {R : LowerState → LowerState → Prop} (hR : StepInv R)
    (gp : Param) (fd : FuncDeclaration) (st : LowerState) :
    R st (toObjFile_startup gp fd st) :=
  startup_rel R hR.refl hR.trans hR.oneMain hR.extName hR.inclib gp fd st

theorem inv_enclosing {R : LowerState → LowerState → Prop} (hR : StepInv R)
    (self : ToObjFile) (hself : SelfRespects R self)
    (prog : List FuncDeclaration) (mo : Bool) (hmo : mo = true → AppendOK R)
    (fd : FuncDeclaration) (st st2 : LowerState)
    (h : toObjFile_enclosing self prog mo fd st = .ok st2) : R st st2 := by
  unfold toObjFile_enclosing at h
  split at h
  · cases h; exact hR.refl _
  · split at h
    · exact hself _ _ _ _ hmo h
    · cases h; exact hR.refl _

theorem inv_deferToObjLoop {R : LowerState → LowerState → Prop} (hR : StepInv R)
    (self : ToObjFile) (hself : SelfRespects R self)
    (prog : List FuncDeclaration) (l : List Nat) (st st2 : LowerState)
    (h : deferToObjLoop self prog l st = .ok st2) : R st st2 := by
  induction l generalizing st with
  | nil =>
    simp only [deferToObjLoop, Except.ok.injEq] at h
    subst h
    exact hR.refl _
  | cons s rest ih =>
    rw [deferToObjLoop] at h
    split at h
    · rename_i fdp hq
      have hge : (st.semanticRun fdp).geObj = false := by
        split at hq
        · cases hq
        · split at hq
          · cases hq
          · split at hq
            · rename_i hc
              cases hq
              simpa using hc
            · cases hq
      exact hR.trans _ _ _ (hR.pushDef _ _ _ hge) (ih _ h)
    · cases hs : self false s st with
      | error f => simp [hs] at h
      | ok st1 =>
        simp only [hs] at h
        exact hR.trans _ _ _ (hself _ _ _ _ (by intro hf; cases hf) hs) (ih _ h)

theorem inv_deferredLoop {R : LowerState → LowerState → Prop} (hR : StepInv R)
    (self : ToObjFile) (hself : SelfRespects R self) (id : Nat)
    (n i : Nat) (st st2 : LowerState)
    (h : deferredLoop self id n i st = .ok st2) : R st st2 := by
  induction n generalizing i st with
  | zero =>
    rw [deferredLoop] at h
    split at h
    · cases h; exact hR.refl _
    · simp at h
  | succ m ih =>
    rw [deferredLoop] at h
    split at h
    · cases h; exact hR.refl _
    · rename_i fd hfd
      cases hs : self false fd st with
      | error f => simp [hs] at h
      | ok st1 =>
        simp only [hs] at h
        exact hR.trans _ _ _ (hself _ _ _ _ (by intro hf; cases hf) hs) (ih _ _ h)

theorem inv_emit {R : LowerState → LowerState → Prop} (hR : StepInv R)
    (self : ToObjFile) (hself : SelfRespects R self) (prog : List FuncDeclaration)
    (gp : Param) (fuel : Nat) (fd : FuncDeclaration) (st st2 : LowerState)
    (h : toObjFile_emit self prog gp fuel fd st = .ok st2) : R st st2 := by
  unfold toObjFile_emit at h
  cases hp : toObjFile_params gp fd st.syms with
  | error f => simp [hp] at h
  | ok pl =>
    simp only [hp] at h
    split at h
    · simp at h
    · have g0 := hR.register st fd pl.st
      split at h
      · simp only [Except.ok.injEq] at h
        subst h
        exact g0
      · split at h
        · simp at h
        · rename_i st4 hd
          have g3 := inv_deferToObjLoop hR self hself prog _ _ _ hd
          have g4 := inv_deferredLoop hR self hself _ _ _ _ _ h
          refine hR.trans _ _ _ (hR.trans _ _ _ ?_ g3) g4
          split
          · exact hR.trans _ _ _ (hR.trans _ _ _ g0 (hR.write _ _)) (hR.expSym _ _)
          · exact hR.trans _ _ _ g0 (hR.write _ _)

theorem inv_body {R : LowerState → LowerState → Prop} (hR : StepInv R)
    (self : ToObjFile) (hself : SelfRespects R self) (prog : List FuncDeclaration)
    (gp : Param) (fuel : Nat) (mo : Bool) (hmo : mo = true → AppendOK R)
    (fd : FuncDeclaration) (st st2 : LowerState)
    (h : toObjFile_body self prog gp fuel mo fd st = .ok st2) : R st st2 := by
  unfold toObjFile_body at h
  split at h
  · cases h; exact hR.refl _
  · rename_i hge
    have hge2 : (st.semanticRun fd.ident).geObj = false := by simpa using hge
    split at h
    · cases h; exact hR.refl _
    · split at h
      · cases h; exact hR.refl _
      · split at h
        · cases h; exact hR.refl _
        · split at h
          · rename_i hm
            cases h
            have hmt : mo = true := by
              simp only [Bool.and_eq_true] at hm
              exact hm.1.1
            exact hmo hmt _ _ hge2
          · split at h
            · simp at h
            · simp only [] at h
              split at h
              · simp at h
              · rename_i st3 h3
                have g1 := hR.setObj st fd.ident hge2
                have g2 : R (st.setSemanticRun fd.ident .PASSobj) st3 := by
                  split at h3
                  · exact inv_enclosing hR self hself prog mo hmo fd _ _ h3
                  · cases h3; exact inv_startup hR gp fd _
                exact hR.trans _ _ _ (hR.trans _ _ _ g1 g2)
                  (inv_emit hR self hself prog gp fuel fd _ _ h)

theorem inv_toObjFile {R : LowerState → LowerState → Prop} (hR : StepInv R)
    (prog : List FuncDeclaration) (gp : Param) (fuel : Nat) :
    SelfRespects R (toObjFile prog gp fuel) := by
  induction fuel with
  | zero =>
    intro mo id st st2 _ h
    simp [toObjFile] at h
  | succ n ih =>
    intro mo id st st2 hmo h
    rw [toObjFile] at h
    split at h
    · cases h; exact hR.refl _
    · exact inv_body hR _ ih prog gp n mo hmo _ _ _ h

theorem Bookkeeping.le_refl (a : Bookkeeping) : Bookkeeping.le a a :=
  ⟨fun _ h => h, fun _ h => h, fun _ h => h, fun _ h => h, fun _ h => h, fun _ h => h,
    fun _ h => h⟩

theorem Bookkeeping.le_trans {a b c : Bookkeeping} (h1 : Bookkeeping.le a b)
    (h2 : Bookkeeping.le b c) : Bookkeeping.le a c :=
  ⟨fun s h => h2.1 s (h1.1 s h), fun s h => h2.2.1 s (h1.2.1 s h),
    fun s h => h2.2.2.1 s (h1.2.2.1 s h), fun s h => h2.2.2.2.1 s (h1.2.2.2.1 s h),
    fun s h => h2.2.2.2.2.1 s (h1.2.2.2.2.1 s h),
    fun s h => h2.2.2.2.2.2.1 s (h1.2.2.2.2.2.1 s h),
    fun s h => h2.2.2.2.2.2.2 s (h1.2.2.2.2.2.2 s h)⟩

theorem Bookkeeping.le_register (fd : FuncDeclaration) (bk : Bookkeeping) :
    Bookkeeping.le bk (toObjFile_register fd bk) := by
  refine ⟨?_, ?_, ?_, ?_, ?_, ?_, ?_⟩
  · intro s h; rw [register_sctors]; split <;> simp [h]
  · intro s h; rw [register_ectorgates]; split <;> simp [h]
  · intro s h; rw [register_sdtors]; split <;> simp [h]
  · intro s h; rw [register_stests]; split <;> simp [h]
  · intro s h; rw [register_ssharedctors]; split <;> simp [h]
  · intro s h; rw [register_esharedctorgates]; split <;> simp [h]
  · intro s h; rw [register_sshareddtors]; split <;> simp [h]

theorem stable_refl (a : LowerState) : Stable a a :=
  ⟨fun _ h => h, ⟨[], by simp⟩, fun _ _ => rfl, Nat.le_refl _, fun _ _ => rfl,
    Bookkeeping.le_refl _⟩

theorem stable_trans {a b c : LowerState} (h1 : Stable a b) (h2 : Stable b c) :
    Stable a c := by
  obtain ⟨a1, ⟨w1, a2⟩, a3, a4, a5, a6⟩ := h1
  obtain ⟨b1, ⟨w2, b2⟩, b3, b4, b5, b6⟩ := h2
  refine ⟨fun k h => b1 k (a1 k h), ⟨w1 ++ w2, by rw [b2, a2, List.append_assoc]⟩,
    fun k h => ?_, Nat.le_trans a4 b4, fun k h => ?_, Bookkeeping.le_trans a6 b6⟩
  · rw [b3 k (a1 k h), a3 k h]
  · rw [b5 k (a1 k h), a5 k h]

theorem stable_of_same (a b : LowerState) (h1 : b.semanticRun = a.semanticRun)
    (h2 : b.written = a.written) (h3 : b.deferred = a.deferred) (h4 : a.errors ≤ b.errors)
    (h5 : b.obj_symbols_towrite = a.obj_symbols_towrite) (h6 : Bookkeeping.le a.bk b.bk) :
    Stable a b :=
  ⟨fun k h => by rw [h1]; exact h, ⟨[], by rw [h2]; simp⟩, fun k _ => by rw [h3], h4,
    fun k _ => by rw [h5], h6⟩

theorem stepInv_stable : StepInv Stable where
  refl := stable_refl
  trans := fun _ _ _ h1 h2 => stable_trans h1 h2
  setObj := by
    intro st id _
    refine ⟨fun k h => ?_, ⟨[], by simp [LowerState.setSemanticRun]⟩, fun _ _ => rfl,
      Nat.le_refl _, fun _ _ => rfl, Bookkeeping.le_refl _⟩
    simp only [LowerState.setSemanticRun]
    by_cases hk : k = id
    · simp [hk, PASS.geObj]
    · simpa [hk] using h
  pushDef := by
    intro st fdp s hge
    refine ⟨fun _ h => h, ⟨[], by simp [LowerState.pushDeferred]⟩, fun k h => ?_,
      Nat.le_refl _, fun _ _ => rfl, Bookkeeping.le_refl _⟩
    simp only [LowerState.pushDeferred]
    have hk : k ≠ fdp := by
      intro he
      rw [he, hge] at h
      cases h
    simp [hk]
  oneMain := by
    intro gp st
    unfold onlyOneMain
    split
    · exact stable_of_same _ _ rfl rfl rfl (by simp [error]) rfl (Bookkeeping.le_refl _)
    · exact stable_of_same _ _ rfl rfl rfl (Nat.le_refl _) rfl (Bookkeeping.le_refl _)
  extName := fun _ _ =>
    stable_of_same _ _ rfl rfl rfl (Nat.le_refl _) rfl (Bookkeeping.le_refl _)
  inclib := fun _ _ =>
    stable_of_same _ _ rfl rfl rfl (Nat.le_refl _) rfl (Bookkeeping.le_refl _)
  register := fun _ fd _ =>
    stable_of_same _ _ rfl rfl rfl (Nat.le_refl _) rfl (Bookkeeping.le_register fd _)
  write := fun st s =>
    ⟨fun _ h => h, ⟨[s], rfl⟩, fun _ _ => rfl, Nat.le_refl _, fun _ _ => rfl,
      Bookkeeping.le_refl _⟩
  expSym := fun _ _ =>
    stable_of_same _ _ rfl rfl rfl (Nat.le_refl _) rfl (Bookkeeping.le_refl _)

theorem appendOK_stable : AppendOK Stable := by
  intro st id hge
  refine ⟨fun _ h => h, ⟨[], by simp [obj_append]⟩, fun _ _ => rfl, Nat.le_refl _,
    fun k h => ?_, Bookkeeping.le_refl _⟩
  have hk : id ≠ k := by
    intro he
    rw [he, h] at hge
    cases hge
  have hc : List.count k [id] = 0 := by
    rw [List.count_cons]
    simp [hk]
  simp [obj_append, push, List.count_append, hc]

theorem stepInv_sameQueue : StepInv SameQueue where
  refl := fun _ => rfl
  trans := fun _ _ _ h1 h2 => by unfold SameQueue at *; rw [h2, h1]
  setObj := fun _ _ _ => rfl
  pushDef := fun _ _ _ _ => rfl
  oneMain := by
    intro gp st
    unfold onlyOneMain
    split <;> rfl
  extName := fun _ _ => rfl
  inclib := fun _ _ => rfl
  register := fun _ _ _ => rfl
  write := fun _ _ => rfl
  expSym := fun _ _ => rfl

theorem toObjFile_sameQueue (prog : List FuncDeclaration) (gp : Param) (fuel : Nat)
    (id : Nat) (st st2 : LowerState) (h : toObjFile prog gp fuel false id st = .ok st2) :
    st2.obj_symbols_towrite = st.obj_symbols_towrite :=
  inv_toObjFile stepInv_sameQueue prog gp fuel false id st st2 (by intro hf; cases hf) h

theorem emit_spec (self : ToObjFile) (prog : List FuncDeclaration) (gp : Param)
    (fuel : Nat) (fd : FuncDeclaration) (st st2 : LowerState)
    (h : toObjFile_emit self prog gp fuel fd st = .ok st2) :
    ∃ pl, toObjFile_params gp fd st.syms = .ok pl ∧
      ((st.errors ≠ 0 ∧ st2 = emitRegistered fd pl st) ∨
       (st.errors = 0 ∧ ∃ st4,
          deferToObjLoop self prog fd.bodyDefers (emitWritten fd (emitRegistered fd pl st)) =
            .ok st4 ∧
          deferredLoop self fd.ident fuel 0 st4 = .ok st2)) := by
  unfold toObjFile_emit at h
  cases hp : toObjFile_params gp fd st.syms with
  | error f => simp [hp] at h
  | ok pl =>
    simp only [hp] at h
    refine ⟨pl, rfl, ?_⟩
    split at h
    · simp at h
    · split at h
      · rename_i herr
        simp only [Except.ok.injEq] at h
        left
        exact ⟨by simpa using herr, h.symm⟩
      · rename_i herr
        right
        refine ⟨by simpa using herr, ?_⟩
        split at h
        · simp at h
        · rename_i st4 hd
          refine ⟨st4, ?_, h⟩
          rw [← hd]
          unfold emitWritten emitRegistered
          split <;> rfl

/-- C12: in unit-splitting mode, `toObjFile` on a routine that is not a static
constructor or destructor, has a body and is not skipped (not yet lowered, no
error type, not a disabled unit test) returns at once with the routine appended
exactly once to `obj_symbols_towrite` and every other part of the state as it
was: `semanticRun`, the bookkeeping sequences and the symbols written are
unchanged. -/
theorem C12_multiobj_ordinary_routine_only_appended (prog : List FuncDeclaration)
    (gp : Param) (fuel id : Nat) (fd : FuncDeclaration) (st : LowerState)
    (hlook : lookupFunc prog id = some fd)
    (hc : fd.isStaticCtorDeclaration = false) (hd : fd.isStaticDtorDeclaration = false)
    (hrun : (st.semanticRun fd.ident).geObj = false)
    (herr : fd.retError = false) (hbody : fd.fbody = true)
    (hut : (fd.isUnitTestDeclaration && !gp.useUnitTests) = false) :
    toObjFile prog gp (fuel + 1) true id st =
      .ok { st with obj_symbols_towrite := st.obj_symbols_towrite ++ [fd.ident] } := by
  rw [toObjFile, hlook]
  simp only [toObjFile_body, hrun, herr, hbody, hut, hc, hd, obj_append, push]
  simp

/-- Witness for C12: the ordinary routine of `progOne`, from the initial state. -/
theorem C12_multiobj_ordinary_routine_only_appended_witness :
    toObjFile progOne {} 1 true 1 {} =
      .ok { ({} : LowerState) with
            obj_symbols_towrite := ({} : LowerState).obj_symbols_towrite ++ [exOne.ident] } :=
  C12_multiobj_ordinary_routine_only_appended progOne {} 0 1 exOne {} rfl rfl rfl rfl rfl rfl
    rfl

theorem body_spec (self : ToObjFile) (prog : List FuncDeclaration) (gp : Param)
    (fuel : Nat) (mo : Bool) (fd : FuncDeclaration) (st st2 : LowerState)
    (hrun : st.semanticRun fd.ident = .PASSsemantic3done)
    (herr : fd.retError = false) (hbody : fd.fbody = true)
    (hut : (fd.isUnitTestDeclaration && !gp.useUnitTests) = false)
    (hmo : (mo && !fd.isStaticDtorDeclaration && !fd.isStaticCtorDeclaration) = false)
    (h : toObjFile_body self prog gp fuel mo fd st = .ok st2) :
    ∃ st1, (if fd.isNested then toObjFile_enclosing self prog mo fd
              (st.setSemanticRun fd.ident .PASSobj)
            else .ok (toObjFile_startup gp fd (st.setSemanticRun fd.ident .PASSobj))) = .ok st1 ∧
      toObjFile_emit self prog gp fuel fd st1 = .ok st2 := by
  unfold toObjFile_body at h
  simp only [hrun, herr, hbody, hut, hmo, PASS.geObj, PASS.toNat, Bool.false_and] at h
  simp only [Bool.not_true, Bool.false_eq_true, if_false, bne_self_eq_false,
    Nat.reduceLeDiff, decide_False] at h
  split at h
  · simp at h
  · rename_i st1 h1
    exact ⟨st1, h1, h⟩

/-- C13 as stated fails for test probes: in unit-splitting mode `toObjFile` on a
unit test (number 1), with unit tests enabled, appends it to
`obj_symbols_towrite` and neither lowers it nor registers it in `stests`. -/
theorem C13_counterexample_unit_test_deferred :
    observeSplit (toObjFile progTest { useUnitTests := true } 3 true 1 {}) =
      .ok ([1], .PASSsemantic3done, [], [], []) :=
  rfl

/-- A call of `toObjFile` in unit-splitting mode on a static constructor or
destructor that has returned: the routine is not on the queue more often than
before, it is at `PASSobj`, and it is registered in the sequence of its kind. -/
theorem static_init_inline_of_completed_call (prog : List FuncDeclaration) (gp : Param)
    (fuel id : Nat) (fd : FuncDeclaration) (st st2 : LowerState)
    (hlook : lookupFunc prog id = some fd)
    (hk : fd.isStaticCtorDeclaration = true ∨ fd.isStaticDtorDeclaration = true)
    (hrun : st.semanticRun fd.ident = .PASSsemantic3done)
    (herr : fd.retError = false) (hbody : fd.fbody = true)
    (h : toObjFile prog gp (fuel + 1) true id st = .ok st2) :
    (st2.semanticRun fd.ident).geObj = true ∧
    st2.obj_symbols_towrite.count fd.ident = st.obj_symbols_towrite.count fd.ident ∧
    (fd.kind = .staticCtor → fd.sym ∈ st2.bk.sctors) ∧
    (fd.kind = .sharedStaticCtor → fd.sym ∈ st2.bk.ssharedctors) ∧
    (fd.kind = .staticDtor → fd.sym ∈ st2.bk.sdtors ∧
      (fd.vgate.isSome = true → fd ∈ st2.bk.ectorgates)) ∧
    (fd.kind = .sharedStaticDtor → fd.sym ∈ st2.bk.sshareddtors ∧
      (fd.vgate.isSome = true → fd ∈ st2.bk.esharedctorgates)) := by
  rw [toObjFile, hlook] at h
  have hut : (fd.isUnitTestDeclaration && !gp.useUnitTests) = false := by
    rcases hk with hk | hk <;>
      simp only [FuncDeclaration.isStaticCtorDeclaration,
        FuncDeclaration.isStaticDtorDeclaration, Bool.or_eq_true, beq_iff_eq] at hk <;>
      rcases hk with hk | hk <;> simp [FuncDeclaration.isUnitTestDeclaration, hk]
  have hmo : (true && !fd.isStaticDtorDeclaration && !fd.isStaticCtorDeclaration) = false := by
    rcases hk with hk | hk <;> simp [hk]
  obtain ⟨st1, h1, h2⟩ := body_spec _ prog gp fuel true fd st st2 hrun herr hbody hut hmo h
  have hself : SelfRespects Stable (toObjFile prog gp fuel) :=
    inv_toObjFile stepInv_stable prog gp fuel
  have g1 : Stable (st.setSemanticRun fd.ident .PASSobj) st1 := by
    split at h1
    · exact inv_enclosing stepInv_stable _ hself prog true (fun _ => appendOK_stable) fd _ _ h1
    · cases h1; exact inv_startup stepInv_stable gp fd _
  have g2 : Stable st1 st2 := inv_emit stepInv_stable _ hself prog gp fuel fd _ _ h2
  have g := stable_trans g1 g2
  have hobj : ((st.setSemanticRun fd.ident .PASSobj).semanticRun fd.ident).geObj = true := by
    simp [LowerState.setSemanticRun, PASS.geObj]
  have hreg : Bookkeeping.le (toObjFile_register fd st1.bk) st2.bk := by
    obtain ⟨pl, _, hcase⟩ := emit_spec _ prog gp fuel fd st1 st2 h2
    rcases hcase with ⟨_, he⟩ | ⟨_, st4, hd, hl⟩
    · rw [he]
      exact Bookkeeping.le_refl _
    · have k1 := inv_deferToObjLoop stepInv_stable _ hself prog _ _ _ hd
      have k2 := inv_deferredLoop stepInv_stable _ hself _ _ _ _ _ hl
      have k := (stable_trans k1 k2).2.2.2.2.2
      have e : (emitWritten fd (emitRegistered fd pl st1)).bk = toObjFile_register fd st1.bk := by
        unfold emitWritten emitRegistered
        split <;> rfl
      rw [e] at k
      exact k
  refine ⟨g.1 _ hobj, ?_, ?_, ?_, ?_, ?_⟩
  · have := g.2.2.2.2.1 _ hobj
    simpa [LowerState.setSemanticRun] using this
  · intro hkind
    apply hreg.1
    rw [register_sctors]
    simp [hkind]
  · intro hkind
    apply hreg.2.2.2.2.1
    rw [register_ssharedctors]
    simp [hkind]
  · intro hkind
    refine ⟨?_, fun hv => ?_⟩
    · apply hreg.2.2.1
      rw [register_sdtors]
      simp [hkind]
    · apply hreg.2.1
      rw [register_ectorgates]
      simp [hkind, hv]
  · intro hkind
    refine ⟨?_, fun hv => ?_⟩
    · apply hreg.2.2.2.2.2.2
      rw [register_sshareddtors]
      simp [hkind]
    · apply hreg.2.2.2.2.2.1
      rw [register_esharedctorgates]
      simp [hkind, hv]

theorem emitWritten_fields (fd : FuncDeclaration) (st : LowerState) :
    (emitWritten fd st).written = st.written ++ [fd.sym] ∧
    (emitWritten fd st).semanticRun = st.semanticRun ∧
    (emitWritten fd st).deferred = st.deferred ∧
    (emitWritten fd st).errors = st.errors ∧
    (emitWritten fd st).bk = st.bk ∧
    (emitWritten fd st).obj_symbols_towrite = st.obj_symbols_towrite := by
  unfold emitWritten
  split <;> exact ⟨rfl, rfl, rfl, rfl, rfl, rfl⟩

theorem genobjfile_ok (prog : List FuncDeclaration) (gp : Param) (fuel : Nat) (m : Module)
    (mo : Bool) (st : LowerState) (r : Module × UnitOutput × LowerState)
    (h : genobjfile prog gp fuel m mo st = .ok r) :
    ∃ refs st2 drv,
      genobjfile_reference m = .ok refs ∧
      membersLoop (toObjFile prog gp fuel) mo
        (genobjfile_cov gp m (genobjfile_init m st)).1.members
        (genobjfile_cov gp m (genobjfile_init m st)).2.2 = .ok st2 ∧
      genobjfile_drivers (genobjfile_bcov gp (genobjfile_cov gp m (genobjfile_init m st)).1 st2).2.1
        (genobjfile_bcov gp (genobjfile_cov gp m (genobjfile_init m st)).1 st2).2.2.2.bk = .ok drv ∧
      r = genobjfile_exit gp m st refs (genobjfile_cov gp m (genobjfile_init m st)) st2
        (genobjfile_bcov gp (genobjfile_cov gp m (genobjfile_init m st)).1 st2) drv := by
  unfold genobjfile at h
  cases h1 : genobjfile_reference m with
  | error f => simp [h1] at h
  | ok refs =>
    simp only [h1] at h
    cases h2 : membersLoop (toObjFile prog gp fuel) mo
        (genobjfile_cov gp m (genobjfile_init m st)).1.members
        (genobjfile_cov gp m (genobjfile_init m st)).2.2 with
    | error f => simp [h2] at h
    | ok st2 =>
      simp only [h2] at h
      cases h3 : genobjfile_drivers
          (genobjfile_bcov gp (genobjfile_cov gp m (genobjfile_init m st)).1 st2).2.1
          (genobjfile_bcov gp (genobjfile_cov gp m (genobjfile_init m st)).1 st2).2.2.2.bk with
      | error f => simp [h3] at h
      | ok drv =>
        simp only [h3, Except.ok.injEq] at h
        exact ⟨refs, st2, drv, rfl, rfl, h3, h.symm⟩

theorem genobjfile_cov_fields (gp : Param) (m : Module) (st : LowerState) :
    (genobjfile_cov gp m st).1.members = m.members ∧
    (genobjfile_cov gp m st).1.doppelganger = m.doppelganger ∧
    (genobjfile_cov gp m st).1.numlines = m.numlines ∧
    (genobjfile_cov gp m st).1.sfilename = m.sfilename ∧
    (genobjfile_cov gp m st).2.2.obj_symbols_towrite = st.obj_symbols_towrite ∧
    (genobjfile_cov gp m st).2.2.written = st.written ∧
    (genobjfile_cov gp m st).2.2.bk = st.bk := by
  unfold genobjfile_cov
  split <;> simp

theorem genobjfile_bcov_fields (gp : Param) (m : Module) (st : LowerState) :
    (genobjfile_bcov gp m st).1.doppelganger = m.doppelganger ∧
    (genobjfile_bcov gp m st).2.2.2.obj_symbols_towrite = st.obj_symbols_towrite ∧
    (genobjfile_bcov gp m st).2.2.2.written = st.written ∧
    (genobjfile_bcov gp m st).2.2.2.bk = st.bk ∧
    (genobjfile_bcov gp m st).2.1.isSome = gp.cov := by
  unfold genobjfile_bcov toEfilename genobjfile_eictor
  cases hc : gp.cov <;> cases hs : m.sfilename <;> simp [el_combine]

theorem gateLoop_inv (gs : List StaticDtorDeclaration) (ector r : Option Elem)
    (h : gateLoop gs ector = .ok r) :
    elemSeq r = elemSeq ector ++ (gs.filterMap (fun f => f.vgate)).map Elem.gateInc := by
  induction gs generalizing ector with
  | nil =>
    simp only [gateLoop, Except.ok.injEq] at h
    subst h
    simp
  | cons f fs ih =>
    cases hv : f.vgate with
    | none => simp [gateLoop, hv] at h
    | some v =>
      simp only [gateLoop, hv] at h
      rw [ih _ h, elemSeq_el_combine]
      simp [hv, elemSeq, Elem.seq]

theorem callFuncsAndGates_body (ss : Option (List Symbol))
    (gs : Option (List StaticDtorDeclaration)) (id : String) (r : Option Driver)
    (h : callFuncsAndGates ss gs id = .ok r) :
    ∀ e ∈ driverBody r, (∃ v, e = .gateInc v) ∨ (∃ s, e = .ucall s) := by
  unfold callFuncsAndGates at h
  split at h
  · simp only [] at h
    split at h
    · cases h
    · rename_i ector hg
      simp only [Except.ok.injEq] at h
      subst h
      have hbase : ∀ e ∈ elemSeq ector, (∃ v, e = Elem.gateInc v) ∨ (∃ s, e = Elem.ucall s) := by
        cases gs with
        | none =>
          simp only [Except.ok.injEq] at hg
          subst hg
          simp [elemSeq]
        | some g =>
          simp only [] at hg
          rw [gateLoop_inv g none ector hg]
          intro e he
          simp only [elemSeq, List.nil_append, List.mem_map] at he
          obtain ⟨v, _, rfl⟩ := he
          exact Or.inl ⟨v, rfl⟩
      intro e he
      simp only [driverBody] at he
      cases ss with
      | none => exact hbase e he
      | some l =>
        simp only [elemSeq_callLoop, List.mem_append, List.mem_map] at he
        rcases he with he | ⟨s, _, rfl⟩
        · exact hbase e he
        · exact Or.inr ⟨s, rfl⟩
  · simp only [Except.ok.injEq] at h
    subst h
    simp [driverBody]

theorem genobjfile_drivers_inv (eictor : Option Elem) (bk : Bookkeeping) (drv : Drivers)
    (h : genobjfile_drivers eictor bk = .ok drv) :
    drv.sictor = (if eictor.isSome then some { id := "__modictor", Belem := eictor } else none) ∧
    callFuncsAndGates (some bk.sctors) (some bk.ectorgates) "__modctor" = .ok drv.sctor ∧
    callFuncsAndGates (some bk.sdtors) none "__moddtor" = .ok drv.sdtor ∧
    callFuncsAndGates (some bk.ssharedctors) (some bk.esharedctorgates) "__modsharedctor" =
      .ok drv.ssharedctor ∧
    callFuncsAndGates (some bk.sshareddtors) none "__modshareddtor" = .ok drv.sshareddtor ∧
    callFuncsAndGates (some bk.stests) none "__modtest" = .ok drv.stest ∧
    drv.written = drv.sictor.toList ++ drv.sctor.toList ++ drv.sdtor.toList ++
      drv.ssharedctor.toList ++ drv.sshareddtor.toList ++ drv.stest.toList := by
  unfold genobjfile_drivers at h
  split at h
  · simp only [] at h
    cases hc : callFuncsAndGates (some bk.sctors) (some bk.ectorgates) "__modctor" with
    | error f => simp [hc] at h
    | ok c =>
    cases hd : callFuncsAndGates (some bk.sdtors) none "__moddtor" with
    | error f => simp [hc, hd] at h
    | ok d =>
    cases hsc : callFuncsAndGates (some bk.ssharedctors) (some bk.esharedctorgates)
        "__modsharedctor" with
    | error f => simp [hc, hd, hsc] at h
    | ok sc =>
    cases hsd : callFuncsAndGates (some bk.sshareddtors) none "__modshareddtor" with
    | error f => simp [hc, hd, hsc, hsd] at h
    | ok sd =>
    cases ht : callFuncsAndGates (some bk.stests) none "__modtest" with
    | error f => simp [hc, hd, hsc, hsd, ht] at h
    | ok t =>
      simp only [hc, hd, hsc, hsd, ht, Except.ok.injEq] at h
      subst h
      exact ⟨rfl, rfl, rfl, rfl, rfl, rfl, rfl⟩
  · rename_i hn
    simp only [Bool.or_eq_true, not_or, Bool.not_eq_true, bne_eq_false_iff_eq,
      List.length_eq_zero] at hn
    obtain ⟨⟨⟨⟨⟨⟨⟨e0, e1⟩, e2⟩, e3⟩, e4⟩, e5⟩, e6⟩, e7⟩ := hn
    simp only [Except.ok.injEq] at h
    subst h
    simp [e0, e1, e2, e3, e4, e5, e6, e7, callFuncsAndGates]

theorem genobjfile_cov_on (gp : Param) (m : Module) (st : LowerState) (hcov : gp.cov = true) :
    (genobjfile_cov gp m st).1.cov = st.syms.next ∧
    (genobjfile_cov gp m st).2.1 = [st.syms.next] := by
  simp [genobjfile_cov, hcov, symbol_name]

theorem genobjfile_bcov_on (gp : Param) (m : Module) (st : LowerState) (hcov : gp.cov = true) :
    ∃ sf, (genobjfile_bcov gp m st).1.sfilename = some sf ∧
      (genobjfile_bcov gp m st).1.cov = m.cov ∧
      (genobjfile_bcov gp m st).2.1 =
        some (.dcover m.numlines m.cov m.numlines st.syms.next (some sf)) ∧
      (genobjfile_bcov gp m st).2.2.1 =
        st.syms.next :: (if m.sfilename.isSome then [] else [sf]) := by
  unfold genobjfile_bcov toEfilename genobjfile_eictor
  cases hs : m.sfilename with
  | none => exact ⟨st.syms.next + 1, by simp [hcov, symbol_name, el_combine]⟩
  | some x => exact ⟨x, by simp [hcov, symbol_name, el_combine, hs]⟩

theorem genobjfile_exit_fields (gp : Param) (m : Module) (st : LowerState) (refs : List Symbol)
    (c : Module × List Symbol × LowerState) (st2 : LowerState)
    (b : Module × Option Elem × List Symbol × LowerState) (drv : Drivers) :
    (genobjfile_exit gp m st refs c st2 b drv).1.cov = b.1.cov ∧
    (genobjfile_exit gp m st refs c st2 b drv).1.sfilename = b.1.sfilename ∧
    (genobjfile_exit gp m st refs c st2 b drv).1.sictor =
      (if drv.sictor.isSome then drv.sictor else b.1.sictor) ∧
    (genobjfile_entered b.2.1 b.2.2.2.bk = true →
      (genobjfile_exit gp m st refs c st2 b drv).1.sctor = drv.sctor ∧
      (genobjfile_exit gp m st refs c st2 b drv).1.sdtor = drv.sdtor ∧
      (genobjfile_exit gp m st refs c st2 b drv).1.ssharedctor = drv.ssharedctor ∧
      (genobjfile_exit gp m st refs c st2 b drv).1.sshareddtor = drv.sshareddtor ∧
      (genobjfile_exit gp m st refs c st2 b drv).1.stest = drv.stest) ∧
    (genobjfile_exit gp m st refs c st2 b drv).2.1.refs = refs ∧
    (genobjfile_exit gp m st refs c st2 b drv).2.1.data = c.2.1 ++ b.2.2.1 ∧
    (genobjfile_exit gp m st refs c st2 b drv).2.1.funcs = st2.written.drop st.written.length ∧
    (genobjfile_exit gp m st refs c st2 b drv).2.1.drivers = drv.written ∧
    (genobjfile_exit gp m st refs c st2 b drv).2.1.moduleInfo =
      (if m.doppelganger then (if genobjfile_entered b.2.1 b.2.2.2.bk then 1 else 0) else 1) ∧
    (genobjfile_exit gp m st refs c st2 b drv).2.2.obj_symbols_towrite =
      b.2.2.2.obj_symbols_towrite ∧
    (genobjfile_exit gp m st refs c st2 b drv).2.2.written = b.2.2.2.written := by
  unfold genobjfile_exit Module.setDrivers toModuleSupport
  cases hd : m.doppelganger <;> cases hm : gp.multiobj <;>
    cases he : genobjfile_entered b.2.1 b.2.2.2.bk <;> cases hs : drv.sictor.isSome <;> simp

theorem coverage_init_of_completed_run (prog : List FuncDeclaration) (gp : Param) (fuel : Nat)
    (m : Module) (mo : Bool) (st : LowerState) (r : Module × UnitOutput × LowerState)
    (hcov : gp.cov = true) (h : genobjfile prog gp fuel m mo st = .ok r) :
    ∃ bcov sf d,
      r.1.sfilename = some sf ∧
      r.2.1.data = r.1.cov :: bcov :: (if m.sfilename.isSome then [] else [sf]) ∧
      r.1.sictor = some d ∧ d.id = "__modictor" ∧
      (elemSeq d.Belem).head? = some (.dcover m.numlines r.1.cov m.numlines bcov (some sf)) ∧
      r.2.1.drivers = d :: (r.1.sctor.toList ++ r.1.sdtor.toList ++ r.1.ssharedctor.toList ++
        r.1.sshareddtor.toList ++ r.1.stest.toList) ∧
      (∀ e ∈ driverBody r.1.sctor, ∀ a x b y f, e ≠ .dcover a x b y f) ∧
      (∀ d2 ∈ r.1.sctor.toList ++ r.1.sdtor.toList ++ r.1.ssharedctor.toList ++
          r.1.sshareddtor.toList ++ r.1.stest.toList,
        ∀ e ∈ elemSeq d2.Belem, ∀ a x b y f, e ≠ .dcover a x b y f) := by
  obtain ⟨refs, st2, drv, _, _, h3, hr⟩ := genobjfile_ok prog gp fuel m mo st r h
  obtain ⟨c1, c2⟩ := genobjfile_cov_on gp m (genobjfile_init m st) hcov
  obtain ⟨_, _, c3, c4, _, _, _⟩ := genobjfile_cov_fields gp m (genobjfile_init m st)
  obtain ⟨sf, b1, b2, b3, b4⟩ := genobjfile_bcov_on gp
    (genobjfile_cov gp m (genobjfile_init m st)).1 st2 hcov
  obtain ⟨d1, d2, d3, d4, d5, d6, d7⟩ := genobjfile_drivers_inv _ _ _ h3
  obtain ⟨e1, e2, e3, e4, _, e6, _, e8, _⟩ := genobjfile_exit_fields gp m st refs
    (genobjfile_cov gp m (genobjfile_init m st)) st2
    (genobjfile_bcov gp (genobjfile_cov gp m (genobjfile_init m st)).1 st2) drv
  have hent : genobjfile_entered
      (genobjfile_bcov gp (genobjfile_cov gp m (genobjfile_init m st)).1 st2).2.1
      (genobjfile_bcov gp (genobjfile_cov gp m (genobjfile_init m st)).1 st2).2.2.2.bk = true := by
    simp [genobjfile_entered, b3]
  obtain ⟨f1, f2, f3, f4, f5⟩ := e4 hent
  rw [b3] at d1
  simp only [Option.isSome_some, if_true] at d1
  rw [← hr] at e1 e2 e3 e6 e8 f1 f2 f3 f4 f5
  have hbody : ∀ (o : Option Driver), (∀ e ∈ driverBody o,
      (∃ v, e = Elem.gateInc v) ∨ (∃ s, e = Elem.ucall s)) →
      ∀ e ∈ driverBody o, ∀ a x b y f, e ≠ Elem.dcover a x b y f := by
    intro o ho e he a x b y f hf
    rcases ho e he with ⟨v, hv⟩ | ⟨s, hs⟩
    · rw [hv] at hf; cases hf
    · rw [hs] at hf; cases hf
  have k1 := hbody _ (callFuncsAndGates_body _ _ _ _ d2)
  have k2 := hbody _ (callFuncsAndGates_body _ _ _ _ d3)
  have k3 := hbody _ (callFuncsAndGates_body _ _ _ _ d4)
  have k4 := hbody _ (callFuncsAndGates_body _ _ _ _ d5)
  have k5 := hbody _ (callFuncsAndGates_body _ _ _ _ d6)
  refine ⟨st2.syms.next, sf, { id := "__modictor", Belem := some (.dcover
    (genobjfile_cov gp m (genobjfile_init m st)).1.numlines
    (genobjfile_cov gp m (genobjfile_init m st)).1.cov
    (genobjfile_cov gp m (genobjfile_init m st)).1.numlines st2.syms.next (some sf)) },
    ?_, ?_, ?_, rfl, ?_, ?_, ?_, ?_⟩
  · rw [e2, b1]
  · rw [e6, c2, b4, e1, b2, c1, c4]
    rfl
  · rw [e3, d1]
    rfl
  · rw [e1, b2, c3]
    simp [elemSeq, Elem.seq]
  · rw [e8, d7, d1, f1, f2, f3, f4, f5]
    simp
  · rw [f1]
    exact k1
  · rw [f1, f2, f3, f4, f5]
    intro d2 hd2 e he
    simp only [List.mem_append, Option.mem_toList, Option.mem_def] at hd2
    rcases hd2 with (((hd2 | hd2) | hd2) | hd2) | hd2
    · exact k1 e (by rw [hd2]; exact he)
    · exact k2 e (by rw [hd2]; exact he)
    · exact k3 e (by rw [hd2]; exact he)
    · exact k4 e (by rw [hd2]; exact he)
    · exact k5 e (by rw [hd2]; exact he)

theorem genobjfile_entered_false_iff (eictor : Option Elem) (bk : Bookkeeping) :
    genobjfile_entered eictor bk = false ↔ eictor = none ∧ bk = Bookkeeping.reset := by
  cases bk with
  | mk a b c d e f g =>
    cases eictor with
    | none =>
      simp [genobjfile_entered, Bookkeeping.reset, List.length_eq_zero, and_assoc]
      tauto
    | some x => simp [genobjfile_entered, Bookkeeping.reset]

theorem callFuncsAndGates_toList_nil (ss : Option (List Symbol))
    (gs : Option (List StaticDtorDeclaration)) (id : String) (r : Option Driver)
    (h : callFuncsAndGates ss gs id = .ok r) :
    r.toList = [] ↔
      ((ss.getD []).length != 0) = false ∧ ((gs.getD []).length != 0) = false := by
  have k := (callFuncsAndGates_isSome ss gs id r h).1
  cases r with
  | none =>
    simp only [Option.isSome_none, Bool.false_eq_true, false_iff, not_or, not_not] at k
    simp [k.1, k.2]
  | some d =>
    simp only [Option.isSome_some, true_iff] at k
    simp only [Option.toList_some, List.cons_ne_nil, false_iff, not_and, bne_eq_false_iff_eq]
    intro h1 h2
    rcases k with k | k
    · exact k h1
    · exact k h2

theorem drivers_written_nil_iff (eictor : Option Elem) (bk : Bookkeeping) (drv : Drivers)
    (h : genobjfile_drivers eictor bk = .ok drv) :
    drv.written = [] ↔ genobjfile_entered eictor bk = false := by
  obtain ⟨d1, d2, d3, d4, d5, d6, d7⟩ := genobjfile_drivers_inv eictor bk drv h
  have k1 : drv.sictor.toList = [] ↔ eictor.isSome = false := by
    rw [d1]
    cases eictor <;> simp
  have k2 := callFuncsAndGates_toList_nil _ _ _ _ d2
  have k3 := callFuncsAndGates_toList_nil _ _ _ _ d3
  have k4 := callFuncsAndGates_toList_nil _ _ _ _ d4
  have k5 := callFuncsAndGates_toList_nil _ _ _ _ d5
  have k6 := callFuncsAndGates_toList_nil _ _ _ _ d6
  simp only [Option.getD_some, Option.getD_none, List.length_nil] at k2 k3 k4 k5 k6
  rw [d7]
  simp only [List.append_eq_nil]
  rw [k1, k2, k3, k4, k5, k6]
  unfold genobjfile_entered
  simp only [Bool.or_eq_false_iff]
  have h0 : ((0 : Nat) != 0) = false := rfl
  clear k1 k2 k3 k4 k5 k6 d1 d2 d3 d4 d5 d6 d7 h
  simp only [h0, and_true]
  tauto

theorem genobjfile_exit_doppelganger (gp : Param) (m : Module) (st : LowerState)
    (refs : List Symbol) (c : Module × List Symbol × LowerState) (st2 : LowerState)
    (b : Module × Option Elem × List Symbol × LowerState) (drv : Drivers)
    (hd : m.doppelganger = true) :
    (genobjfile_exit gp m st refs c st2 b drv).2.2 = b.2.2.2 ∧
    (genobjfile_exit gp m st refs c st2 b drv).2.1.support = [] := by
  simp [genobjfile_exit, hd]

theorem genobjfile_reference_doppelganger (m : Module) (refs : List Symbol)
    (hd : m.doppelganger = true) (h : genobjfile_reference m = .ok refs) :
    ∃ m0, m.aimports[0]? = some m0 ∧
      refs = if (m0.sictor || m0.sctor || m0.sdtor || m0.ssharedctor || m0.sshareddtor) &&
          m0.Sxtrnnum == 0 then [m0.infoSym] else [] := by
  unfold genobjfile_reference at h
  rw [if_pos hd] at h
  cases h0 : m.aimports[0]? with
  | none => simp [h0] at h
  | some m0 =>
    refine ⟨m0, rfl, ?_⟩
    simp only [h0] at h
    by_cases h1 : (m0.sictor || m0.sctor || m0.sdtor || m0.ssharedctor || m0.sshareddtor) = true
    · by_cases h2 : (m0.Sxtrnnum == 0) = true
      · rw [if_pos h1, if_pos h2] at h
        simp only [Except.ok.injEq] at h
        simp [h1, h2, h]
      · rw [if_pos h1, if_neg h2] at h
        simp only [Except.ok.injEq] at h
        simp [h1, h2, h]
    · rw [if_neg h1] at h
      simp only [Except.ok.injEq] at h
      simp [h1, h]

/-- C16 as stated fails: the shadow unit made for a deferred unit test (unit
tests enabled) lowers it and so registers it in `stests`; `Module::genobjfile`
then writes the test driver `__modtest` in the shadow unit and generates the
shadow's module info (line 418). -/
theorem C16_counterexample_shadow_writes_test_driver :
    exShadowTest.doppelganger = true ∧
    observeUnit (genobjfile progTest exUnitTests 2 exShadowTest false {}) =
      .ok ({ refs := [50], funcs := [11],
             drivers := [{ id := "__modtest", Belem := some (.ucall 11) }],
             moduleInfo := 1 },
           [none, none, none, none, none,
            some { id := "__modtest", Belem := some (.ucall 11) }]) :=
  ⟨rfl, rfl⟩

/-- A run of `Module::genobjfile` on a doppelganger that has returned: the
reference made, and the drivers, module info and support functions written. -/
theorem doppelganger_of_completed_run (prog : List FuncDeclaration) (gp : Param)
    (fuel : Nat) (m : Module) (mo : Bool) (st : LowerState)
    (r : Module × UnitOutput × LowerState)
    (hd : m.doppelganger = true) (h : genobjfile prog gp fuel m mo st = .ok r) :
    (∃ m0, m.aimports[0]? = some m0 ∧
      r.2.1.refs = if (m0.sictor || m0.sctor || m0.sdtor || m0.ssharedctor ||
          m0.sshareddtor) && m0.Sxtrnnum == 0 then [m0.infoSym] else []) ∧
    ((gp.cov = false ∧ r.2.2.bk = Bookkeeping.reset) →
      r.2.1.drivers = [] ∧ r.2.1.moduleInfo = 0) ∧
    (¬ (gp.cov = false ∧ r.2.2.bk = Bookkeeping.reset) →
      r.2.1.drivers ≠ [] ∧ r.2.1.moduleInfo = 1) ∧
    r.2.1.support = [] := by
  obtain ⟨refs, st2, drv, h1, _, h3, hr⟩ := genobjfile_ok prog gp fuel m mo st r h
  obtain ⟨_, _, _, _, e5, _, _, e8, e9, _, _⟩ := genobjfile_exit_fields gp m st refs
    (genobjfile_cov gp m (genobjfile_init m st)) st2
    (genobjfile_bcov gp (genobjfile_cov gp m (genobjfile_init m st)).1 st2) drv
  obtain ⟨x1, x2⟩ := genobjfile_exit_doppelganger gp m st refs
    (genobjfile_cov gp m (genobjfile_init m st)) st2
    (genobjfile_bcov gp (genobjfile_cov gp m (genobjfile_init m st)).1 st2) drv hd
  have hw := drivers_written_nil_iff _ _ _ h3
  have hent := genobjfile_entered_false_iff
    (genobjfile_bcov gp (genobjfile_cov gp m (genobjfile_init m st)).1 st2).2.1
    (genobjfile_bcov gp (genobjfile_cov gp m (genobjfile_init m st)).1 st2).2.2.2.bk
  have hcov : (genobjfile_bcov gp (genobjfile_cov gp m (genobjfile_init m st)).1 st2).2.1 = none ↔
      gp.cov = false := by
    have := (genobjfile_bcov_fields gp (genobjfile_cov gp m (genobjfile_init m st)).1 st2).2.2.2.2
    rw [← this]
    cases (genobjfile_bcov gp (genobjfile_cov gp m (genobjfile_init m st)).1 st2).2.1 <;> simp
  rw [← hr] at e5 e8 e9 x1 x2
  rw [hd] at e9
  simp only [if_true] at e9
  rw [hcov, ← x1] at hent
  refine ⟨?_, ?_, ?_, x2⟩
  · rw [e5]
    exact genobjfile_reference_doppelganger m refs hd h1
  · intro hc
    have he := hent.mpr hc
    rw [x1] at he
    exact ⟨by rw [e8]; exact hw.mpr he, by rw [e9, he]; rfl⟩
  · intro hc
    have he : genobjfile_entered
        (genobjfile_bcov gp (genobjfile_cov gp m (genobjfile_init m st)).1 st2).2.1
        (genobjfile_bcov gp (genobjfile_cov gp m (genobjfile_init m st)).1 st2).2.2.2.bk = true := by
      rw [← x1]
      cases hx : genobjfile_entered
        (genobjfile_bcov gp (genobjfile_cov gp m (genobjfile_init m st)).1 st2).2.1 r.2.2.bk with
      | true => rfl
      | false => exact absurd (hent.mp hx) hc
    refine ⟨?_, by rw [e9, he]; rfl⟩
    rw [e8]
    intro hn
    have := hw.mp hn
    rw [he] at this
    cases this

theorem stepInv_sameCount : StepInv SameCount where
  refl := fun _ => rfl
  trans := fun a b c h1 h2 => by
    unfold SameCount at *
    rw [h2, h1]
  setObj := fun _ _ _ => rfl
  pushDef := fun _ _ _ _ => rfl
  oneMain := fun gp st => by
    unfold SameCount onlyOneMain error
    split <;> rfl
  extName := fun _ _ => rfl
  inclib := fun _ _ => rfl
  register := fun _ _ _ => rfl
  write := fun _ _ => rfl
  expSym := fun _ _ => rfl

theorem toObjFile_sameCount (prog : List FuncDeclaration) (gp : Param) (fuel : Nat) (mo : Bool)
    (id : Nat) (st st2 : LowerState) (h : toObjFile prog gp fuel mo id st = .ok st2) :
    st2.count = st.count :=
  inv_toObjFile stepInv_sameCount prog gp fuel mo id st st2 (fun _ _ _ _ => rfl) h

theorem membersLoop_frame (prog : List FuncDeclaration) (gp : Param) (fuel : Nat) (mo : Bool)
    (l : List Nat) (st st2 : LowerState)
    (h : membersLoop (toObjFile prog gp fuel) mo l st = .ok st2) :
    st2.count = st.count ∧ (mo = false → st2.obj_symbols_towrite = st.obj_symbols_towrite) := by
  induction l generalizing st with
  | nil =>
    simp only [membersLoop, Except.ok.injEq] at h
    subst h
    exact ⟨rfl, fun _ => rfl⟩
  | cons x rest ih =>
    rw [membersLoop] at h
    cases hx : toObjFile prog gp fuel mo x st with
    | error f => simp [hx] at h
    | ok st1 =>
      simp only [hx] at h
      obtain ⟨k1, k2⟩ := ih st1 h
      refine ⟨by rw [k1, toObjFile_sameCount prog gp fuel mo x st st1 hx], ?_⟩
      intro hmo
      subst hmo
      rw [k2 rfl, toObjFile_sameQueue prog gp fuel x st st1 hx]

theorem genobjfile_cov_count (gp : Param) (m : Module) (st : LowerState) :
    (genobjfile_cov gp m st).2.2.count = st.count := by
  unfold genobjfile_cov
  split <;> rfl

theorem genobjfile_bcov_count (gp : Param) (m : Module) (st : LowerState) :
    (genobjfile_bcov gp m st).2.2.2.count = st.count := by
  unfold genobjfile_bcov toEfilename
  cases hc : gp.cov <;> cases hs : m.sfilename <;> simp

theorem genobjfile_exit_count (gp : Param) (m : Module) (st : LowerState) (refs : List Symbol)
    (c : Module × List Symbol × LowerState) (st2 : LowerState)
    (b : Module × Option Elem × List Symbol × LowerState) (drv : Drivers) :
    (genobjfile_exit gp m st refs c st2 b drv).2.2.count = b.2.2.2.count := by
  unfold genobjfile_exit toModuleSupport
  cases hd : m.doppelganger <;> cases hm : gp.multiobj <;> simp

theorem genobjfile_frame (prog : List FuncDeclaration) (gp : Param) (fuel : Nat) (m : Module)
    (mo : Bool) (st : LowerState) (r : Module × UnitOutput × LowerState)
    (h : genobjfile prog gp fuel m mo st = .ok r) :
    r.2.2.count = st.count ∧
    (mo = false → r.2.2.obj_symbols_towrite = st.obj_symbols_towrite) := by
  obtain ⟨refs, st2, drv, _, h2, _, hr⟩ := genobjfile_ok prog gp fuel m mo st r h
  obtain ⟨k1, k2⟩ := membersLoop_frame prog gp fuel mo _ _ _ h2
  have e := genobjfile_exit_fields gp m st refs
    (genobjfile_cov gp m (genobjfile_init m st)) st2
    (genobjfile_bcov gp (genobjfile_cov gp m (genobjfile_init m st)).1 st2) drv
  have ec := genobjfile_exit_count gp m st refs
    (genobjfile_cov gp m (genobjfile_init m st)) st2
    (genobjfile_bcov gp (genobjfile_cov gp m (genobjfile_init m st)).1 st2) drv
  have c := genobjfile_cov_fields gp m (genobjfile_init m st)
  have b := genobjfile_bcov_fields gp (genobjfile_cov gp m (genobjfile_init m st)).1 st2
  rw [← hr] at e ec
  refine ⟨?_, ?_⟩
  · rw [ec, genobjfile_bcov_count, k1, genobjfile_cov_count]
    rfl
  · intro hmo
    rw [e.2.2.2.2.2.2.2.2.2.1, b.2.1, k2 hmo, c.2.2.2.2.1]
    rfl

theorem obj_write_deferred_step_spec (prog : List FuncDeclaration) (gp : Param) (fuel : Nat)
    (getModule : Nat → Option Module) (toChars : Nat → List Nat)
    (removeExt : String → String) (s : Nat) (st : LowerState) (r : Shadow × LowerState)
    (h : obj_write_deferred_step prog gp fuel getModule toChars removeExt s st = .ok r) :
    ∃ mname idstr md2,
      (∀ m, getModule s = some m → mname = m.srcfile) ∧
      (getModule s = none → st.lastmname = some mname) ∧
      r.1.sym = s ∧ r.1.count = st.count + 1 ∧ r.1.mname = mname ∧
      r.1.md = shadowModule (getModule s) mname idstr s ∧
      r.1.fname = shadowFileName gp removeExt mname (st.count + 1) (toChars s) ∧
      genobjfile prog gp fuel r.1.md false
        { st with lastmname := some mname, count := st.count + 1 } = .ok (md2, r.1.out, r.2) ∧
      r.2.count = st.count + 1 ∧
      r.2.obj_symbols_towrite = st.obj_symbols_towrite := by
  unfold obj_write_deferred_step at h
  simp only [] at h
  split at h
  · cases h
  · rename_i mname hm
    split at h
    · cases h
    · rename_i g hg
      simp only [Except.ok.injEq] at h
      subst h
      obtain ⟨f1, f2⟩ := genobjfile_frame prog gp fuel _ false _ g hg
      refine ⟨mname, _, g.1, ?_, ?_, rfl, rfl, rfl, rfl, rfl, hg, f1, f2 rfl⟩
      · intro m hgm
        rw [hgm] at hm
        simp only [Option.some.injEq] at hm
        exact hm.symm
      · intro hgm
        rw [hgm] at hm
        exact hm

theorem obj_write_deferred_loop_eq
    (step : Nat → LowerState → Except Fault (Shadow × LowerState))
    (hstep : ∀ s st r, step s st = .ok r → r.2.obj_symbols_towrite = st.obj_symbols_towrite)
    (n i : Nat) (st : LowerState) (acc : List Shadow)
    (hn : st.obj_symbols_towrite.length ≤ n + i) :
    obj_write_deferred_loop step n i st acc =
      match stepEach step (st.obj_symbols_towrite.drop i) st with
      | .error f => .error f
      | .ok r => .ok (acc ++ r.1, r.2) := by
  induction n generalizing i st acc with
  | zero =>
    rw [obj_write_deferred_loop]
    have hle : st.obj_symbols_towrite.length ≤ i := by omega
    rw [List.getElem?_eq_none_iff.mpr hle, List.drop_eq_nil_of_le hle]
    simp [stepEach]
  | succ k ih =>
    rw [obj_write_deferred_loop]
    cases hq : st.obj_symbols_towrite[i]? with
    | none =>
      rw [List.drop_eq_nil_of_le (List.getElem?_eq_none_iff.mp hq)]
      simp [stepEach]
    | some s =>
      obtain ⟨hlt, hget⟩ := List.getElem?_eq_some_iff.mp hq
      rw [List.drop_eq_getElem_cons hlt, hget, stepEach]
      simp only []
      cases hs : step s st with
      | error f => rfl
      | ok r =>
        simp only []
        have hq2 := hstep s st r hs
        rw [ih (i + 1) r.2 (push acc r.1) (by rw [hq2]; omega), hq2]
        cases stepEach step (List.drop (i + 1) st.obj_symbols_towrite) r.2 with
        | error f => rfl
        | ok r2 => simp [push]

theorem stepEach_error (step : Nat → LowerState → Except Fault (Shadow × LowerState))
    (l : List Nat) (st : LowerState) (f : Fault) (h : stepEach step l st = .error f) :
    ∃ s ∈ l, ∃ st1, step s st1 = .error f := by
  induction l generalizing st with
  | nil => simp [stepEach] at h
  | cons s rest ih =>
    rw [stepEach] at h
    cases hs : step s st with
    | error g =>
      simp only [hs, Except.error.injEq] at h
      subst h
      exact ⟨s, List.mem_cons_self _ _, st, hs⟩
    | ok r =>
      simp only [hs] at h
      cases hr : stepEach step rest r.2 with
      | error g =>
        simp only [hr, Except.error.injEq] at h
        subst h
        obtain ⟨x, hx, st1, h1⟩ := ih r.2 hr
        exact ⟨x, List.mem_cons_of_mem _ hx, st1, h1⟩
      | ok r2 => simp [hr] at h

theorem stepEach_ok (step : Nat → LowerState → Except Fault (Shadow × LowerState))
    (hsym : ∀ s st r, step s st = .ok r → r.1.sym = s ∧ r.1.count = st.count + 1 ∧
      r.2.count = st.count + 1)
    (l : List Nat) (st : LowerState) (r : List Shadow × LowerState)
    (h : stepEach step l st = .ok r) :
    r.1.map Shadow.sym = l ∧
    r.1.map Shadow.count = List.range' (st.count + 1) l.length ∧
    r.2.count = st.count + l.length ∧
    ∀ sh ∈ r.1, ∃ st1 st2, step sh.sym st1 = .ok (sh, st2) := by
  induction l generalizing st r with
  | nil =>
    simp only [stepEach, Except.ok.injEq] at h
    subst h
    simp
  | cons s rest ih =>
    rw [stepEach] at h
    cases hs : step s st with
    | error g => simp [hs] at h
    | ok r1 =>
      simp only [hs] at h
      cases hr : stepEach step rest r1.2 with
      | error g => simp [hr] at h
      | ok r2 =>
        simp only [hr, Except.ok.injEq] at h
        subst h
        obtain ⟨k1, k2, k3, k4⟩ := ih r1.2 r2 hr
        obtain ⟨a1, a2, a3⟩ := hsym s st r1 hs
        refine ⟨by simp [k1, a1], ?_, by rw [k3, a3]; simp; omega, ?_⟩
        · simp only [List.map_cons, List.length_cons, List.range'_succ, a2, k2, a3]
        · intro sh hsh
          rcases List.mem_cons.mp hsh with hsh | hsh
          · subst hsh
            exact ⟨st, r1.2, by rw [a1]; exact hs⟩
          · exact k4 sh hsh

theorem shadows_of_completed_run (prog : List FuncDeclaration) (gp : Param) (fuel : Nat)
    (getModule : Nat → Option Module) (toChars : Nat → List Nat)
    (removeExt : String → String) (n : Nat) (st : LowerState)
    (hn : st.obj_symbols_towrite.length ≤ n) :
    (∀ md st1 r, genobjfile prog gp fuel md false st1 = .ok r →
      r.2.2.obj_symbols_towrite = st1.obj_symbols_towrite) ∧
    (∀ f, obj_write_deferred prog gp fuel getModule toChars removeExt n st = .error f →
      ∃ s ∈ st.obj_symbols_towrite, ∃ st1,
        obj_write_deferred_step prog gp fuel getModule toChars removeExt s st1 = .error f) ∧
    (∀ r, obj_write_deferred prog gp fuel getModule toChars removeExt n st = .ok r →
      r.1.map Shadow.sym = st.obj_symbols_towrite ∧
      r.1.length = st.obj_symbols_towrite.length ∧
      r.1.map Shadow.count = List.range' (st.count + 1) st.obj_symbols_towrite.length ∧
      (∀ sh ∈ r.1, sh.md.members = [sh.sym] ∧
        (∀ m, getModule sh.sym = some m →
          sh.md.doppelganger = true ∧ sh.md.aimports = [m.toImport] ∧
          sh.md.massert = m.massert ∧ sh.md.munittest = m.munittest ∧
          sh.md.marray = m.marray) ∧
        (getModule sh.sym = none → sh.md.doppelganger = false ∧ sh.md.aimports = []) ∧
        ∃ md2 st1 st2, genobjfile prog gp fuel sh.md false st1 = .ok (md2, sh.out, st2)) ∧
      r.2.obj_symbols_towrite = []) := by
  have hstep : ∀ s st r,
      obj_write_deferred_step prog gp fuel getModule toChars removeExt s st = .ok r →
      r.2.obj_symbols_towrite = st.obj_symbols_towrite := by
    intro s st r h
    obtain ⟨_, _, _, _, _, _, _, _, _, _, _, _, hq⟩ :=
      obj_write_deferred_step_spec prog gp fuel getModule toChars removeExt s st r h
    exact hq
  have hsym : ∀ s st r,
      obj_write_deferred_step prog gp fuel getModule toChars removeExt s st = .ok r →
      r.1.sym = s ∧ r.1.count = st.count + 1 ∧ r.2.count = st.count + 1 := by
    intro s st r h
    obtain ⟨_, _, _, _, _, h1, h2, _, _, _, _, h3, _⟩ :=
      obj_write_deferred_step_spec prog gp fuel getModule toChars removeExt s st r h
    exact ⟨h1, h2, h3⟩
  have hloop := obj_write_deferred_loop_eq
    (obj_write_deferred_step prog gp fuel getModule toChars removeExt) hstep n 0 st []
    (by omega)
  rw [List.drop_zero] at hloop
  refine ⟨fun md st1 r h => (genobjfile_frame prog gp fuel md false st1 r h).2 rfl, ?_, ?_⟩
  · intro f h
    unfold obj_write_deferred at h
    rw [hloop] at h
    cases he : stepEach (obj_write_deferred_step prog gp fuel getModule toChars removeExt)
        st.obj_symbols_towrite st with
    | error g =>
      simp only [he, Except.error.injEq] at h
      subst h
      exact stepEach_error _ _ _ _ he
    | ok r2 => simp [he] at h
  · intro r h
    unfold obj_write_deferred at h
    rw [hloop] at h
    cases he : stepEach (obj_write_deferred_step prog gp fuel getModule toChars removeExt)
        st.obj_symbols_towrite st with
    | error g => simp [he] at h
    | ok r2 =>
      simp only [he, Except.ok.injEq, List.nil_append] at h
      subst h
      obtain ⟨k1, k2, _, k4⟩ := stepEach_ok _ hsym _ _ _ he
      refine ⟨k1, ?_, k2, ?_, rfl⟩
      · rw [← k1, List.length_map]
      · intro sh hsh
        obtain ⟨st1, st2, hs⟩ := k4 sh hsh
        obtain ⟨mname, idstr, md2, _, _, _, _, _, hmd, _, hg, _, _⟩ :=
          obj_write_deferred_step_spec prog gp fuel getModule toChars removeExt _ _ _ hs
        simp only [] at hmd hg
        refine ⟨?_, ?_, ?_, md2, _, st2, hg⟩
        · rw [hmd]
          unfold shadowModule
          cases getModule sh.sym <;> rfl
        · intro m hm
          rw [hmd, hm]
          exact ⟨rfl, rfl, rfl, rfl, rfl⟩
        · intro hm
          rw [hmd, hm]
          exact ⟨rfl, rfl⟩

theorem digitChar_hex (k : Nat) (hk : k < 16) :
    isLowerHexDigit (Nat.digitChar k) = true ∧ hexDigitValue (Nat.digitChar k) = k ∧
    (Nat.digitChar k = '0' → k = 0) := by
  interval_cases k <;> exact ⟨by decide, by decide, by decide⟩

theorem hexRead_append_singleton (p : List Char) (d : Char) :
    hexRead (p ++ [d]) = 16 * hexRead p + hexDigitValue d := by
  simp [hexRead, List.foldl_append]

theorem toDigitsCore_hex (fuel n : Nat) (ds : List Char) (h : n < fuel) :
    ∃ pre, Nat.toDigitsCore 16 fuel n ds = pre ++ ds ∧ pre ≠ [] ∧
      (∀ c ∈ pre, isLowerHexDigit c = true) ∧ hexRead pre = n ∧
      (pre.head? = some '0' → pre = ['0']) ∧ (n = 0 → pre = ['0']) := by
  induction fuel generalizing n ds with
  | zero => omega
  | succ f ih =>
    obtain ⟨a1, a2, a3⟩ := digitChar_hex (n % 16) (Nat.mod_lt _ (by decide))
    rw [Nat.toDigitsCore]
    by_cases h0 : n / 16 = 0
    · rw [if_pos h0]
      have hn : n % 16 = n := Nat.mod_eq_of_lt (by omega)
      refine ⟨[Nat.digitChar (n % 16)], rfl, by simp, ?_, ?_, ?_, ?_⟩
      · intro c hc
        rw [List.mem_singleton.mp hc]
        exact a1
      · show 16 * 0 + hexDigitValue (Nat.digitChar (n % 16)) = n
        rw [a2]
        omega
      · intro hh
        simp only [List.head?_cons, Option.some.injEq] at hh
        rw [hh]
      · intro hz
        rw [hz]
        rfl
    · rw [if_neg h0]
      obtain ⟨pre, p1, p2, p3, p4, p5, _⟩ := ih (n / 16) (Nat.digitChar (n % 16) :: ds) (by omega)
      refine ⟨pre ++ [Nat.digitChar (n % 16)], by rw [p1]; simp, by simp, ?_, ?_, ?_, ?_⟩
      · intro c hc
        rcases List.mem_append.mp hc with hc | hc
        · exact p3 c hc
        · rw [List.mem_singleton.mp hc]
          exact a1
      · rw [hexRead_append_singleton, p4, a2]
        omega
      · intro hh
        have hp : pre.head? = some '0' := by
          cases pre with
          | nil => exact absurd rfl p2
          | cons x xs => simpa using hh
        have := p5 hp
        rw [this] at p4
        simp only [hexRead, List.foldl_cons, List.foldl_nil] at p4
        exact absurd p4.symm (by
          have : hexDigitValue '0' = 0 := by decide
          omega)
      · intro hz
        omega

theorem toDigits_hex (n : Nat) :
    Nat.toDigits 16 n ≠ [] ∧ (∀ c ∈ Nat.toDigits 16 n, isLowerHexDigit c = true) ∧
    hexRead (Nat.toDigits 16 n) = n ∧
    ((Nat.toDigits 16 n).head? = some '0' → Nat.toDigits 16 n = ['0']) := by
  obtain ⟨pre, p1, p2, p3, p4, p5, _⟩ := toDigitsCore_hex (n + 1) n [] (by omega)
  rw [List.append_nil] at p1
  unfold Nat.toDigits
  rw [p1]
  exact ⟨p2, p3, p4, p5⟩

theorem nameHash_eq (gp : Param) (name : List Nat) (h : Nat) :
    nameHash gp name (h % 2 ^ 32) = (h + nameSum gp name) % 2 ^ 32 := by
  induction name generalizing h with
  | nil => simp [nameHash, nameSum]
  | cons b p ih =>
    rw [nameHash]
    by_cases hb : b % 256 = 0
    · rw [if_pos hb]
      simp [nameSum, List.takeWhile, hb]
    · rw [if_neg hb, ih]
      have hb2 : (b % 256 != 0) = true := by simp [hb]
      have : nameSum gp (b :: p) = charValue gp b + nameSum gp p := by
        simp [nameSum, List.takeWhile, hb2]
      rw [this]
      omega

theorem printf_shadow_name (a e : String) (c h : Nat) :
    OutBuffer.printf "%s_%x_%x.%s" [.str a, .uns c, .uns h, .str e] =
      a ++ "_" ++ String.mk (Nat.toDigits 16 c) ++ "_" ++ String.mk (Nat.toDigits 16 h) ++
        "." ++ e := by
  apply String.ext
  simp [OutBuffer.printf, printfLoop]

/-- C15: for every object file that a completed `obj_write_deferred` writes (the
queue holding no more entries than the loop bound), the file name is exactly
`base ++ "_" ++ counter ++ "_" ++ hash ++ "." ++ ext`, where `base` is
`FileName::removeExt` of the source file name (that of the owning module when
there is one), `ext` is `global.obj_ext`, and `counter` and `hash` are the `%x`
renderings of the sequence counter and of the checksum of the symbol's display
name: non-empty strings of lowercase hexadecimal digits, without a leading
zero unless the string is `0`, that read back as the counter and as the sum of
the character values of the name, both modulo `2 ^ 32`.  The sequence counters
of the files are consecutive, starting after the counter on entry. -/
theorem C15_shadow_file_name (prog : List FuncDeclaration) (gp : Param) (fuel : Nat)
    (getModule : Nat → Option Module) (toChars : Nat → List Nat)
    (removeExt : String → String) (n : Nat) (st : LowerState) (r : List Shadow × LowerState)
    (hn : st.obj_symbols_towrite.length ≤ n)
    (h : obj_write_deferred prog gp fuel getModule toChars removeExt n st = .ok r) :
    r.1.map Shadow.count = List.range' (st.count + 1) st.obj_symbols_towrite.length ∧
    ∀ sh ∈ r.1, ∃ counter hash : List Char,
      sh.fname = removeExt sh.mname ++ "_" ++ String.mk counter ++ "_" ++ String.mk hash ++
        "." ++ gp.obj_ext ∧
      (∀ m, getModule sh.sym = some m → sh.mname = m.srcfile) ∧
      counter ≠ [] ∧ (∀ c ∈ counter, isLowerHexDigit c = true) ∧
      hexRead counter = sh.count % 2 ^ 32 ∧ (counter.head? = some '0' → counter = ['0']) ∧
      hash ≠ [] ∧ (∀ c ∈ hash, isLowerHexDigit c = true) ∧
      hexRead hash = nameSum gp (toChars sh.sym) % 2 ^ 32 ∧
      (hash.head? = some '0' → hash = ['0']) := by
  have hstep : ∀ s st r,
      obj_write_deferred_step prog gp fuel getModule toChars removeExt s st = .ok r →
      r.2.obj_symbols_towrite = st.obj_symbols_towrite := by
    intro s st r h
    obtain ⟨_, _, _, _, _, _, _, _, _, _, _, _, hq⟩ :=
      obj_write_deferred_step_spec prog gp fuel getModule toChars removeExt s st r h
    exact hq
  have hsym : ∀ s st r,
      obj_write_deferred_step prog gp fuel getModule toChars removeExt s st = .ok r →
      r.1.sym = s ∧ r.1.count = st.count + 1 ∧ r.2.count = st.count + 1 := by
    intro s st r h
    obtain ⟨_, _, _, _, _, h1, h2, _, _, _, _, h3, _⟩ :=
      obj_write_deferred_step_spec prog gp fuel getModule toChars removeExt s st r h
    exact ⟨h1, h2, h3⟩
  have hloop := obj_write_deferred_loop_eq
    (obj_write_deferred_step prog gp fuel getModule toChars removeExt) hstep n 0 st []
    (by omega)
  rw [List.drop_zero] at hloop
  unfold obj_write_deferred at h
  rw [hloop] at h
  cases he : stepEach (obj_write_deferred_step prog gp fuel getModule toChars removeExt)
      st.obj_symbols_towrite st with
  | error g => simp [he] at h
  | ok r2 =>
    simp only [he, Except.ok.injEq, List.nil_append] at h
    subst h
    obtain ⟨_, k2, _, k4⟩ := stepEach_ok _ hsym _ _ _ he
    refine ⟨k2, ?_⟩
    intro sh hsh
    obtain ⟨st1, st2, hs⟩ := k4 sh hsh
    obtain ⟨mname, idstr, md2, hm, _, _, hc, hmn, _, hf, _, _, _⟩ :=
      obj_write_deferred_step_spec prog gp fuel getModule toChars removeExt _ _ _ hs
    simp only [] at hc hmn hf hm
    obtain ⟨c1, c2, c3, c4⟩ := toDigits_hex (sh.count % 2 ^ 32)
    obtain ⟨x1, x2, x3, x4⟩ := toDigits_hex (nameHash gp (toChars sh.sym) 0)
    have hh := nameHash_eq gp (toChars sh.sym) 0
    simp only [Nat.zero_mod, Nat.zero_add] at hh
    refine ⟨Nat.toDigits 16 (sh.count % 2 ^ 32),
      Nat.toDigits 16 (nameHash gp (toChars sh.sym) 0), ?_, ?_, c1, c2, c3, c4, x1, x2, ?_, x4⟩
    · rw [hf, shadowFileName, printf_shadow_name, hmn, hc]
    · intro m hgm
      rw [hmn]
      exact hm m hgm
    · rw [x3, hh]

/-- Witness for C15: the two object files written for `exQueued` are named
`a_1_144.o` (display name `foo`, checksum 0x144) and `a_2_135.o` (display name
`bar`, checksum 0x135). -/
theorem C15_shadow_file_name_witness :
    observeShadows (obj_write_deferred progTwo {} 2 exGetModule exToChars exRemoveExt 2
      exQueued) =
      .ok ([(1, 1, "a_1_144.o", [1], true, [11]), (2, 2, "a_2_135.o", [2], true, [12])], []) ∧
    ∃ r, obj_write_deferred progTwo {} 2 exGetModule exToChars exRemoveExt 2 exQueued = .ok r ∧
      r.1.map Shadow.count =
        List.range' (exQueued.count + 1) exQueued.obj_symbols_towrite.length ∧
      ∀ sh ∈ r.1, ∃ counter hash : List Char,
        sh.fname = exRemoveExt sh.mname ++ "_" ++ String.mk counter ++ "_" ++
          String.mk hash ++ "." ++ ({} : Param).obj_ext ∧
        (∀ m, exGetModule sh.sym = some m → sh.mname = m.srcfile) ∧
        counter ≠ [] ∧ (∀ c ∈ counter, isLowerHexDigit c = true) ∧
        hexRead counter = sh.count % 2 ^ 32 ∧ (counter.head? = some '0' → counter = ['0']) ∧
        hash ≠ [] ∧ (∀ c ∈ hash, isLowerHexDigit c = true) ∧
        hexRead hash = nameSum {} (exToChars sh.sym) % 2 ^ 32 ∧
        (hash.head? = some '0' → hash = ['0']) := by
  refine ⟨rfl, ?_⟩
  cases hr : obj_write_deferred progTwo {} 2 exGetModule exToChars exRemoveExt 2 exQueued with
  | error f =>
    have : (observeShadows (obj_write_deferred progTwo {} 2 exGetModule exToChars exRemoveExt 2
      exQueued)).isOk = true := rfl
    rw [hr] at this
    cases this
  | ok r =>
    exact ⟨r, rfl, C15_shadow_file_name progTwo {} 2 exGetModule exToChars exRemoveExt 2
      exQueued r (by decide) hr⟩

theorem body_skipped (self : ToObjFile) (prog : List FuncDeclaration) (gp : Param)
    (fuel : Nat) (mo : Bool) (fd : FuncDeclaration) (st : LowerState)
    (hs : skipped gp fd st = true) :
    toObjFile_body self prog gp fuel mo fd st = .ok st := by
  unfold toObjFile_body
  unfold skipped at hs
  simp only [Bool.or_eq_true] at hs
  by_cases c1 : (st.semanticRun fd.ident).geObj = true
  · rw [if_pos c1]
  · rw [if_neg c1]
    by_cases c2 : fd.retError = true
    · rw [if_pos c2]
    · rw [if_neg c2]
      by_cases c3 : (!fd.fbody) = true
      · rw [if_pos c3]
      · rw [if_neg c3]
        by_cases c4 : (fd.isUnitTestDeclaration && !gp.useUnitTests) = true
        · rw [if_pos c4]
        · exact absurd hs (by tauto)

theorem body_not_skipped (self : ToObjFile) (prog : List FuncDeclaration) (gp : Param)
    (fuel : Nat) (mo : Bool) (fd : FuncDeclaration) (st : LowerState)
    (hs : skipped gp fd st = false) :
    toObjFile_body self prog gp fuel mo fd st =
      if mo && !fd.isStaticDtorDeclaration && !fd.isStaticCtorDeclaration then
        .ok (obj_append fd.ident st)
      else if st.semanticRun fd.ident != .PASSsemantic3done then .error .assertFailed
      else
        match (if fd.isNested then toObjFile_enclosing self prog mo fd
            (st.setSemanticRun fd.ident .PASSobj)
          else .ok (toObjFile_startup gp fd (st.setSemanticRun fd.ident .PASSobj))) with
        | .error f => .error f
        | .ok st3 => toObjFile_emit self prog gp fuel fd st3 := by
  unfold toObjFile_body
  unfold skipped at hs
  simp only [Bool.or_eq_false_iff] at hs
  obtain ⟨⟨⟨c1, c2⟩, c3⟩, c4⟩ := hs
  rw [if_neg (by simp [c1]), if_neg (by simp [c2]), if_neg (by simp [c3]),
    if_neg (by simp [c4])]

theorem body_cases (self : ToObjFile) (prog : List FuncDeclaration) (gp : Param)
    (fuel : Nat) (mo : Bool) (fd : FuncDeclaration) (st st2 : LowerState)
    (h : toObjFile_body self prog gp fuel mo fd st = .ok st2) :
    (skipped gp fd st = true ∧ st2 = st) ∨
    (skipped gp fd st = false ∧
      (mo && !fd.isStaticDtorDeclaration && !fd.isStaticCtorDeclaration) = true ∧
      st2 = obj_append fd.ident st) ∨
    (skipped gp fd st = false ∧
      (mo && !fd.isStaticDtorDeclaration && !fd.isStaticCtorDeclaration) = false ∧
      st.semanticRun fd.ident = .PASSsemantic3done ∧
      ∃ st1, (if fd.isNested then toObjFile_enclosing self prog mo fd
            (st.setSemanticRun fd.ident .PASSobj)
          else .ok (toObjFile_startup gp fd (st.setSemanticRun fd.ident .PASSobj))) = .ok st1 ∧
        toObjFile_emit self prog gp fuel fd st1 = .ok st2) := by
  cases hs : skipped gp fd st with
  | true =>
    rw [body_skipped self prog gp fuel mo fd st hs] at h
    simp only [Except.ok.injEq] at h
    exact Or.inl ⟨rfl, h.symm⟩
  | false =>
    rw [body_not_skipped self prog gp fuel mo fd st hs] at h
    right
    by_cases cq : (mo && !fd.isStaticDtorDeclaration && !fd.isStaticCtorDeclaration) = true
    · rw [if_pos cq] at h
      simp only [Except.ok.injEq] at h
      exact Or.inl ⟨rfl, cq, h.symm⟩
    · rw [if_neg cq] at h
      right
      by_cases cr : (st.semanticRun fd.ident != .PASSsemantic3done) = true
      · rw [if_pos cr] at h
        cases h
      · rw [if_neg cr] at h
        refine ⟨rfl, by simpa using cq, by simpa using cr, ?_⟩
        split at h
        · cases h
        · rename_i st3 h3
          exact ⟨st3, h3, h⟩

theorem genobjfile_cov_core (gp : Param) (m : Module) (st : LowerState) :
    SameCore st (genobjfile_cov gp m st).2.2 := by
  unfold genobjfile_cov
  split <;> exact ⟨rfl, rfl, rfl, rfl, rfl⟩

theorem genobjfile_bcov_core (gp : Param) (m : Module) (st : LowerState) :
    SameCore st (genobjfile_bcov gp m st).2.2.2 := by
  unfold genobjfile_bcov toEfilename
  cases hc : gp.cov <;> cases hs : m.sfilename <;> exact ⟨rfl, rfl, rfl, rfl, rfl⟩

theorem genobjfile_exit_core (gp : Param) (m : Module) (st : LowerState) (refs : List Symbol)
    (c : Module × List Symbol × LowerState) (st2 : LowerState)
    (b : Module × Option Elem × List Symbol × LowerState) (drv : Drivers) :
    SameCore b.2.2.2 (genobjfile_exit gp m st refs c st2 b drv).2.2 ∧
    (genobjfile_exit gp m st refs c st2 b drv).2.2.bk = b.2.2.2.bk := by
  unfold genobjfile_exit toModuleSupport
  cases hd : m.doppelganger <;> cases hm : gp.multiobj <;>
    exact ⟨⟨rfl, rfl, rfl, rfl, rfl⟩, rfl⟩

theorem genobjfile_ok_core (prog : List FuncDeclaration) (gp : Param) (fuel : Nat) (m : Module)
    (mo : Bool) (st : LowerState) (r : Module × UnitOutput × LowerState)
    (h : genobjfile prog gp fuel m mo st = .ok r) :
    ∃ st1 st2 e drv,
      SameCore st st1 ∧ st1.bk = Bookkeeping.reset ∧
      st1.obj_symbols_towrite = st.obj_symbols_towrite ∧
      membersLoop (toObjFile prog gp fuel) mo m.members st1 = .ok st2 ∧
      SameCore st2 r.2.2 ∧ r.2.2.obj_symbols_towrite = st2.obj_symbols_towrite ∧
      r.2.2.bk = st2.bk ∧
      r.2.1.funcs = st2.written.drop st.written.length ∧
      e.isSome = gp.cov ∧
      genobjfile_drivers e st2.bk = .ok drv ∧ r.2.1.drivers = drv.written := by
  obtain ⟨refs, st2, drv, _, h2, h3, hr⟩ := genobjfile_ok prog gp fuel m mo st r h
  have c := genobjfile_cov_fields gp m (genobjfile_init m st)
  have cc := genobjfile_cov_core gp m (genobjfile_init m st)
  have b := genobjfile_bcov_fields gp (genobjfile_cov gp m (genobjfile_init m st)).1 st2
  have bc := genobjfile_bcov_core gp (genobjfile_cov gp m (genobjfile_init m st)).1 st2
  have e := genobjfile_exit_fields gp m st refs
    (genobjfile_cov gp m (genobjfile_init m st)) st2
    (genobjfile_bcov gp (genobjfile_cov gp m (genobjfile_init m st)).1 st2) drv
  have ec := genobjfile_exit_core gp m st refs
    (genobjfile_cov gp m (genobjfile_init m st)) st2
    (genobjfile_bcov gp (genobjfile_cov gp m (genobjfile_init m st)).1 st2) drv
  rw [← hr] at e ec
  rw [c.1] at h2
  rw [b.2.2.2.1] at h3
  refine ⟨_, st2, _, drv, ?_, ?_, ?_, h2, ?_, ?_, ?_, e.2.2.2.2.2.2.1, b.2.2.2.2, h3,
    e.2.2.2.2.2.2.2.1⟩
  · obtain ⟨c1, c2, c3, c4, c5⟩ := cc
    exact ⟨c1, c2, c3, c4, c5⟩
  · rw [c.2.2.2.2.2.2]
    rfl
  · rw [c.2.2.2.2.1]
    rfl
  · obtain ⟨x1, x2, x3, x4, x5⟩ := ec.1
    obtain ⟨y1, y2, y3, y4, y5⟩ := bc
    exact ⟨x1.trans y1, x2.trans y2, x3.trans y3, x4.trans y4, x5.trans y5⟩
  · rw [e.2.2.2.2.2.2.2.2.2.1, b.2.1]
  · rw [ec.2, b.2.2.2.1]

/-- C24: `willInline` returns the value of `-inlining` whenever the option is
given; when it is not given it returns true exactly for the levels `-O2`,
`-O3`/`-O`, `-O4`, `-O5`, `-Os` and `-Oz` among the declared ones, and false for
`-O0` and `-O1`.  `willCrossModuleInline` is true exactly when cross-module
inlining is explicitly enabled and `willInline` is true. -/
theorem C24_willInline_option_or_level (o : Options) :
    (o.enableInlining = .BOU_TRUE → willInline o = true) ∧
    (o.enableInlining = .BOU_FALSE → willInline o = false) ∧
    (o.enableInlining = .BOU_UNSET → o.optimizeLevel ∈ declaredLevels →
      (willInline o = true ↔ o.optimizeLevel ∈ ([2, 3, 4, 5, -1, -2] : List Int))) ∧
    (o.enableInlining = .BOU_UNSET → (o.optimizeLevel = 0 ∨ o.optimizeLevel = 1) →
      willInline o = false) ∧
    (willCrossModuleInline o = true ↔
      (o.enableCrossModuleInlining = .BOU_TRUE ∧ willInline o = true)) := by
  refine ⟨?_, ?_, ?_, ?_, ?_⟩
  · intro h
    simp [willInline, h]
  · intro h
    simp [willInline, h]
  · intro h hl
    simp only [declaredLevels, List.mem_cons, List.mem_singleton, List.not_mem_nil,
      or_false] at hl
    rcases hl with hl | hl | hl | hl | hl | hl | hl | hl | hl <;>
      simp [willInline, optLevel, h, hl]
  · intro h hl
    rcases hl with hl | hl <;> simp [willInline, optLevel, h, hl]
  · simp [willCrossModuleInline]

/-- Witness for C24 at `-Os` with `-inlining` not given, and at `-O1`. -/
theorem C24_willInline_option_or_level_witness :
    willInline { optimizeLevel := -1 } = true ∧ willInline { optimizeLevel := 1 } = false ∧
    willInline { optimizeLevel := 0, enableInlining := .BOU_TRUE } = true ∧
    willInline { optimizeLevel := 3, enableInlining := .BOU_FALSE } = false ∧
    (willInline { optimizeLevel := -1 } = true ↔
      (-1 : Int) ∈ ([2, 3, 4, 5, -1, -2] : List Int)) :=
  ⟨by decide, by decide, by decide, by decide,
    (C24_willInline_option_or_level { optimizeLevel := -1 }).2.2.1 rfl (by decide)⟩

/-- C25: with all other options equal, the levels 3 (`-O`, `-O3`), 4 (`-O4`) and
5 (`-O5`) give the same `codeGenOptLevel`, `getOptimizationLevel`, `willInline`,
`isOptimizationEnabled` and `getPipelineTuningOptions(optLevel(), sizeLevel())`;
and `getOptimizationLevel` has a value, not reaching its unreachable branch, for
every declared level. -/
theorem C25_O4_O5_equivalent_to_O3 (o : Options) (pto : PipelineTuningOptions) :
    (∀ l ∈ ([3, 4, 5] : List Int),
      codeGenOptLevel { o with optimizeLevel := l } =
        codeGenOptLevel { o with optimizeLevel := 3 } ∧
      getOptimizationLevel { o with optimizeLevel := l } = some .O3 ∧
      willInline { o with optimizeLevel := l } = willInline { o with optimizeLevel := 3 } ∧
      isOptimizationEnabled { o with optimizeLevel := l } = true ∧
      getPipelineTuningOptions { o with optimizeLevel := l } pto
          (optLevel { o with optimizeLevel := l }) (sizeLevel { o with optimizeLevel := l }) =
        getPipelineTuningOptions { o with optimizeLevel := 3 } pto
          (optLevel { o with optimizeLevel := 3 }) (sizeLevel { o with optimizeLevel := 3 })) ∧
    (∀ l ∈ declaredLevels, (getOptimizationLevel { o with optimizeLevel := l }).isSome = true) := by
  refine ⟨?_, ?_⟩
  · intro l hl
    simp only [List.mem_cons, List.mem_singleton, List.not_mem_nil, or_false] at hl
    rcases hl with hl | hl | hl <;> subst hl <;>
      simp [codeGenOptLevel, getOptimizationLevel, willInline, isOptimizationEnabled,
        getPipelineTuningOptions, optLevel, sizeLevel]
  · intro l hl
    simp only [declaredLevels, List.mem_cons, List.mem_singleton, List.not_mem_nil,
      or_false] at hl
    rcases hl with hl | hl | hl | hl | hl | hl | hl | hl | hl <;> subst hl <;>
      simp [getOptimizationLevel]

/-- C28 as stated fails in its last part: at `-Os` the three callbacks receive
the level `Os` and add no pass, while at `-O2` they add
`SimplifyDRuntimeCallsPass`, `GarbageCollect2StackPass`, `StripExternalsPass`
and `GlobalDCEPass`. -/
theorem C28_counterexample_size_level_callbacks_add_nothing :
    getOptimizationLevel exOs = some .Os ∧ getOptimizationLevel exO2 = some .O2 ∧
    addSimplifyDRuntimeCallsPass exOs .Os = [] ∧
    addSimplifyDRuntimeCallsPass exO2 .O2 = [.SimplifyDRuntimeCallsPass] ∧
    addGarbageCollect2StackPass exOs .Os = [] ∧
    addGarbageCollect2StackPass exO2 .O2 = [.GarbageCollect2StackPass] ∧
    addStripExternalsPass exOs .Os = [] ∧
    addStripExternalsPass exO2 .O2 = [.StripExternalsPass, .GlobalDCEPass] ∧
    scheduledPasses exOs = some [] ∧
    scheduledPasses exO2 = some [.SimplifyDRuntimeCallsPass, .GarbageCollect2StackPass,
      .StripExternalsPass, .GlobalDCEPass] := by
  decide

/-- C28 (amended): for the size levels `-Os` (-1) and `-Oz` (-2), `optLevel()`
is 2 and `sizeLevel()` is 1 and 2, and the level handed to the callbacks is
`Os` and `Oz`.  The three callbacks compare that level with `O1`, `O2` and `O3`
only, so at the size levels each of them adds no pass, whatever the other
options are, while at `-O2` each of them adds its pass. -/
theorem C28_size_levels_add_no_d_passes (o : Options) :
    (∀ l ∈ ([-1, -2] : List Int),
      optLevel { o with optimizeLevel := l } = 2 ∧
      sizeLevel { o with optimizeLevel := l } = (-l).toNat ∧
      ∃ level, getOptimizationLevel { o with optimizeLevel := l } = some level ∧
        level ≠ .O2 ∧
        addSimplifyDRuntimeCallsPass { o with optimizeLevel := l } level = [] ∧
        addGarbageCollect2StackPass { o with optimizeLevel := l } level = [] ∧
        addStripExternalsPass { o with optimizeLevel := l } level = [] ∧
        scheduledPasses { o with optimizeLevel := l } = some []) ∧
    getOptimizationLevel { o with optimizeLevel := 2 } = some .O2 ∧
    addSimplifyDRuntimeCallsPass { o with optimizeLevel := 2 } .O2 ≠ [] ∧
    addGarbageCollect2StackPass { o with optimizeLevel := 2 } .O2 ≠ [] ∧
    addStripExternalsPass { o with optimizeLevel := 2 } .O2 ≠ [] ∧
    scheduledPasses exOs = some [] ∧
    scheduledPasses exO2 = some [.SimplifyDRuntimeCallsPass, .GarbageCollect2StackPass,
      .StripExternalsPass, .GlobalDCEPass] := by
  refine ⟨?_, by simp [getOptimizationLevel], by simp [addSimplifyDRuntimeCallsPass],
    by simp [addGarbageCollect2StackPass], by simp [addStripExternalsPass], by decide,
    by decide⟩
  intro l hl
  simp only [List.mem_cons, List.mem_singleton, List.not_mem_nil, or_false] at hl
  rcases hl with hl | hl <;> subst hl
  · refine ⟨by simp [optLevel], by simp [sizeLevel], .Os, by simp [getOptimizationLevel],
      by decide, by simp [addSimplifyDRuntimeCallsPass], by simp [addGarbageCollect2StackPass],
      by simp [addStripExternalsPass], ?_⟩
    simp only [scheduledPasses, getOptimizationLevel, registeredCallbacks]
    cases o.disableLangSpecificPasses <;> cases o.disableSimplifyDruntimeCalls <;>
      cases o.disableGCToStack <;>
      simp [addSimplifyDRuntimeCallsPass, addGarbageCollect2StackPass, addStripExternalsPass]
  · refine ⟨by simp [optLevel], by simp [sizeLevel], .Oz, by simp [getOptimizationLevel],
      by decide, by simp [addSimplifyDRuntimeCallsPass], by simp [addGarbageCollect2StackPass],
      by simp [addStripExternalsPass], ?_⟩
    simp only [scheduledPasses, getOptimizationLevel, registeredCallbacks]
    cases o.disableLangSpecificPasses <;> cases o.disableSimplifyDruntimeCalls <;>
      cases o.disableGCToStack <;>
      simp [addSimplifyDRuntimeCallsPass, addGarbageCollect2StackPass, addStripExternalsPass]

theorem putBool_append_inj (a b : Bool) (l1 l2 : List Nat)
    (h : putBool a ++ l1 = putBool b ++ l2) : a = b ∧ l1 = l2 := by
  cases a <;> cases b <;> simp [putBool] at h <;> simp [h]

theorem putSignedChar_append_inj (a b : Int) (l1 l2 : List Nat)
    (ha : -128 ≤ a ∧ a ≤ 127) (hb : -128 ≤ b ∧ b ≤ 127)
    (h : putSignedChar a ++ l1 = putSignedChar b ++ l2) : a = b ∧ l1 = l2 := by
  simp only [putSignedChar, List.singleton_append, List.cons.injEq] at h
  refine ⟨?_, h.2⟩
  have h1 := h.1
  have e : a % 256 = b % 256 := by
    have e1 : ((a % 256).toNat : Int) = ((b % 256).toNat : Int) := by rw [h1]
    rw [Int.toNat_of_nonneg (Int.emod_nonneg _ (by decide)),
      Int.toNat_of_nonneg (Int.emod_nonneg _ (by decide))] at e1
    exact e1
  omega

theorem outputOptimizationSettings_inj (a b : Options)
    (ha : -128 ≤ a.optimizeLevel ∧ a.optimizeLevel ≤ 127)
    (hb : -128 ≤ b.optimizeLevel ∧ b.optimizeLevel ≤ 127)
    (h : outputOptimizationSettings a = outputOptimizationSettings b) :
    a.optimizeLevel = b.optimizeLevel ∧ willInline a = willInline b ∧
    a.disableLangSpecificPasses = b.disableLangSpecificPasses ∧
    a.disableSimplifyDruntimeCalls = b.disableSimplifyDruntimeCalls ∧
    a.disableSimplifyLibCalls = b.disableSimplifyLibCalls ∧
    a.disableGCToStack = b.disableGCToStack ∧ a.stripDebug = b.stripDebug ∧
    a.disableLoopUnrolling = b.disableLoopUnrolling ∧
    a.disableLoopVectorization = b.disableLoopVectorization ∧
    a.disableSLPVectorization = b.disableSLPVectorization := by
  unfold outputOptimizationSettings at h
  simp only [List.append_assoc] at h
  obtain ⟨h0, h⟩ := putSignedChar_append_inj _ _ _ _ ha hb h
  obtain ⟨h1, h⟩ := putBool_append_inj _ _ _ _ h
  obtain ⟨h2, h⟩ := putBool_append_inj _ _ _ _ h
  obtain ⟨h3, h⟩ := putBool_append_inj _ _ _ _ h
  obtain ⟨h4, h⟩ := putBool_append_inj _ _ _ _ h
  obtain ⟨h5, h⟩ := putBool_append_inj _ _ _ _ h
  obtain ⟨h6, h⟩ := putBool_append_inj _ _ _ _ h
  obtain ⟨h7, h⟩ := putBool_append_inj _ _ _ _ h
  obtain ⟨h8, h⟩ := putBool_append_inj _ _ _ _ h
  have h9 : a.disableSLPVectorization = b.disableSLPVectorization := by
    have := putBool_append_inj a.disableSLPVectorization b.disableSLPVectorization [] []
      (by simpa using h)
    exact this.1
  exact ⟨h0, h1, h2, h3, h4, h5, h6, h7, h8, h9⟩

theorem scheduled_congr (p : Pass → Bool) (hp : p .VerifierPass = false) (a b : Options)
    (h0 : a.optimizeLevel = b.optimizeLevel)
    (h1 : a.disableLangSpecificPasses = b.disableLangSpecificPasses)
    (h2 : a.disableSimplifyDruntimeCalls = b.disableSimplifyDruntimeCalls)
    (h3 : a.disableGCToStack = b.disableGCToStack) :
    (scheduledPasses a).map (List.filter p) = (scheduledPasses b).map (List.filter p) := by
  have hl : getOptimizationLevel a = getOptimizationLevel b := by
    unfold getOptimizationLevel
    rw [h0]
  unfold scheduledPasses registeredCallbacks
  rw [hl, h1, h2, h3]
  cases getOptimizationLevel b with
  | none => rfl
  | some lv =>
    simp only [Option.map_some', Option.some.injEq]
    cases b.disableLangSpecificPasses <;> cases b.disableSimplifyDruntimeCalls <;>
      cases b.disableGCToStack <;> cases hva : a.verifyEach <;> cases hvb : b.verifyEach <;>
      cases lv <;>
      simp [addSimplifyDRuntimeCallsPass, addGarbageCollect2StackPass, addStripExternalsPass,
        hva, hvb, hp, List.filter_cons]

/-- C29 as stated fails for loop unrolling: at `-O0`, giving
`-disable-loop-unrolling=false` on the command line and not giving the option
write the same bytes, since only the value of the option is written, not
whether it was given; but `getPipelineTuningOptions` enables loop unrolling in
the first case and disables it in the second. -/
theorem C29_counterexample_unrolling_occurrence_not_written :
    outputOptimizationSettings exUnrollGiven = outputOptimizationSettings {} ∧
    getPipelineTuningOptions exUnrollGiven exPTO (optLevel exUnrollGiven)
      (sizeLevel exUnrollGiven) =
        { LoopUnrolling := true, LoopVectorization := true, SLPVectorization := false } ∧
    getPipelineTuningOptions {} exPTO (optLevel {}) (sizeLevel {}) =
        { LoopUnrolling := false, LoopVectorization := true, SLPVectorization := false } := by
  decide

/-- C29 (amended): if `outputOptimizationSettings` writes the same bytes for two
option configurations (`optimizeLevel` being a `signed char` in both), then
they have the same `optimizeLevel`, hence the same `optLevel()`, `sizeLevel()`
and `getOptimizationLevel()`, the same `willInline()`, the same D-specific
passes scheduled (the same passes apart from `VerifierPass`), and
`getPipelineTuningOptions(optLevel(), sizeLevel())` agrees on loop
vectorization and SLP vectorization; it agrees on loop unrolling too when the
level is not 0 or when both configurations agree on whether
`-disable-loop-unrolling` was given (an option that was not given having its
initial value, false). -/
theorem C29_same_bytes_same_settings (a b : Options) (pto : PipelineTuningOptions)
    (ha : -128 ≤ a.optimizeLevel ∧ a.optimizeLevel ≤ 127)
    (hb : -128 ≤ b.optimizeLevel ∧ b.optimizeLevel ≤ 127)
    (hwa : a.disableLoopUnrollingOccurrences = 0 → a.disableLoopUnrolling = false)
    (hwb : b.disableLoopUnrollingOccurrences = 0 → b.disableLoopUnrolling = false)
    (h : outputOptimizationSettings a = outputOptimizationSettings b) :
    a.optimizeLevel = b.optimizeLevel ∧ optLevel a = optLevel b ∧
    sizeLevel a = sizeLevel b ∧ getOptimizationLevel a = getOptimizationLevel b ∧
    willInline a = willInline b ∧
    (scheduledPasses a).map (List.filter Pass.isDSpecific) =
      (scheduledPasses b).map (List.filter Pass.isDSpecific) ∧
    (scheduledPasses a).map (List.filter (fun p => p != Pass.VerifierPass)) =
      (scheduledPasses b).map (List.filter (fun p => p != Pass.VerifierPass)) ∧
    (getPipelineTuningOptions a pto (optLevel a) (sizeLevel a)).LoopVectorization =
      (getPipelineTuningOptions b pto (optLevel b) (sizeLevel b)).LoopVectorization ∧
    (getPipelineTuningOptions a pto (optLevel a) (sizeLevel a)).SLPVectorization =
      (getPipelineTuningOptions b pto (optLevel b) (sizeLevel b)).SLPVectorization ∧
    ((a.optimizeLevel ≠ 0 ∨
        (a.disableLoopUnrollingOccurrences > 0 ↔ b.disableLoopUnrollingOccurrences > 0)) →
      getPipelineTuningOptions a pto (optLevel a) (sizeLevel a) =
        getPipelineTuningOptions b pto (optLevel b) (sizeLevel b)) := by
  obtain ⟨h0, h1, h2, h3, _, h5, _, h7, h8, h9⟩ := outputOptimizationSettings_inj a b ha hb h
  have hol : optLevel a = optLevel b := by
    unfold optLevel
    rw [h0]
  have hsl : sizeLevel a = sizeLevel b := by
    unfold sizeLevel
    rw [h0]
  have hgl : getOptimizationLevel a = getOptimizationLevel b := by
    unfold getOptimizationLevel
    rw [h0]
  refine ⟨h0, hol, hsl, hgl, h1, scheduled_congr _ rfl a b h0 h2 h3 h5,
    scheduled_congr _ rfl a b h0 h2 h3 h5, ?_, ?_, ?_⟩
  · rw [hol, hsl]
    simp only [getPipelineTuningOptions, h8, h9]
    cases b.disableLoopVectorization <;> cases pto.LoopVectorization <;> simp
  · rw [hol, hsl]
    simp [getPipelineTuningOptions, h8, h9]
  · intro hc
    rw [hol, hsl]
    have hun : (!(if a.disableLoopUnrollingOccurrences > 0 then a.disableLoopUnrolling
          else optLevel b == 0)) =
        (!(if b.disableLoopUnrollingOccurrences > 0 then b.disableLoopUnrolling
          else optLevel b == 0)) := by
      have hz : a.optimizeLevel ≠ 0 → (optLevel b == 0) = false := by
        intro hne
        rw [← hol]
        unfold optLevel
        split
        · have : a.optimizeLevel.toNat % 2 ^ 32 ≠ 0 := by omega
          simpa using this
        · rfl
      by_cases oa : a.disableLoopUnrollingOccurrences > 0
      · by_cases ob : b.disableLoopUnrollingOccurrences > 0
        · rw [if_pos oa, if_pos ob, h7]
        · rw [if_pos oa, if_neg ob]
          rcases hc with hc | hc
          · rw [hz hc, h7, hwb (by omega)]
          · exact absurd (hc.mp oa) ob
      · by_cases ob : b.disableLoopUnrollingOccurrences > 0
        · rw [if_neg oa, if_pos ob]
          rcases hc with hc | hc
          · rw [hz hc, ← h7, hwa (by omega)]
          · exact absurd (hc.mpr ob) oa
        · rw [if_neg oa, if_neg ob]
    simp only [getPipelineTuningOptions, h8, h9, hun]

/-- Witness for C29 (amended): `-O2 -verify-each -disable-verify` and
`-O2 -inlining` write the same bytes. -/
theorem C29_same_bytes_same_settings_witness :
    outputOptimizationSettings exVerifying = outputOptimizationSettings exInlining ∧
    (exVerifying.optimizeLevel = exInlining.optimizeLevel ∧
    optLevel exVerifying = optLevel exInlining ∧
    sizeLevel exVerifying = sizeLevel exInlining ∧
    getOptimizationLevel exVerifying = getOptimizationLevel exInlining ∧
    willInline exVerifying = willInline exInlining ∧
    (scheduledPasses exVerifying).map (List.filter Pass.isDSpecific) =
      (scheduledPasses exInlining).map (List.filter Pass.isDSpecific) ∧
    (scheduledPasses exVerifying).map (List.filter (fun p => p != Pass.VerifierPass)) =
      (scheduledPasses exInlining).map (List.filter (fun p => p != Pass.VerifierPass)) ∧
    (getPipelineTuningOptions exVerifying exPTO (optLevel exVerifying)
        (sizeLevel exVerifying)).LoopVectorization =
      (getPipelineTuningOptions exInlining exPTO (optLevel exInlining)
        (sizeLevel exInlining)).LoopVectorization ∧
    (getPipelineTuningOptions exVerifying exPTO (optLevel exVerifying)
        (sizeLevel exVerifying)).SLPVectorization =
      (getPipelineTuningOptions exInlining exPTO (optLevel exInlining)
        (sizeLevel exInlining)).SLPVectorization ∧
    ((exVerifying.optimizeLevel ≠ 0 ∨
        (exVerifying.disableLoopUnrollingOccurrences > 0 ↔
          exInlining.disableLoopUnrollingOccurrences > 0)) →
      getPipelineTuningOptions exVerifying exPTO (optLevel exVerifying)
          (sizeLevel exVerifying) =
        getPipelineTuningOptions exInlining exPTO (optLevel exInlining)
          (sizeLevel exInlining))) :=
  ⟨by decide, C29_same_bytes_same_settings exVerifying exInlining exPTO (by decide) (by decide)
    (fun _ => rfl) (fun _ => rfl) (by decide)⟩

theorem toObjFile_skipped (prog : List FuncDeclaration) (gp : Param) (fuel : Nat) (mo : Bool)
    (id : Nat) (fd : FuncDeclaration) (st : LowerState) (hfd : lookupFunc prog id = some fd)
    (hs : skipped gp fd st = true) : toObjFile prog gp (fuel + 1) mo id st = .ok st := by
  rw [toObjFile, hfd]
  exact body_skipped _ prog gp fuel mo fd st hs

theorem toObjFile_lowered_geObj (prog : List FuncDeclaration) (gp : Param) (fuel : Nat)
    (id : Nat) (fd : FuncDeclaration) (st st1 : LowerState)
    (hfd : lookupFunc prog id = some fd)
    (h : toObjFile prog gp fuel false id st = .ok st1) :
    skipped gp fd st1 = true := by
  cases fuel with
  | zero => simp [toObjFile] at h
  | succ n =>
    rw [toObjFile, hfd] at h
    simp only [] at h
    rcases body_cases _ prog gp n false fd st st1 h with
      ⟨s1, r1⟩ | ⟨_, q, _⟩ | ⟨s1, _, hrun, _⟩
    · rw [r1]
      exact s1
    · simp at q
    · unfold skipped at s1
      simp only [Bool.or_eq_false_iff] at s1
      obtain ⟨⟨⟨_, c2⟩, c3⟩, c4⟩ := s1
      obtain ⟨_, _, _, _, g, _⟩ := body_lowers _ (toObjFile_grows prog gp n) prog gp n fd st st1
        hrun c2 (by simpa using c3) c4 h
      unfold skipped
      simp [g]

/-- C21 as stated fails in its last part: in unit-splitting mode a call of
`toObjFile` on an ordinary routine (number 1) appends it to
`obj_symbols_towrite` and leaves `semanticRun` as it was, so a second call
appends it again: the queue holds the routine twice, not once. -/
theorem C21_counterexample_second_call_appends_again :
    observeAgain (toObjFile progOne {} 2 true 1 {}) = .ok ([1], []) ∧
    observeAgain ((toObjFile progOne {} 2 true 1 {}).bind (toObjFile progOne {} 2 true 1)) =
      .ok ([1, 1], []) :=
  ⟨rfl, rfl⟩

/-- C21 (amended): `toObjFile` returns with the state exactly as it was (no
diagnostic, `semanticRun`, the bookkeeping sequences, the `deferred` queues and
`obj_symbols_towrite` unchanged, nothing written) whenever the routine was
lowered already, its return type is the error type, it has no body, or it is a
unit test while unit tests are disabled.  After a completed call
`toObjFile(0)` on a routine, every further call of `toObjFile` on it, in
either mode, leaves the state as it is: calling `toObjFile(0)` twice has the
effect of calling it once. -/
theorem C21_skipped_is_no_op_and_lowering_idempotent (prog : List FuncDeclaration)
    (gp : Param) (fuel fuel2 : Nat) (id : Nat) (fd : FuncDeclaration) (st : LowerState)
    (hfd : lookupFunc prog id = some fd) :
    (∀ mo, ((st.semanticRun fd.ident).geObj = true ∨ fd.retError = true ∨ fd.fbody = false ∨
        (fd.isUnitTestDeclaration = true ∧ gp.useUnitTests = false)) →
      toObjFile prog gp (fuel + 1) mo id st = .ok st) ∧
    (∀ st1, toObjFile prog gp fuel false id st = .ok st1 →
      ∀ mo, toObjFile prog gp (fuel2 + 1) mo id st1 = .ok st1) ∧
    (∀ st1, toObjFile prog gp (fuel + 1) false id st = .ok st1 →
      (toObjFile prog gp (fuel + 1) false id st).bind (toObjFile prog gp (fuel + 1) false id) =
        .ok st1) := by
  refine ⟨?_, ?_, ?_⟩
  · intro mo hc
    apply toObjFile_skipped prog gp fuel mo id fd st hfd
    unfold skipped
    rcases hc with hc | hc | hc | hc
    · simp [hc]
    · simp [hc]
    · simp [hc]
    · simp [hc.1, hc.2]
  · intro st1 h mo
    exact toObjFile_skipped prog gp fuel2 mo id fd st1 hfd
      (toObjFile_lowered_geObj prog gp fuel id fd st st1 hfd h)
  · intro st1 h
    rw [h]
    exact toObjFile_skipped prog gp fuel false id fd st1 hfd
      (toObjFile_lowered_geObj prog gp (fuel + 1) id fd st st1 hfd h)

/-- Witness for C21 (amended): the routine of `progOne`, lowered from the
initial state and then called again. -/
theorem C21_skipped_is_no_op_and_lowering_idempotent_witness :
    observeAgain (toObjFile progOne {} 2 false 1 {}) = .ok ([], [11]) ∧
    observeAgain ((toObjFile progOne {} 2 false 1 {}).bind (toObjFile progOne {} 2 false 1)) =
      .ok ([], [11]) ∧
    lookupFunc progOne 1 = some exOne ∧
    ((∀ mo, ((({} : LowerState).semanticRun exOne.ident).geObj = true ∨ exOne.retError = true ∨
        exOne.fbody = false ∨
        (exOne.isUnitTestDeclaration = true ∧ ({} : Param).useUnitTests = false)) →
      toObjFile progOne {} (1 + 1) mo 1 {} = .ok {}) ∧
    (∀ st1, toObjFile progOne {} 1 false 1 {} = .ok st1 →
      ∀ mo, toObjFile progOne {} (0 + 1) mo 1 st1 = .ok st1) ∧
    (∀ st1, toObjFile progOne {} (1 + 1) false 1 {} = .ok st1 →
      (toObjFile progOne {} (1 + 1) false 1 {}).bind (toObjFile progOne {} (1 + 1) false 1) =
        .ok st1)) :=
  ⟨rfl, rfl, rfl, C21_skipped_is_no_op_and_lowering_idempotent progOne {} 1 0 1 exOne {} rfl⟩

/-- C22: when `toObjFile` goes on to lower a routine (it is not skipped and not
queued) and completes, and the global error count is non-zero at line 1000,
after the prelude and the body, the call ends in the state reached there: the
parameter symbols created and the routine registered, and nothing else.  No
symbol is written by `writefunc`, none is exported, no routine changes its
`semanticRun` (no postponed routine is lowered), and the `deferred` queues, the
queue `obj_symbols_towrite` and the error count are as they were. -/
theorem C22_errors_suppress_writing (prog : List FuncDeclaration) (gp : Param)
    (fuel : Nat) (mo : Bool) (id : Nat) (fd : FuncDeclaration) (st st2 : LowerState)
    (hfd : lookupFunc prog id = some fd)
    (hs : skipped gp fd st = false)
    (hq : (mo && !fd.isStaticDtorDeclaration && !fd.isStaticCtorDeclaration) = false)
    (h : toObjFile prog gp (fuel + 1) mo id st = .ok st2) :
    ∃ st1 pl,
      (if fd.isNested then toObjFile_enclosing (toObjFile prog gp fuel) prog mo fd
          (st.setSemanticRun fd.ident .PASSobj)
        else .ok (toObjFile_startup gp fd (st.setSemanticRun fd.ident .PASSobj))) = .ok st1 ∧
      toObjFile_params gp fd st1.syms = .ok pl ∧
      (st1.errors ≠ 0 →
        st2 = { st1 with syms := pl.st, bk := toObjFile_register fd st1.bk } ∧
        st2.written = st1.written ∧ st2.exported = st1.exported ∧
        st2.semanticRun = st1.semanticRun ∧ st2.deferred = st1.deferred ∧
        st2.obj_symbols_towrite = st1.obj_symbols_towrite ∧ st2.errors = st1.errors) := by
  rw [toObjFile, hfd] at h
  simp only [] at h
  rcases body_cases _ prog gp fuel mo fd st st2 h with ⟨s1, _⟩ | ⟨_, q, _⟩ | ⟨_, _, _, st1, h1, h2⟩
  · rw [hs] at s1
    cases s1
  · rw [hq] at q
    cases q
  · obtain ⟨pl, hp, hc⟩ := emit_spec _ prog gp fuel fd st1 st2 h2
    refine ⟨st1, pl, h1, hp, ?_⟩
    intro he
    rcases hc with ⟨_, e⟩ | ⟨e, _⟩
    · subst e
      exact ⟨rfl, rfl, rfl, rfl, rfl, rfl, rfl⟩
    · exact absurd e he

/-- Witness for C22: the exported routine of `progExported` lowered while the
error count is 1 writes and exports nothing and leaves routine 2 unlowered;
with no error it writes symbols 11 and 12 and exports 11. -/
theorem C22_errors_suppress_writing_witness :
    observeEmit (toObjFile progExported {} 3 false 1 {}) =
      .ok ([11, 12], [11], .PASSobj, .PASSobj) ∧
    observeEmit (toObjFile progExported {} 3 false 1 exErrors) =
      .ok ([], [], .PASSobj, .PASSsemantic3done) ∧
    ∃ r, toObjFile progExported {} (2 + 1) false 1 exErrors = .ok r ∧
      ∃ st1 pl,
        (if exExported.isNested then toObjFile_enclosing (toObjFile progExported {} 2)
            progExported false exExported (exErrors.setSemanticRun exExported.ident .PASSobj)
          else .ok (toObjFile_startup {} exExported
            (exErrors.setSemanticRun exExported.ident .PASSobj))) = .ok st1 ∧
        toObjFile_params {} exExported st1.syms = .ok pl ∧
        (st1.errors ≠ 0 →
          r = { st1 with syms := pl.st, bk := toObjFile_register exExported st1.bk } ∧
          r.written = st1.written ∧ r.exported = st1.exported ∧
          r.semanticRun = st1.semanticRun ∧ r.deferred = st1.deferred ∧
          r.obj_symbols_towrite = st1.obj_symbols_towrite ∧ r.errors = st1.errors) := by
  refine ⟨rfl, rfl, ?_⟩
  cases hr : toObjFile progExported {} (2 + 1) false 1 exErrors with
  | error f =>
    have : (observeEmit (toObjFile progExported {} (2 + 1) false 1 exErrors)).isOk = true := rfl
    rw [hr] at this
    cases this
  | ok r =>
    exact ⟨r, rfl, C22_errors_suppress_writing progExported {} 2 false 1 exExported exErrors r
      rfl rfl rfl hr⟩

theorem stepInv_keepsMain : StepInv KeepsMain where
  refl := fun _ h => h
  trans := fun _ _ _ h1 h2 h => h2 (h1 h)
  setObj := fun _ _ _ h => h
  pushDef := fun _ _ _ _ h => h
  oneMain := fun gp st h => by
    unfold onlyOneMain error
    rw [if_pos h]
    exact h
  extName := fun _ _ h => h
  inclib := fun _ _ h => h
  register := fun _ _ _ h => h
  write := fun _ _ h => h
  expSym := fun _ _ h => h

theorem toObjFile_keepsMain (prog : List FuncDeclaration) (gp : Param) (fuel : Nat) (mo : Bool)
    (id : Nat) (st st2 : LowerState) (h : toObjFile prog gp fuel mo id st = .ok st2) :
    st.hasMain = true → st2.hasMain = true :=
  inv_toObjFile stepInv_keepsMain prog gp fuel mo id st st2 (fun _ _ _ _ h => h) h

theorem membersLoop_keepsMain (prog : List FuncDeclaration) (gp : Param) (fuel : Nat)
    (mo : Bool) (l : List Nat) (st st2 : LowerState)
    (h : membersLoop (toObjFile prog gp fuel) mo l st = .ok st2) :
    st.hasMain = true → st2.hasMain = true := by
  induction l generalizing st with
  | nil =>
    simp only [membersLoop, Except.ok.injEq] at h
    subst h
    exact fun k => k
  | cons x rest ih =>
    rw [membersLoop] at h
    cases hx : toObjFile prog gp fuel mo x st with
    | error f => simp [hx] at h
    | ok st1 =>
      simp only [hx] at h
      exact fun k => ih st1 h (toObjFile_keepsMain prog gp fuel mo x st st1 hx k)

theorem genobjfile_cov_hasMain (gp : Param) (m : Module) (st : LowerState) :
    (genobjfile_cov gp m st).2.2.hasMain = st.hasMain := by
  unfold genobjfile_cov
  split <;> rfl

theorem genobjfile_bcov_hasMain (gp : Param) (m : Module) (st : LowerState) :
    (genobjfile_bcov gp m st).2.2.2.hasMain = st.hasMain := by
  unfold genobjfile_bcov toEfilename
  cases hc : gp.cov <;> cases hs : m.sfilename <;> simp

theorem genobjfile_exit_hasMain (gp : Param) (m : Module) (st : LowerState) (refs : List Symbol)
    (c : Module × List Symbol × LowerState) (st2 : LowerState)
    (b : Module × Option Elem × List Symbol × LowerState) (drv : Drivers) :
    (genobjfile_exit gp m st refs c st2 b drv).2.2.hasMain = b.2.2.2.hasMain := by
  unfold genobjfile_exit toModuleSupport
  cases hd : m.doppelganger <;> cases hm : gp.multiobj <;> simp

theorem genobjfile_keepsMain (prog : List FuncDeclaration) (gp : Param) (fuel : Nat)
    (m : Module) (mo : Bool) (st : LowerState) (r : Module × UnitOutput × LowerState)
    (h : genobjfile prog gp fuel m mo st = .ok r) :
    st.hasMain = true → r.2.2.hasMain = true := by
  obtain ⟨refs, st2, drv, _, h2, _, hr⟩ := genobjfile_ok prog gp fuel m mo st r h
  have k := membersLoop_keepsMain prog gp fuel mo _ _ _ h2
  have ec := genobjfile_exit_hasMain gp m st refs
    (genobjfile_cov gp m (genobjfile_init m st)) st2
    (genobjfile_bcov gp (genobjfile_cov gp m (genobjfile_init m st)).1 st2) drv
  rw [← hr] at ec
  intro hm
  rw [ec, genobjfile_bcov_hasMain]
  apply k
  rw [genobjfile_cov_hasMain]
  exact hm

theorem obj_write_deferred_step_keepsMain (prog : List FuncDeclaration) (gp : Param)
    (fuel : Nat) (getModule : Nat → Option Module) (toChars : Nat → List Nat)
    (removeExt : String → String) (s : Nat) (st : LowerState) (r : Shadow × LowerState)
    (h : obj_write_deferred_step prog gp fuel getModule toChars removeExt s st = .ok r) :
    st.hasMain = true → r.2.hasMain = true := by
  obtain ⟨mname, _, md2, _, _, _, _, _, _, _, hg, _, _⟩ :=
    obj_write_deferred_step_spec prog gp fuel getModule toChars removeExt s st r h
  exact fun hm => genobjfile_keepsMain prog gp fuel _ false _ _ hg hm

theorem obj_write_deferred_loop_keeps (P : LowerState → LowerState → Prop)
    (hrefl : ∀ a, P a a) (htrans : ∀ a b c, P a b → P b c → P a c)
    (step : Nat → LowerState → Except Fault (Shadow × LowerState))
    (hstep : ∀ s st r, step s st = .ok r → P st r.2)
    (n i : Nat) (st : LowerState) (acc : List Shadow) (r : List Shadow × LowerState)
    (h : obj_write_deferred_loop step n i st acc = .ok r) : P st r.2 := by
  induction n generalizing i st acc with
  | zero =>
    rw [obj_write_deferred_loop] at h
    cases hq : st.obj_symbols_towrite[i]? with
    | none =>
      simp only [hq, Except.ok.injEq] at h
      subst h
      exact hrefl _
    | some s => simp [hq] at h
  | succ k ih =>
    rw [obj_write_deferred_loop] at h
    cases hq : st.obj_symbols_towrite[i]? with
    | none =>
      simp only [hq, Except.ok.injEq] at h
      subst h
      exact hrefl _
    | some s =>
      simp only [hq] at h
      cases hs : step s st with
      | error f => simp [hs] at h
      | ok r1 =>
        simp only [hs] at h
        exact htrans _ _ _ (hstep s st r1 hs) (ih (i + 1) r1.2 _ h)

theorem obj_write_deferred_keepsMain (prog : List FuncDeclaration) (gp : Param)
    (fuel : Nat) (getModule : Nat → Option Module) (toChars : Nat → List Nat)
    (removeExt : String → String) (n : Nat) (st : LowerState) (r : List Shadow × LowerState)
    (h : obj_write_deferred prog gp fuel getModule toChars removeExt n st = .ok r) :
    st.hasMain = true → r.2.hasMain = true := by
  unfold obj_write_deferred at h
  cases hl : obj_write_deferred_loop
      (obj_write_deferred_step prog gp fuel getModule toChars removeExt) n 0 st [] with
  | error f => simp [hl] at h
  | ok r1 =>
    simp only [hl, Except.ok.injEq] at h
    subst h
    exact obj_write_deferred_loop_keeps KeepsMain (fun _ k => k) (fun _ _ _ h1 h2 k => h2 (h1 k))
      _ (obj_write_deferred_step_keepsMain prog gp fuel getModule toChars removeExt) n 0 st [] r1 hl

theorem onlyOneMainCalls_set (gp : Param) (n : Nat) (st : LowerState)
    (h : st.hasMain = true) :
    (onlyOneMainCalls gp n st).1 = List.replicate n false ∧
    (onlyOneMainCalls gp n st).2.diagnostics =
      st.diagnostics ++ List.replicate n (onlyOneMainMessage gp) ∧
    (onlyOneMainCalls gp n st).2.hasMain = true := by
  induction n generalizing st with
  | zero => simp [onlyOneMainCalls, h]
  | succ k ih =>
    have e : onlyOneMain gp st = (false, error (onlyOneMainMessage gp) st) := by
      unfold onlyOneMain onlyOneMainMessage
      rw [if_pos h]
    obtain ⟨i1, i2, i3⟩ := ih (error (onlyOneMainMessage gp) st) h
    simp only [onlyOneMainCalls, e]
    refine ⟨by rw [i1]; rfl, ?_, i3⟩
    rw [i2]
    simp [error, push, List.replicate_succ]

theorem startup_conflict (gp : Param) (fd : FuncDeclaration) (st : LowerState)
    (h : st.hasMain = true)
    (hc : gp.targetWindos = false ∨ (fd.sidentMain && fd.linkage == .LINKc) = false) :
    (toObjFile_startup gp fd st).extdefs = st.extdefs ∧
    (toObjFile_startup gp fd st).includelibs = st.includelibs := by
  unfold toObjFile_startup andOnlyOneMain onlyOneMain error
  rcases hc with hc | hc
  · cases h1 : fd.isMain <;> cases h2 : (fd.sidentMain && fd.linkage == .LINKc) <;>
      simp [h, hc]
  · cases h1 : fd.isMain <;> cases h3 : gp.targetWindos <;> cases h4 : fd.isWinMain <;>
      cases h5 : fd.isDllMain <;> simp [h, hc]

/-- C23 as stated fails on the text of the diagnostic: in a build for a Windows
target a later call of `onlyOneMain` reports "only one main/WinMain/DllMain
allowed", not "only one main allowed". -/
theorem C23_counterexample_windows_diagnostic :
    (onlyOneMain exWindos exHasMain).1 = false ∧
    (onlyOneMain exWindos exHasMain).2.diagnostics = ["only one main/WinMain/DllMain allowed"] ∧
    (onlyOneMain exWindos exHasMain).2.diagnostics ≠ ["only one main allowed"] := by
  decide

/-- C23 (amended): `onlyOneMain` called with the flag clear returns true, sets
the flag and changes nothing else (no diagnostic); called with the flag set it
returns false, counts one error and issues one diagnostic, which is "only one
main allowed" except in a build for a Windows target, where it is "only one
main/WinMain/DllMain allowed", and the flag stays set.  So `n + 1` successive
calls from a clear flag return true once and then false `n` times.  The flag,
once set, is still set after every completed `toObjFile`, `genobjfile` and
`obj_write_deferred`.  With the flag set, the startup code of `toObjFile` emits
no `objextdef` and no `obj_includelib` for a routine, except in a Windows build
for a routine whose symbol is the C-linkage `main`. -/
theorem C23_only_one_main_is_granted (prog : List FuncDeclaration) (gp : Param) :
    (∀ st : LowerState, st.hasMain = false →
      onlyOneMain gp st = (true, { st with hasMain := true })) ∧
    (∀ st : LowerState, st.hasMain = true →
      onlyOneMain gp st = (false, error (onlyOneMainMessage gp) st) ∧
      (onlyOneMain gp st).2.hasMain = true ∧
      (onlyOneMain gp st).2.errors = st.errors + 1 ∧
      (onlyOneMain gp st).2.diagnostics = st.diagnostics ++ [onlyOneMainMessage gp]) ∧
    (onlyOneMainMessage gp =
      if gp.targetWindos then "only one main/WinMain/DllMain allowed"
      else "only one main allowed") ∧
    (∀ n (st : LowerState), st.hasMain = false →
      (onlyOneMainCalls gp (n + 1) st).1 = true :: List.replicate n false ∧
      (onlyOneMainCalls gp (n + 1) st).2.diagnostics =
        st.diagnostics ++ List.replicate n (onlyOneMainMessage gp) ∧
      (onlyOneMainCalls gp (n + 1) st).2.hasMain = true) ∧
    (∀ fuel mo id st st2, toObjFile prog gp fuel mo id st = .ok st2 →
      st.hasMain = true → st2.hasMain = true) ∧
    (∀ fuel m mo st r, genobjfile prog gp fuel m mo st = .ok r →
      st.hasMain = true → r.2.2.hasMain = true) ∧
    (∀ fuel getModule toChars removeExt n st r,
      obj_write_deferred prog gp fuel getModule toChars removeExt n st = .ok r →
      st.hasMain = true → r.2.hasMain = true) ∧
    (∀ (fd : FuncDeclaration) (st : LowerState), st.hasMain = true →
      (gp.targetWindos = false ∨ (fd.sidentMain && fd.linkage == .LINKc) = false) →
      (toObjFile_startup gp fd st).extdefs = st.extdefs ∧
      (toObjFile_startup gp fd st).includelibs = st.includelibs) := by
  refine ⟨?_, ?_, rfl, ?_, ?_, ?_, ?_, ?_⟩
  · intro st h
    unfold onlyOneMain
    rw [if_neg (by simp [h])]
  · intro st h
    have e : onlyOneMain gp st = (false, error (onlyOneMainMessage gp) st) := by
      unfold onlyOneMain onlyOneMainMessage
      rw [if_pos h]
    rw [e]
    exact ⟨rfl, h, rfl, rfl⟩
  · intro n st h
    have e : onlyOneMain gp st = (true, { st with hasMain := true }) := by
      unfold onlyOneMain
      rw [if_neg (by simp [h])]
    obtain ⟨i1, i2, i3⟩ := onlyOneMainCalls_set gp n { st with hasMain := true } rfl
    simp only [onlyOneMainCalls, e]
    exact ⟨by rw [i1], i2, i3⟩
  · intro fuel mo id st st2 h
    exact toObjFile_keepsMain prog gp fuel mo id st st2 h
  · intro fuel m mo st r h
    exact genobjfile_keepsMain prog gp fuel m mo st r h
  · intro fuel getModule toChars removeExt n st r h
    exact obj_write_deferred_keepsMain prog gp fuel getModule toChars removeExt n st r h
  · intro fd st h hc
    exact startup_conflict gp fd st h hc

/-- Two routines claiming to be `main`, lowered one after the other: the first
gets the startup references, the second gets the diagnostic and no reference,
and is not written. -/
theorem twoMains_example :
    observeStartup (toObjFile progTwoMains {} 2 false 1 {}) =
      .ok (["_main"], ["phobos"], []) ∧
    observeStartup ((toObjFile progTwoMains {} 2 false 1 {}).bind
        (toObjFile progTwoMains {} 2 false 2)) =
      .ok (["_main"], ["phobos"], ["only one main allowed"]) ∧
    observeAgain ((toObjFile progTwoMains {} 2 false 1 {}).bind
        (toObjFile progTwoMains {} 2 false 2)) = .ok ([], [11]) ∧
    (onlyOneMainCalls {} 3 {}).1 = [true, false, false] :=
  ⟨rfl, rfl, rfl, rfl⟩

theorem charValue_plain (gp : Param) (b : Nat)
    (h : gp.charSigned = false ∨ b % 256 < 128) : charValue gp b = b % 256 := by
  unfold charValue
  rcases h with h | h
  · simp [h]
  · rw [if_neg]
    simp only [Bool.and_eq_true, decide_eq_true_eq, not_and, not_le]
    exact fun _ => h

theorem nameHash_zero (gp : Param) (name : List Nat) :
    nameHash gp name 0 = nameSum gp name % 2 ^ 32 := by
  have h := nameHash_eq gp name 0
  simpa using h

/-- C26 as stated fails for a name with a byte above 127 where plain `char` is
signed: for the one-byte name 200 the hash is `2 ^ 32 - 56`, while the sum of
the bytes is 200. -/
theorem C26_counterexample_signed_char_byte :
    nameHash {} [200] 0 = 4294967240 ∧ nameHash {} [200] 0 ≠ [200].sum % 2 ^ 32 := by
  decide

/-- C26 (amended): the hash of a name is the sum, reduced modulo `2 ^ 32`, of
the `char` values of its bytes up to the terminating zero, where a byte above
127 counts as the byte minus 256 when plain `char` is signed.  It equals the
sum of the bytes modulo `2 ^ 32` when `char` is unsigned or every byte of the
name is below 128.  It is the same for two names whose bytes up to the
terminating zero are permutations of each other, and two symbols with the same
display name get the same hash. -/
theorem C26_hash_is_additive_checksum (gp : Param) :
    (∀ name, nameHash gp name 0 = nameSum gp name % 2 ^ 32) ∧
    (∀ name, (gp.charSigned = false ∨ ∀ b ∈ name, b % 256 < 128) →
      nameHash gp name 0 =
        ((name.takeWhile (fun b => b % 256 != 0)).map (fun b => b % 256)).sum % 2 ^ 32) ∧
    (∀ p q : List Nat,
      List.Perm (p.takeWhile (fun b => b % 256 != 0)) (q.takeWhile (fun b => b % 256 != 0)) →
      nameHash gp p 0 = nameHash gp q 0) ∧
    (∀ (toChars : Nat → List Nat) (s1 s2 : Nat), toChars s1 = toChars s2 →
      nameHash gp (toChars s1) 0 = nameHash gp (toChars s2) 0) := by
  refine ⟨nameHash_zero gp, ?_, ?_, ?_⟩
  · intro name h
    rw [nameHash_zero]
    unfold nameSum
    congr 2
    apply List.map_congr_left
    intro b hb
    apply charValue_plain
    rcases h with h | h
    · exact Or.inl h
    · exact Or.inr (h b ((List.takeWhile_sublist _).subset hb))
  · intro p q h
    rw [nameHash_zero, nameHash_zero]
    unfold nameSum
    rw [(h.map (charValue gp)).sum_eq]
  · intro toChars s1 s2 h
    rw [h]

theorem obj_write_deferred_loop_shadows (Q : Shadow → Prop)
    (step : Nat → LowerState → Except Fault (Shadow × LowerState))
    (hstep : ∀ s st r, step s st = .ok r →
      r.1.count = st.count + 1 ∧ r.2.count = st.count + 1 ∧ Q r.1)
    (n i : Nat) (st : LowerState) (acc : List Shadow) (r : List Shadow × LowerState)
    (h : obj_write_deferred_loop step n i st acc = .ok r) :
    ∃ l, r.1 = acc ++ l ∧ l.map Shadow.count = List.range' (st.count + 1) l.length ∧
      r.2.count = st.count + l.length ∧ ∀ sh ∈ l, Q sh := by
  induction n generalizing i st acc with
  | zero =>
    rw [obj_write_deferred_loop] at h
    cases hq : st.obj_symbols_towrite[i]? with
    | none =>
      simp only [hq, Except.ok.injEq] at h
      subst h
      exact ⟨[], by simp⟩
    | some s => simp [hq] at h
  | succ k ih =>
    rw [obj_write_deferred_loop] at h
    cases hq : st.obj_symbols_towrite[i]? with
    | none =>
      simp only [hq, Except.ok.injEq] at h
      subst h
      exact ⟨[], by simp⟩
    | some s =>
      simp only [hq] at h
      cases hs : step s st with
      | error f => simp [hs] at h
      | ok r1 =>
        simp only [hs] at h
        obtain ⟨a1, a2, a3⟩ := hstep s st r1 hs
        obtain ⟨l, e1, e2, e3, e4⟩ := ih (i + 1) r1.2 _ h
        refine ⟨r1.1 :: l, ?_, ?_, ?_, ?_⟩
        · rw [e1]
          simp [push]
        · simp only [List.map_cons, List.length_cons, List.range'_succ, a1, e2, a2]
        · rw [e3, a2]
          simp only [List.length_cons]
          omega
        · intro sh hsh
          rcases List.mem_cons.mp hsh with hsh | hsh
          · subst hsh
            exact a3
          · exact e4 sh hsh

theorem obj_write_deferred_shadows (prog : List FuncDeclaration) (gp : Param) (fuel : Nat)
    (getModule : Nat → Option Module) (toChars : Nat → List Nat)
    (removeExt : String → String) (n : Nat) (st : LowerState) (r : List Shadow × LowerState)
    (h : obj_write_deferred prog gp fuel getModule toChars removeExt n st = .ok r) :
    r.1.map Shadow.count = List.range' (st.count + 1) r.1.length ∧
    r.2.count = st.count + r.1.length ∧
    ∀ sh ∈ r.1, sh.fname = shadowFileName gp removeExt sh.mname sh.count (toChars sh.sym) := by
  unfold obj_write_deferred at h
  cases hl : obj_write_deferred_loop
      (obj_write_deferred_step prog gp fuel getModule toChars removeExt) n 0 st [] with
  | error f => simp [hl] at h
  | ok r1 =>
    simp only [hl, Except.ok.injEq] at h
    subst h
    obtain ⟨l, e1, e2, e3, e4⟩ := obj_write_deferred_loop_shadows
      (fun sh => sh.fname = shadowFileName gp removeExt sh.mname sh.count (toChars sh.sym))
      (obj_write_deferred_step prog gp fuel getModule toChars removeExt)
      (by
        intro s st0 r0 h0
        obtain ⟨mname, _, _, _, _, k1, k2, k3, _, k5, _, k7, _⟩ :=
          obj_write_deferred_step_spec prog gp fuel getModule toChars removeExt s st0 r0 h0
        refine ⟨k2, k7, ?_⟩
        show r0.1.fname = shadowFileName gp removeExt r0.1.mname r0.1.count (toChars r0.1.sym)
        rw [k5, k3, k2, k1])
      n 0 st [] r1 hl
    rw [List.nil_append] at e1
    simp only []
    rw [e1]
    exact ⟨e2, e3, e4⟩

theorem runCalls_shadows (prog : List FuncDeclaration) (gp : Param) (fuel : Nat)
    (getModule : Nat → Option Module) (toChars : Nat → List Nat)
    (removeExt : String → String) (calls : List GlueCall) (st : LowerState)
    (r : List Shadow × LowerState)
    (h : runCalls prog gp fuel getModule toChars removeExt calls st = .ok r) :
    r.1.map Shadow.count = List.range' (st.count + 1) r.1.length ∧
    r.2.count = st.count + r.1.length ∧
    ∀ sh ∈ r.1, sh.fname = shadowFileName gp removeExt sh.mname sh.count (toChars sh.sym) := by
  induction calls generalizing st r with
  | nil =>
    simp only [runCalls, Except.ok.injEq] at h
    subst h
    simp
  | cons c rest ih =>
    cases c with
    | genobjfile m mo =>
      rw [runCalls] at h
      cases hg : genobjfile prog gp fuel m mo st with
      | error f => simp [hg] at h
      | ok g =>
        simp only [hg] at h
        have hc := (genobjfile_frame prog gp fuel m mo st g hg).1
        have := ih g.2.2 r h
        rw [hc] at this
        exact this
    | toObjFile mo id =>
      rw [runCalls] at h
      cases hg : toObjFile prog gp fuel mo id st with
      | error f => simp [hg] at h
      | ok g =>
        simp only [hg] at h
        have hc := toObjFile_sameCount prog gp fuel mo id st g hg
        have := ih g r h
        rw [hc] at this
        exact this
    | obj_write_deferred n =>
      rw [runCalls] at h
      cases hg : obj_write_deferred prog gp fuel getModule toChars removeExt n st with
      | error f => simp [hg] at h
      | ok g =>
        simp only [hg] at h
        cases hr : runCalls prog gp fuel getModule toChars removeExt rest g.2 with
        | error f => simp [hr] at h
        | ok r2 =>
          simp only [hr, Except.ok.injEq] at h
          subst h
          obtain ⟨a1, a2, a3⟩ :=
            obj_write_deferred_shadows prog gp fuel getModule toChars removeExt n st g hg
          obtain ⟨b1, b2, b3⟩ := ih g.2 r2 hr
          refine ⟨?_, ?_, ?_⟩
          · rw [List.map_append, List.length_append, a1, b1, a2,
              show st.count + g.1.length + 1 = st.count + 1 + g.1.length by omega,
              List.range'_append_1, Nat.add_comm r2.1.length]
          · simp only [List.length_append]
            rw [b2, a2]
            omega
          · intro sh hsh
            rcases List.mem_append.mp hsh with hsh | hsh
            · exact a3 sh hsh
            · exact b3 sh hsh

theorem append_sep_left (c : Char) (x1 x2 r1 r2 : List Char) (h1 : c ∉ x1) (h2 : c ∉ x2)
    (h : x1 ++ c :: r1 = x2 ++ c :: r2) : x1 = x2 := by
  induction x1 generalizing x2 with
  | nil =>
    cases x2 with
    | nil => rfl
    | cons y ys =>
      simp only [List.nil_append, List.cons_append, List.cons.injEq] at h
      exact absurd (List.mem_cons.mpr (Or.inl h.1)) h2
  | cons a l ih =>
    cases x2 with
    | nil =>
      simp only [List.nil_append, List.cons_append, List.cons.injEq] at h
      exact absurd (List.mem_cons.mpr (Or.inl h.1.symm)) h1
    | cons y ys =>
      simp only [List.cons_append, List.cons.injEq] at h
      rw [h.1, ih ys (fun k => h1 (List.mem_cons_of_mem _ k))
        (fun k => h2 (List.mem_cons_of_mem _ k)) h.2]

theorem shadowFileName_count (gp : Param) (removeExt : String → String) (m1 m2 : String)
    (c1 c2 : Nat) (n1 n2 : List Nat) (hb : removeExt m1 = removeExt m2)
    (h : shadowFileName gp removeExt m1 c1 n1 = shadowFileName gp removeExt m2 c2 n2) :
    c1 % 2 ^ 32 = c2 % 2 ^ 32 := by
  unfold shadowFileName at h
  rw [printf_shadow_name, printf_shadow_name, hb] at h
  have hd := congrArg String.data h
  simp only [String.data_append, List.append_assoc, List.append_cancel_left_eq] at hd
  simp only [List.singleton_append] at hd
  have hnot : ∀ n : Nat, '_' ∉ Nat.toDigits 16 n := by
    intro n hm
    have := (toDigits_hex n).2.1 _ hm
    revert this
    decide
  have e := append_sep_left '_' _ _ _ _ (hnot _) (hnot _) hd
  have e2 := congrArg hexRead e
  rw [(toDigits_hex _).2.2.1, (toDigits_hex _).2.2.1] at e2
  exact e2

/-- C27: over any sequence of completed calls of `genobjfile`, `toObjFile` and
`obj_write_deferred` in one process, starting with the counter at its initial
value 0 and with fewer than `2 ^ 31` object files written in all (the counter
stays within `int`), the object files written by all the calls of
`obj_write_deferred` carry the sequence numbers 1, 2, 3, ... in order: the
first gets 1, each one gets one more than the one before, also across calls,
and the counter at the end is the number of files written.  Any two of them
have different sequence numbers, and any two whose source names have the same
base (`FileName::removeExt`) have different file names, whatever the symbols'
display names. -/
theorem C27_sequence_counter_monotonic (prog : List FuncDeclaration) (gp : Param)
    (fuel : Nat) (getModule : Nat → Option Module) (toChars : Nat → List Nat)
    (removeExt : String → String) (calls : List GlueCall) (st : LowerState)
    (r : List Shadow × LowerState) (h0 : st.count = 0)
    (h : runCalls prog gp fuel getModule toChars removeExt calls st = .ok r)
    (hb : r.1.length < 2 ^ 31) :
    r.1.map Shadow.count = List.range' 1 r.1.length ∧
    r.2.count = r.1.length ∧
    (∀ i (hi : i < r.1.length), (r.1.get ⟨i, hi⟩).count = i + 1) ∧
    (∀ i j (hi : i < r.1.length) (hj : j < r.1.length), i ≠ j →
      (r.1.get ⟨i, hi⟩).count ≠ (r.1.get ⟨j, hj⟩).count) ∧
    (∀ i j (hi : i < r.1.length) (hj : j < r.1.length), i ≠ j →
      removeExt (r.1.get ⟨i, hi⟩).mname = removeExt (r.1.get ⟨j, hj⟩).mname →
      (r.1.get ⟨i, hi⟩).fname ≠ (r.1.get ⟨j, hj⟩).fname) := by
  obtain ⟨k1, k2, k3⟩ := runCalls_shadows prog gp fuel getModule toChars removeExt calls st r h
  rw [h0] at k1 k2
  simp only [Nat.zero_add] at k1 k2
  have hc : ∀ i (hi : i < r.1.length), (r.1.get ⟨i, hi⟩).count = i + 1 := by
    intro i hi
    have e : (r.1.map Shadow.count)[i]? = (List.range' 1 r.1.length)[i]? := by rw [k1]
    rw [List.getElem?_map, List.getElem?_range' _ _ hi, List.getElem?_eq_getElem hi] at e
    simp only [Option.map_some', Option.some.injEq] at e
    rw [List.get_eq_getElem, e]
    omega
  refine ⟨k1, k2, hc, ?_, ?_⟩
  · intro i j hi hj hij
    rw [hc i hi, hc j hj]
    omega
  · intro i j hi hj hij hbase hname
    rw [k3 _ (List.get_mem _ _ _), k3 _ (List.get_mem r.1 j hj)] at hname
    have e := shadowFileName_count gp removeExt _ _ _ _ _ _ hbase hname
    rw [hc i hi, hc j hj] at e
    have p1 : i + 1 < 2 ^ 32 := by omega
    have p2 : j + 1 < 2 ^ 32 := by omega
    rw [Nat.mod_eq_of_lt p1, Nat.mod_eq_of_lt p2] at e
    omega

/-- Witness for C27: in the process `exProcess` routine 1 is written twice by
the first call of `obj_write_deferred` and routine 2 by the second, under the
sequence numbers 1, 2 and 3; the first two files differ only in the number. -/
theorem C27_sequence_counter_monotonic_witness :
    observeProcess (runCalls progTwo {} 3 exGetModule exToChars exRemoveExt exProcess {}) =
      .ok ([1, 2, 3], ["a_1_144.o", "a_2_144.o", "a_3_135.o"], 3) ∧
    ∃ r, runCalls progTwo {} 3 exGetModule exToChars exRemoveExt exProcess {} = .ok r ∧
      r.1.length = 3 ∧
      r.1.map Shadow.count = List.range' 1 r.1.length ∧
      r.2.count = r.1.length ∧
      (∀ i (hi : i < r.1.length), (r.1.get ⟨i, hi⟩).count = i + 1) ∧
      (∀ i j (hi : i < r.1.length) (hj : j < r.1.length), i ≠ j →
        (r.1.get ⟨i, hi⟩).count ≠ (r.1.get ⟨j, hj⟩).count) ∧
      (∀ i j (hi : i < r.1.length) (hj : j < r.1.length), i ≠ j →
        exRemoveExt (r.1.get ⟨i, hi⟩).mname = exRemoveExt (r.1.get ⟨j, hj⟩).mname →
        (r.1.get ⟨i, hi⟩).fname ≠ (r.1.get ⟨j, hj⟩).fname) := by
  have hobs : observeProcess
      (runCalls progTwo {} 3 exGetModule exToChars exRemoveExt exProcess {}) =
      .ok ([1, 2, 3], ["a_1_144.o", "a_2_144.o", "a_3_135.o"], 3) := rfl
  refine ⟨hobs, ?_⟩
  cases hr : runCalls progTwo {} 3 exGetModule exToChars exRemoveExt exProcess {} with
  | error f =>
    rw [hr] at hobs
    cases hobs
  | ok r =>
    rw [hr] at hobs
    have hlen : r.1.length = 3 := by
      simp only [observeProcess, Except.map, Except.ok.injEq, Prod.mk.injEq] at hobs
      have := congrArg List.length hobs.1
      simpa using this
    exact ⟨r, rfl, hlen, C27_sequence_counter_monotonic progTwo {} 3 exGetModule exToChars
      exRemoveExt exProcess {} r rfl hr (by rw [hlen]; decide)⟩

theorem lowered_same (prog : List FuncDeclaration) (a b : LowerState)
    (h1 : b.bk = a.bk) (h2 : b.semanticRun = a.semanticRun) (h3 : b.written = a.written)
    (h4 : a.errors ≤ b.errors) : Lowered prog a b [] := by
  refine ⟨by simp [h1], ?_, by simp, by simp, h4, ?_⟩
  · intro k
    rw [h2]
    simp
  · intro _
    simp [h3]

theorem lowered_refl (prog : List FuncDeclaration) (a : LowerState) : Lowered prog a a [] :=
  lowered_same prog a a rfl rfl rfl (Nat.le_refl _)

theorem lowered_trans (prog : List FuncDeclaration) (a b c : LowerState)
    (f1 f2 : List FuncDeclaration) (h1 : Lowered prog a b f1) (h2 : Lowered prog b c f2) :
    Lowered prog a c (f1 ++ f2) := by
  obtain ⟨a1, a2, a3, a4, a5, a6⟩ := h1
  obtain ⟨b1, b2, b3, b4, b5, b6⟩ := h2
  refine ⟨?_, ?_, ?_, ?_, Nat.le_trans a5 b5, ?_⟩
  · rw [List.foldl_append, ← a1, b1]
  · intro k
    rw [b2 k, a2 k, List.map_append, List.mem_append, or_assoc]
  · intro fd hfd
    rcases List.mem_append.mp hfd with hfd | hfd
    · exact a3 fd hfd
    · refine ⟨(b3 fd hfd).1, ?_⟩
      cases hg : (a.semanticRun fd.ident).geObj with
      | false => rfl
      | true =>
        have := (a2 fd.ident).mpr (Or.inl hg)
        rw [(b3 fd hfd).2] at this
        cases this
  · rw [List.map_append]
    refine List.Nodup.append a4 b4 ?_
    intro k hk1 hk2
    have hb : (b.semanticRun k).geObj = true := (a2 k).mpr (Or.inr hk1)
    obtain ⟨fd, hfd, rfl⟩ := List.mem_map.mp hk2
    rw [(b3 fd hfd).2] at hb
    cases hb
  · intro hc
    have hb : b.errors = 0 := by omega
    rw [b6 hc, a6 hb, List.map_append, List.append_assoc]

theorem lowered_startup (prog : List FuncDeclaration) (gp : Param) (fd : FuncDeclaration)
    (st : LowerState) : Lowered prog st (toObjFile_startup gp fd st) [] := by
  have h := startup_rel
    (fun a b => b.bk = a.bk ∧ b.semanticRun = a.semanticRun ∧ b.written = a.written ∧
      a.errors ≤ b.errors)
    (fun _ => ⟨rfl, rfl, rfl, Nat.le_refl _⟩)
    (fun a b c h1 h2 => ⟨h2.1.trans h1.1, h2.2.1.trans h1.2.1, h2.2.2.1.trans h1.2.2.1,
      Nat.le_trans h1.2.2.2 h2.2.2.2⟩)
    (fun gp st => by
      unfold onlyOneMain error
      split
      · exact ⟨rfl, rfl, rfl, Nat.le_succ _⟩
      · exact ⟨rfl, rfl, rfl, Nat.le_refl _⟩)
    (fun _ _ => ⟨rfl, rfl, rfl, Nat.le_refl _⟩)
    (fun _ _ => ⟨rfl, rfl, rfl, Nat.le_refl _⟩) gp fd st
  exact lowered_same prog _ _ h.1 h.2.1 h.2.2.1 h.2.2.2

theorem lowered_enclosing (self : ToObjFile) (prog : List FuncDeclaration)
    (hself : SelfLowers prog self) (mo : Bool) (fd : FuncDeclaration) (st st2 : LowerState)
    (h : toObjFile_enclosing self prog mo fd st = .ok st2) :
    ∃ fds, Lowered prog st st2 fds := by
  unfold toObjFile_enclosing at h
  split at h
  · cases h; exact ⟨[], lowered_refl prog _⟩
  · split at h
    · exact hself _ _ _ _ h
    · cases h; exact ⟨[], lowered_refl prog _⟩

theorem lowered_deferToObjLoop (self : ToObjFile) (prog : List FuncDeclaration)
    (hself : SelfLowers prog self) (l : List Nat) (st st2 : LowerState)
    (h : deferToObjLoop self prog l st = .ok st2) : ∃ fds, Lowered prog st st2 fds := by
  induction l generalizing st with
  | nil =>
    simp only [deferToObjLoop, Except.ok.injEq] at h
    subst h
    exact ⟨[], lowered_refl prog _⟩
  | cons s rest ih =>
    rw [deferToObjLoop] at h
    split at h
    · obtain ⟨f, hf⟩ := ih _ h
      exact ⟨[] ++ f, lowered_trans prog _ _ _ _ _
        (lowered_same prog _ _ rfl rfl rfl (Nat.le_refl _)) hf⟩
    · cases hs : self false s st with
      | error f => simp [hs] at h
      | ok st1 =>
        simp only [hs] at h
        obtain ⟨f1, hf1⟩ := hself _ _ _ _ hs
        obtain ⟨f2, hf2⟩ := ih _ h
        exact ⟨f1 ++ f2, lowered_trans prog _ _ _ _ _ hf1 hf2⟩

theorem lowered_deferredLoop (self : ToObjFile) (prog : List FuncDeclaration)
    (hself : SelfLowers prog self) (id : Nat) (n i : Nat) (st st2 : LowerState)
    (h : deferredLoop self id n i st = .ok st2) : ∃ fds, Lowered prog st st2 fds := by
  induction n generalizing i st with
  | zero =>
    rw [deferredLoop] at h
    split at h
    · cases h; exact ⟨[], lowered_refl prog _⟩
    · simp at h
  | succ m ih =>
    rw [deferredLoop] at h
    split at h
    · cases h; exact ⟨[], lowered_refl prog _⟩
    · rename_i fd hfd
      cases hs : self false fd st with
      | error f => simp [hs] at h
      | ok st1 =>
        simp only [hs] at h
        obtain ⟨f1, hf1⟩ := hself _ _ _ _ hs
        obtain ⟨f2, hf2⟩ := ih _ _ h
        exact ⟨f1 ++ f2, lowered_trans prog _ _ _ _ _ hf1 hf2⟩

/-- The routine `fd`, marked as lowered in `st`, is registered and written in
the state `st3` reached by the prelude. -/
theorem lowered_mark (prog : List FuncDeclaration) (fd : FuncDeclaration)
    (st st3 stw : LowerState) (f1 : List FuncDeclaration)
    (hfd : lookupFunc prog fd.ident = some fd)
    (hge : (st.semanticRun fd.ident).geObj = false)
    (h1 : Lowered prog (st.setSemanticRun fd.ident .PASSobj) st3 f1)
    (hbk : stw.bk = toObjFile_register fd st3.bk)
    (hrun : stw.semanticRun = st3.semanticRun)
    (herr : stw.errors = st3.errors)
    (hw : stw.errors = 0 → stw.written = st3.written ++ [fd.sym]) :
    Lowered prog st stw (f1 ++ [fd]) := by
  obtain ⟨a1, a2, a3, a4, a5, a6⟩ := h1
  have hset : ∀ k, ((st.setSemanticRun fd.ident .PASSobj).semanticRun k).geObj = true ↔
      ((st.semanticRun k).geObj = true ∨ k = fd.ident) := by
    intro k
    simp only [LowerState.setSemanticRun]
    by_cases hk : k = fd.ident
    · subst hk
      simp [PASS.geObj, PASS.toNat]
    · simp [hk]
  refine ⟨?_, ?_, ?_, ?_, ?_, ?_⟩
  · rw [hbk, a1, List.foldl_append]
    rfl
  · intro k
    rw [hrun, a2 k, hset k, List.map_append, List.mem_append]
    simp only [List.map_cons, List.map_nil, List.mem_singleton]
    tauto
  · intro g hg
    rcases List.mem_append.mp hg with hg | hg
    · refine ⟨(a3 g hg).1, ?_⟩
      cases hc : (st.semanticRun g.ident).geObj with
      | false => rfl
      | true =>
        have := (hset g.ident).mpr (Or.inl hc)
        rw [(a3 g hg).2] at this
        cases this
    · simp only [List.mem_singleton] at hg
      subst hg
      exact ⟨hfd, hge⟩
  · rw [List.map_append]
    refine List.Nodup.append a4 (by simp) ?_
    intro k hk1 hk2
    simp only [List.map_cons, List.map_nil, List.mem_singleton] at hk2
    subst hk2
    obtain ⟨g, hg, hgk⟩ := List.mem_map.mp hk1
    have := (a3 g hg).2
    rw [hgk] at this
    have h2 := (hset fd.ident).mpr (Or.inr rfl)
    rw [this] at h2
    cases h2
  · rw [herr]
    exact a5
  · intro hc
    have h3 : st3.errors = 0 := by rw [← herr]; exact hc
    rw [hw hc, a6 h3, List.map_append]
    simp [LowerState.setSemanticRun]

theorem lowered_body (self : ToObjFile) (prog : List FuncDeclaration)
    (hself : SelfLowers prog self) (gp : Param) (fuel : Nat) (mo : Bool)
    (fd : FuncDeclaration) (st st2 : LowerState)
    (hfd : lookupFunc prog fd.ident = some fd)
    (h : toObjFile_body self prog gp fuel mo fd st = .ok st2) :
    (skipped gp fd st = true ∧ st2 = st) ∨
    (skipped gp fd st = false ∧
      (mo && !fd.isStaticDtorDeclaration && !fd.isStaticCtorDeclaration) = true ∧
      st2 = obj_append fd.ident st) ∨
    (skipped gp fd st = false ∧
      (mo && !fd.isStaticDtorDeclaration && !fd.isStaticCtorDeclaration) = false ∧
      ∃ f1 f2, Lowered prog st st2 (f1 ++ fd :: f2)) := by
  rcases body_cases self prog gp fuel mo fd st st2 h with
    ⟨s1, e1⟩ | ⟨s1, q1, e1⟩ | ⟨s1, q1, _, st1, h1, h2⟩
  · exact Or.inl ⟨s1, e1⟩
  · exact Or.inr (Or.inl ⟨s1, q1, e1⟩)
  · refine Or.inr (Or.inr ⟨s1, q1, ?_⟩)
    have hge : (st.semanticRun fd.ident).geObj = false := by
      unfold skipped at s1
      simp only [Bool.or_eq_false_iff] at s1
      exact s1.1.1.1
    obtain ⟨f1, hf1⟩ : ∃ f1, Lowered prog (st.setSemanticRun fd.ident .PASSobj) st1 f1 := by
      split at h1
      · exact lowered_enclosing self prog hself mo fd _ _ h1
      · cases h1
        exact ⟨[], lowered_startup prog gp fd _⟩
    obtain ⟨pl, _, hc⟩ := emit_spec self prog gp fuel fd st1 st2 h2
    rcases hc with ⟨he, e2⟩ | ⟨he, st4, h4, h5⟩
    · refine ⟨f1, [], ?_⟩
      subst e2
      exact lowered_mark prog fd st st1 _ f1 hfd hge hf1 rfl rfl rfl
        (fun hc => absurd hc he)
    · obtain ⟨f2, hf2⟩ := lowered_deferToObjLoop self prog hself _ _ _ h4
      obtain ⟨f3, hf3⟩ := lowered_deferredLoop self prog hself _ _ _ _ _ h5
      obtain ⟨w1, w2, _, w4, w5, _⟩ := emitWritten_fields fd (emitRegistered fd pl st1)
      have hm := lowered_mark prog fd st st1 (emitWritten fd (emitRegistered fd pl st1)) f1
        hfd hge hf1 (by rw [w5]; rfl) (by rw [w2]; rfl) (by rw [w4]; rfl)
        (fun _ => by rw [w1]; rfl)
      have := lowered_trans prog _ _ _ _ _ (lowered_trans prog _ _ _ _ _ hm hf2) hf3
      refine ⟨f1, f2 ++ f3, ?_⟩
      simpa [List.append_assoc] using this

theorem toObjFile_lowers (prog : List FuncDeclaration) (gp : Param) (fuel : Nat) :
    SelfLowers prog (toObjFile prog gp fuel) := by
  induction fuel with
  | zero =>
    intro mo id st st2 h
    simp [toObjFile] at h
  | succ n ih =>
    intro mo id st st2 h
    rw [toObjFile] at h
    split at h
    · cases h; exact ⟨[], lowered_refl prog _⟩
    · rename_i fd hfd
      have hid := lookupFunc_ident prog id fd hfd
      rcases lowered_body _ prog ih gp n mo fd st st2 (by rw [hid]; exact hfd) h with
        ⟨_, e⟩ | ⟨_, _, e⟩ | ⟨_, _, f1, f2, hl⟩
      · subst e; exact ⟨[], lowered_refl prog _⟩
      · subst e
        exact ⟨[], lowered_same prog _ _ rfl rfl rfl (Nat.le_refl _)⟩
      · exact ⟨_, hl⟩

theorem membersLoop_lowers (prog : List FuncDeclaration) (gp : Param) (fuel : Nat) (mo : Bool)
    (l : List Nat) (st st2 : LowerState)
    (h : membersLoop (toObjFile prog gp fuel) mo l st = .ok st2) :
    ∃ fds, Lowered prog st st2 fds := by
  induction l generalizing st with
  | nil =>
    simp only [membersLoop, Except.ok.injEq] at h
    subst h
    exact ⟨[], lowered_refl prog _⟩
  | cons x rest ih =>
    rw [membersLoop] at h
    cases hx : toObjFile prog gp fuel mo x st with
    | error f => simp [hx] at h
    | ok st1 =>
      simp only [hx] at h
      obtain ⟨f1, hf1⟩ := toObjFile_lowers prog gp fuel mo x st st1 hx
      obtain ⟨f2, hf2⟩ := ih st1 h
      exact ⟨f1 ++ f2, lowered_trans prog _ _ _ _ _ hf1 hf2⟩

theorem lowered_congr (prog : List FuncDeclaration) (a b a2 b2 : LowerState)
    (fds : List FuncDeclaration) (h : Lowered prog a b fds)
    (ha : SameCore a2 a) (hab : a.bk = a2.bk) (hb : SameCore b b2) (hbb : b2.bk = b.bk) :
    Lowered prog a2 b2 fds := by
  obtain ⟨a1, a2', a3, a4, a5, a6⟩ := h
  obtain ⟨x1, _, x3, _, x5⟩ := ha
  obtain ⟨y1, _, y3, _, y5⟩ := hb
  refine ⟨?_, ?_, ?_, a4, ?_, ?_⟩
  · rw [hbb, a1, hab]
  · intro k
    rw [y1, ← x1]
    exact a2' k
  · intro fd hfd
    rw [← x1]
    exact a3 fd hfd
  · rw [y3, ← x3]
    exact a5
  · intro hc
    rw [y3] at hc
    rw [y5, a6 hc, x5]

theorem genobjfile_lowers (prog : List FuncDeclaration) (gp : Param) (fuel : Nat)
    (m : Module) (mo : Bool) (st : LowerState) (r : Module × UnitOutput × LowerState)
    (h : genobjfile prog gp fuel m mo st = .ok r) :
    ∃ fds e drv,
      Lowered prog (genobjfile_init m st) r.2.2 fds ∧
      r.2.2.bk = registerAll fds ∧
      (r.2.2.errors = 0 → r.2.1.funcs = fds.map (fun fd => fd.sym)) ∧
      e.isSome = gp.cov ∧
      genobjfile_drivers e (registerAll fds) = .ok drv ∧
      r.2.1.drivers = drv.written ∧
      (genobjfile_entered e (registerAll fds) = true →
        r.1.sctor = drv.sctor ∧ r.1.sdtor = drv.sdtor ∧ r.1.ssharedctor = drv.ssharedctor ∧
        r.1.sshareddtor = drv.sshareddtor ∧ r.1.stest = drv.stest) := by
  obtain ⟨refs, st2, drv, _, h2, h3, hr⟩ := genobjfile_ok prog gp fuel m mo st r h
  have cc := genobjfile_cov_core gp m (genobjfile_init m st)
  have c := genobjfile_cov_fields gp m (genobjfile_init m st)
  have b := genobjfile_bcov_fields gp (genobjfile_cov gp m (genobjfile_init m st)).1 st2
  have bc := genobjfile_bcov_core gp (genobjfile_cov gp m (genobjfile_init m st)).1 st2
  have e := genobjfile_exit_fields gp m st refs
    (genobjfile_cov gp m (genobjfile_init m st)) st2
    (genobjfile_bcov gp (genobjfile_cov gp m (genobjfile_init m st)).1 st2) drv
  have ec := genobjfile_exit_core gp m st refs
    (genobjfile_cov gp m (genobjfile_init m st)) st2
    (genobjfile_bcov gp (genobjfile_cov gp m (genobjfile_init m st)).1 st2) drv
  rw [← hr] at e ec
  obtain ⟨fds, hl⟩ := membersLoop_lowers prog gp fuel mo _ _ _ h2
  have hcore : SameCore st2 r.2.2 := by
    obtain ⟨x1, x2, x3, x4, x5⟩ := ec.1
    obtain ⟨y1, y2, y3, y4, y5⟩ := bc
    exact ⟨x1.trans y1, x2.trans y2, x3.trans y3, x4.trans y4, x5.trans y5⟩
  have hbk : r.2.2.bk = st2.bk := by rw [ec.2, b.2.2.2.1]
  have hl2 : Lowered prog (genobjfile_init m st) r.2.2 fds :=
    lowered_congr prog _ _ _ _ fds hl
      cc c.2.2.2.2.2.2 hcore hbk
  have hreg : r.2.2.bk = registerAll fds := by
    rw [hl2.1]
    rfl
  have hst2 : st2.bk = registerAll fds := by rw [← hbk, hreg]
  rw [b.2.2.2.1, hst2] at h3
  refine ⟨fds, _, drv, hl2, hreg, ?_, b.2.2.2.2, h3, e.2.2.2.2.2.2.2.1, ?_⟩
  · intro herr
    rw [e.2.2.2.2.2.2.1]
    have hw := hl2.2.2.2.2.2 herr
    rw [hcore.2.2.2.2] at hw
    rw [hw]
    show List.drop st.written.length (st.written ++ _) = _
    simp
  · intro hent
    rw [b.2.2.2.1, hst2] at e
    exact e.2.2.2.1 hent

theorem registerAll_drivers (e : Option Elem) (fds : List FuncDeclaration) (drv : Drivers)
    (h : genobjfile_drivers e (registerAll fds) = .ok drv) :
    callFuncsAndGates (some (registerAll fds).sctors) (some (registerAll fds).ectorgates)
      "__modctor" = .ok drv.sctor ∧
    callFuncsAndGates (some (registerAll fds).sdtors) none "__moddtor" = .ok drv.sdtor ∧
    callFuncsAndGates (some (registerAll fds).ssharedctors)
      (some (registerAll fds).esharedctorgates) "__modsharedctor" = .ok drv.ssharedctor ∧
    callFuncsAndGates (some (registerAll fds).sshareddtors) none "__modshareddtor" =
      .ok drv.sshareddtor ∧
    driverBody drv.sctor =
      ((ordinaryDtors fds).filterMap (fun fd => fd.vgate)).map Elem.gateInc ++
        ((ordinaryCtors fds).map (fun fd => fd.sym)).map Elem.ucall ∧
    driverBody drv.sdtor =
      (((ordinaryDtors fds).map (fun fd => fd.sym)).reverse).map Elem.ucall ∧
    driverBody drv.ssharedctor =
      ((sharedDtors fds).filterMap (fun fd => fd.vgate)).map Elem.gateInc ++
        ((sharedCtors fds).map (fun fd => fd.sym)).map Elem.ucall ∧
    driverBody drv.sshareddtor =
      (((sharedDtors fds).map (fun fd => fd.sym)).reverse).map Elem.ucall ∧
    (∀ x, (drv.sctor = some x ∨ drv.sdtor = some x ∨ drv.ssharedctor = some x ∨
        drv.sshareddtor = some x) →
      x ∈ drv.written ∧ genobjfile_entered e (registerAll fds) = true) := by
  obtain ⟨w1, w2⟩ := registerAll_gates_wf fds
  obtain ⟨c, d, sc, sd, t, hc, hd, hsc, hsd, _, hdrv⟩ :=
    genobjfile_drivers_ok e (registerAll fds) w1 w2
  obtain ⟨f1, f2, f3, _, f5, f6, f7⟩ := registerAll_fields fds
  obtain ⟨c2, hc2, bc⟩ := callFuncsAndGates_gates (registerAll fds).sctors
    (registerAll fds).ectorgates "__modctor" w1
  obtain ⟨d2, hd2, bd⟩ := callFuncsAndGates_noGates (registerAll fds).sdtors "__moddtor"
  obtain ⟨sc2, hsc2, bsc⟩ := callFuncsAndGates_gates (registerAll fds).ssharedctors
    (registerAll fds).esharedctorgates "__modsharedctor" w2
  obtain ⟨sd2, hsd2, bsd⟩ := callFuncsAndGates_noGates (registerAll fds).sshareddtors
    "__modshareddtor"
  rw [hc] at hc2
  rw [hd] at hd2
  rw [hsc] at hsc2
  rw [hsd] at hsd2
  cases hc2
  cases hd2
  cases hsc2
  cases hsd2
  rw [h] at hdrv
  simp only [Except.ok.injEq] at hdrv
  subst hdrv
  refine ⟨hc, hd, hsc, hsd, ?_, ?_, ?_, ?_, ?_⟩
  · rw [bc, f1, f2, filterMap_vgate_filter]
  · rw [bd, f3]
  · rw [bsc, f5, f6, filterMap_vgate_filter]
  · rw [bsd, f7]
  · intro x hx
    have i1 := (callFuncsAndGates_isSome _ _ _ _ hc).1
    have i2 := (callFuncsAndGates_isSome _ _ _ _ hd).1
    have i3 := (callFuncsAndGates_isSome _ _ _ _ hsc).1
    have i4 := (callFuncsAndGates_isSome _ _ _ _ hsd).1
    simp only [Option.getD_some, Option.getD_none, List.length_nil, ne_eq,
      not_true_eq_false, or_false] at i1 i2 i3 i4
    rcases hx with hx | hx | hx | hx
    · simp only [] at hx
      subst hx
      refine ⟨by simp, ?_⟩
      have := i1.mp rfl
      unfold genobjfile_entered
      rcases this with q | q <;> simp [q]
    · simp only [] at hx
      subst hx
      refine ⟨by simp, ?_⟩
      have := i2.mp rfl
      unfold genobjfile_entered
      simp [this]
    · simp only [] at hx
      subst hx
      refine ⟨by simp, ?_⟩
      have := i3.mp rfl
      unfold genobjfile_entered
      rcases this with q | q <;> simp [q]
    · simp only [] at hx
      subst hx
      refine ⟨by simp, ?_⟩
      have := i4.mp rfl
      unfold genobjfile_entered
      simp [this]

theorem toObjFile_marks (prog : List FuncDeclaration) (gp : Param) (fuel : Nat) (mo : Bool)
    (id : Nat) (fd : FuncDeclaration) (st st2 : LowerState)
    (hfd : lookupFunc prog id = some fd)
    (hmo : mo = false ∨ (fd.isStaticDtorDeclaration || fd.isStaticCtorDeclaration) = true)
    (hs : (fd.retError || !fd.fbody || (fd.isUnitTestDeclaration && !gp.useUnitTests)) = false)
    (h : toObjFile prog gp fuel mo id st = .ok st2) :
    (st2.semanticRun fd.ident).geObj = true := by
  cases fuel with
  | zero => simp [toObjFile] at h
  | succ n =>
    rw [toObjFile, hfd] at h
    simp only [] at h
    have hid := lookupFunc_ident prog id fd hfd
    rcases lowered_body _ prog (toObjFile_lowers prog gp n) gp n mo fd st st2
        (by rw [hid]; exact hfd) h with ⟨s1, e⟩ | ⟨_, q, _⟩ | ⟨_, _, f1, f2, hl⟩
    · subst e
      unfold skipped at s1
      simp only [Bool.or_eq_false_iff] at hs
      simp only [Bool.or_eq_true] at s1
      rcases s1 with ((s1 | s1) | s1) | s1
      · exact s1
      · rw [hs.1.1] at s1; cases s1
      · rw [hs.1.2] at s1; cases s1
      · rw [hs.2] at s1; cases s1
    · exfalso
      rcases hmo with hmo | hmo
      · subst hmo
        simp at q
      · simp only [Bool.and_eq_true, Bool.not_eq_true', Bool.or_eq_true] at q hmo
        rcases hmo with hmo | hmo
        · rw [hmo] at q; cases q.1.2
        · rw [hmo] at q; cases q.2
    · exact (hl.2.1 fd.ident).mpr (Or.inr (by simp))

theorem membersLoop_marks (prog : List FuncDeclaration) (gp : Param) (fuel : Nat) (mo : Bool)
    (l : List Nat) (st st2 : LowerState)
    (h : membersLoop (toObjFile prog gp fuel) mo l st = .ok st2) :
    ∀ x ∈ l, ∀ fd, lookupFunc prog x = some fd →
      (mo = false ∨ (fd.isStaticDtorDeclaration || fd.isStaticCtorDeclaration) = true) →
      (fd.retError || !fd.fbody || (fd.isUnitTestDeclaration && !gp.useUnitTests)) = false →
      (st2.semanticRun fd.ident).geObj = true := by
  induction l generalizing st with
  | nil => intro x hx; cases hx
  | cons y rest ih =>
    rw [membersLoop] at h
    cases hy : toObjFile prog gp fuel mo y st with
    | error f => simp [hy] at h
    | ok st1 =>
      simp only [hy] at h
      intro x hx fd hfd hmo hs
      rcases List.mem_cons.mp hx with hx | hx
      · subst hx
        have g1 := toObjFile_marks prog gp fuel mo x fd st st1 hfd hmo hs hy
        obtain ⟨fs, hfs⟩ := membersLoop_lowers prog gp fuel mo rest st1 st2 h
        exact (hfs.2.1 fd.ident).mpr (Or.inl g1)
      · exact ih st1 h x hx fd hfd hmo hs

/-- In a completed run of `Module::genobjfile`, the members that are routines
of the program, are not skipped and are not queued are among the routines
lowered. -/
theorem genobjfile_members_lowered (prog : List FuncDeclaration) (gp : Param) (fuel : Nat)
    (m : Module) (mo : Bool) (st : LowerState) (r : Module × UnitOutput × LowerState)
    (fds : List FuncDeclaration)
    (h : genobjfile prog gp fuel m mo st = .ok r)
    (hl : Lowered prog (genobjfile_init m st) r.2.2 fds) :
    ∀ x ∈ m.members, ∀ fd, lookupFunc prog x = some fd →
      (mo = false ∨ (fd.isStaticDtorDeclaration || fd.isStaticCtorDeclaration) = true) →
      skipped gp fd st = false → fd ∈ fds := by
  intro x hx fd hfd hmo hs
  obtain ⟨st1, st2, _, _, c1, _, _, h2, c2, _, _⟩ := genobjfile_ok_core prog gp fuel m mo st r h
  unfold skipped at hs
  simp only [Bool.or_eq_false_iff] at hs
  have hg := membersLoop_marks prog gp fuel mo _ _ _ h2 x hx fd hfd hmo
    (by simp [hs.1.1.2, hs.1.2, hs.2])
  rw [← c2.1] at hg
  rcases (hl.2.1 fd.ident).mp hg with hg2 | hg2
  · have : (st.semanticRun fd.ident).geObj = true := hg2
    rw [hs.1.1.1] at this
    cases this
  · obtain ⟨g, hgm, hgi⟩ := List.mem_map.mp hg2
    have h1 := (hl.2.2.1 g hgm).1
    rw [hgi, lookupFunc_ident prog x fd hfd, hfd] at h1
    cases h1
    exact hgm

theorem destruct_driver_of_completed_run (prog : List FuncDeclaration) (gp : Param)
    (fuel : Nat) (m : Module) (mo : Bool) (st : LowerState)
    (r : Module × UnitOutput × LowerState)
    (h : genobjfile prog gp fuel m mo st = .ok r) :
    ∃ fds,
      Lowered prog (genobjfile_init m st) r.2.2 fds ∧
      (∀ x ∈ m.members, ∀ fd, lookupFunc prog x = some fd →
        fd.isStaticDtorDeclaration = true → skipped gp fd st = false → fd ∈ fds) ∧
      (r.2.2.errors = 0 → r.2.1.funcs = fds.map (fun fd => fd.sym)) ∧
      r.2.2.bk.sdtors = ((ordinaryDtors fds).map (fun fd => fd.sym)).reverse ∧
      ∃ d, callFuncsAndGates (some r.2.2.bk.sdtors) none "__moddtor" = .ok d ∧
        driverBody d =
          (((ordinaryDtors fds).map (fun fd => fd.sym)).reverse).map Elem.ucall ∧
        ∀ x, d = some x → r.1.sdtor = some x ∧ x ∈ r.2.1.drivers := by
  obtain ⟨fds, e, drv, hl, hbk, hf, _, hd, hw, hent⟩ :=
    genobjfile_lowers prog gp fuel m mo st r h
  obtain ⟨_, d2, _, _, _, b2, _, _, hx⟩ := registerAll_drivers e fds drv hd
  refine ⟨fds, hl, ?_, hf, ?_, drv.sdtor, ?_, b2, ?_⟩
  · intro x hx fd hfd hk hs
    exact genobjfile_members_lowered prog gp fuel m mo st r fds h hl x hx fd hfd
      (Or.inr (by simp [hk])) hs
  · rw [hbk]
    exact (registerAll_fields fds).2.2.1
  · rw [hbk]
    exact d2
  · intro x hxd
    obtain ⟨m1, m2⟩ := hx x (Or.inr (Or.inl hxd))
    rw [(hent m2).2.1, hw]
    exact ⟨hxd, m1⟩

theorem construct_driver_of_completed_run (prog : List FuncDeclaration) (gp : Param)
    (fuel : Nat) (m : Module) (mo : Bool) (st : LowerState)
    (r : Module × UnitOutput × LowerState)
    (h : genobjfile prog gp fuel m mo st = .ok r) :
    ∃ fds,
      Lowered prog (genobjfile_init m st) r.2.2 fds ∧
      (∀ x ∈ m.members, ∀ fd, lookupFunc prog x = some fd →
        (fd.isStaticDtorDeclaration || fd.isStaticCtorDeclaration) = true →
        skipped gp fd st = false → fd ∈ fds) ∧
      (r.2.2.errors = 0 → r.2.1.funcs = fds.map (fun fd => fd.sym)) ∧
      ∃ d, callFuncsAndGates (some r.2.2.bk.sctors) (some r.2.2.bk.ectorgates)
            "__modctor" = .ok d ∧
        driverBody d =
          ((ordinaryDtors fds).filterMap (fun fd => fd.vgate)).map Elem.gateInc ++
            ((ordinaryCtors fds).map (fun fd => fd.sym)).map Elem.ucall ∧
        (∀ g : VarDeclaration, (driverBody d).count (Elem.gateInc g) =
          ((ordinaryDtors fds).filter (fun fd => fd.vgate == some g)).length) ∧
        ∀ x, d = some x → r.1.sctor = some x ∧ x ∈ r.2.1.drivers := by
  obtain ⟨fds, e, drv, hl, hbk, hf, _, hd, hw, hent⟩ :=
    genobjfile_lowers prog gp fuel m mo st r h
  obtain ⟨d1, _, _, _, b1, _, _, _, hx⟩ := registerAll_drivers e fds drv hd
  refine ⟨fds, hl, ?_, hf, drv.sctor, ?_, b1, ?_, ?_⟩
  · intro x hx fd hfd hk hs
    exact genobjfile_members_lowered prog gp fuel m mo st r fds h hl x hx fd hfd
      (Or.inr hk) hs
  · rw [hbk]
    exact d1
  · intro g
    rw [b1, List.count_append, count_gateInc_map_ucall, count_gateInc_filterMap]
    rfl
  · intro x hxd
    obtain ⟨m1, m2⟩ := hx x (Or.inl hxd)
    rw [(hent m2).1, hw]
    exact ⟨hxd, m1⟩

theorem lowered_fields (prog : List FuncDeclaration) (a b : LowerState)
    (fds : List FuncDeclaration) (h : Lowered prog a b fds) :
    b.bk.sctors = a.bk.sctors ++ (ordinaryCtors fds).map (fun fd => fd.sym) ∧
    b.bk.ectorgates = a.bk.ectorgates ++ (ordinaryDtors fds).filter (fun fd => fd.vgate.isSome) ∧
    b.bk.sdtors = ((ordinaryDtors fds).map (fun fd => fd.sym)).reverse ++ a.bk.sdtors ∧
    b.bk.ssharedctors = a.bk.ssharedctors ++ (sharedCtors fds).map (fun fd => fd.sym) ∧
    b.bk.esharedctorgates =
      a.bk.esharedctorgates ++ (sharedDtors fds).filter (fun fd => fd.vgate.isSome) ∧
    b.bk.sshareddtors = ((sharedDtors fds).map (fun fd => fd.sym)).reverse ++ a.bk.sshareddtors ∧
    b.bk.stests = a.bk.stests ++ (unitTests fds).map (fun fd => fd.sym) := by
  rw [h.1]
  exact ⟨foldl_register_sctors fds a.bk, foldl_register_ectorgates fds a.bk,
    foldl_register_sdtors fds a.bk, foldl_register_ssharedctors fds a.bk,
    foldl_register_esharedctorgates fds a.bk, foldl_register_sshareddtors fds a.bk,
    foldl_register_stests fds a.bk⟩

theorem mem_le_sum (l : List Nat) (x : Nat) (h : x ∈ l) : x ≤ l.sum := by
  induction l with
  | nil => cases h
  | cons y ys ih =>
    rcases List.mem_cons.mp h with h | h
    · subst h
      simp
    · have := ih h
      simp only [List.sum_cons]
      omega

theorem within_fuelBound (prog : List FuncDeclaration) (st : LowerState) :
    Within prog st (fuelBound prog st - 1) := by
  intro fd hfd
  have : (st.deferred fd.ident).length ≤
      (prog.map (fun fd => (st.deferred fd.ident).length)).sum :=
    mem_le_sum _ _ (List.mem_map.mpr ⟨fd, hfd, rfl⟩)
  unfold fuelBound
  omega

theorem within_mono (prog : List FuncDeclaration) (st : LowerState) (B B2 : Nat)
    (h : Within prog st B) (hb : B ≤ B2) : Within prog st B2 :=
  fun fd hfd => Nat.le_trans (h fd hfd) hb

theorem within_congr (prog : List FuncDeclaration) (a b : LowerState) (B : Nat)
    (h : Within prog a B) (h1 : b.semanticRun = a.semanticRun) (h2 : b.deferred = a.deferred) :
    Within prog b B := by
  intro fd hfd
  have := h fd hfd
  unfold potential unlowered at *
  rw [h1, h2]
  exact this

theorem lookupFunc_mem (prog : List FuncDeclaration) (id : Nat) (fd : FuncDeclaration)
    (h : lookupFunc prog id = some fd) : fd ∈ prog :=
  List.mem_of_find?_eq_some h

theorem filter_weight_drop (w : FuncDeclaration → Nat) (p q : FuncDeclaration → Bool)
    (hq : ∀ g, q g = true → p g = true) (l : List FuncDeclaration) :
    ((l.filter q).map w).sum ≤ ((l.filter p).map w).sum ∧
    ∀ fd ∈ l, p fd = true → q fd = false →
      ((l.filter q).map w).sum + w fd ≤ ((l.filter p).map w).sum := by
  induction l with
  | nil => exact ⟨Nat.le_refl _, fun fd h => by cases h⟩
  | cons g rest ih =>
    obtain ⟨i1, i2⟩ := ih
    have hstep : ((List.filter q (g :: rest)).map w).sum ≤
        ((List.filter p (g :: rest)).map w).sum := by
      simp only [List.filter_cons]
      cases hqg : q g with
      | true =>
        rw [hq g hqg]
        simp only [if_true, List.map_cons, List.sum_cons]
        omega
      | false =>
        cases hpg : p g with
        | true =>
          simp only [if_true, Bool.false_eq_true, if_false, List.map_cons, List.sum_cons]
          omega
        | false =>
          simp only [Bool.false_eq_true, if_false]
          exact i1
    refine ⟨hstep, ?_⟩
    intro fd hfd hp hqf
    rcases List.mem_cons.mp hfd with hfd | hfd
    · subst hfd
      simp only [List.filter_cons, hp, hqf, if_true, Bool.false_eq_true, if_false,
        List.map_cons, List.sum_cons]
      omega
    · have := i2 fd hfd hp hqf
      simp only [List.filter_cons]
      cases hqg : q g with
      | true =>
        rw [hq g hqg]
        simp only [if_true, List.map_cons, List.sum_cons]
        omega
      | false =>
        cases hpg : p g with
        | true =>
          simp only [if_true, Bool.false_eq_true, if_false, List.map_cons, List.sum_cons]
          omega
        | false =>
          simp only [Bool.false_eq_true, if_false]
          exact this

theorem potential_setObj (prog : List FuncDeclaration) (st : LowerState)
    (fd : FuncDeclaration) (hfd : fd ∈ prog) (hge : (st.semanticRun fd.ident).geObj = false) :
    potential prog (st.setSemanticRun fd.ident .PASSobj) + (fd.bodyDefers.length + 1) ≤
      potential prog st := by
  unfold potential unlowered
  refine (filter_weight_drop (fun g => g.bodyDefers.length + 1)
    (fun g => !(st.semanticRun g.ident).geObj)
    (fun g => !((st.setSemanticRun fd.ident .PASSobj).semanticRun g.ident).geObj) ?_ prog).2
    fd hfd (by simp [hge]) (by simp [LowerState.setSemanticRun, PASS.geObj, PASS.toNat])
  intro g hg
  simp only [LowerState.setSemanticRun] at hg
  by_cases hk : g.ident = fd.ident
  · simp [hk, PASS.geObj, PASS.toNat] at hg
  · simpa [hk] using hg

theorem within_setObj (prog : List FuncDeclaration) (st : LowerState) (B : Nat)
    (fd : FuncDeclaration) (hfd : fd ∈ prog) (hge : (st.semanticRun fd.ident).geObj = false)
    (h : Within prog st B) :
    fd.bodyDefers.length + 1 ≤ B ∧
    Within prog (st.setSemanticRun fd.ident .PASSobj) (B - (fd.bodyDefers.length + 1)) := by
  have hp := potential_setObj prog st fd hfd hge
  have h0 := h fd hfd
  refine ⟨by omega, ?_⟩
  intro g hg
  have := h g hg
  show (st.deferred g.ident).length + _ ≤ _
  omega

theorem within_pushDeferred (prog : List FuncDeclaration) (st : LowerState) (B : Nat)
    (fdp s : Nat) (h : Within prog st B) : Within prog (st.pushDeferred fdp s) (B + 1) := by
  intro g hg
  have := h g hg
  have hp : potential prog (st.pushDeferred fdp s) = potential prog st := rfl
  rw [hp]
  simp only [LowerState.pushDeferred]
  split
  · simp only [push, List.length_append, List.length_singleton]
    omega
  · omega

theorem within_startup (prog : List FuncDeclaration) (gp : Param) (fd : FuncDeclaration)
    (st : LowerState) (B : Nat) (h : Within prog st B) :
    Within prog (toObjFile_startup gp fd st) B := by
  have hs := startup_rel
    (fun a b => b.semanticRun = a.semanticRun ∧ b.deferred = a.deferred)
    (fun _ => ⟨rfl, rfl⟩)
    (fun a b c h1 h2 => ⟨h2.1.trans h1.1, h2.2.trans h1.2⟩)
    (fun gp st => by
      unfold onlyOneMain error
      split <;> exact ⟨rfl, rfl⟩)
    (fun _ _ => ⟨rfl, rfl⟩) (fun _ _ => ⟨rfl, rfl⟩) gp fd st
  exact within_congr prog _ _ B h hs.1 hs.2

theorem ends_enclosing (self : ToObjFile) (prog : List FuncDeclaration) (F : Nat)
    (hself : SelfEnds prog F self) (mo : Bool) (fd : FuncDeclaration) (st : LowerState)
    (B : Nat) (hB : B + 1 ≤ F) (h : Within prog st B) :
    Ends prog B (toObjFile_enclosing self prog mo fd st) := by
  unfold toObjFile_enclosing
  split
  · exact h
  · split
    · exact hself B hB _ _ _ h
    · exact h

theorem ends_deferToObjLoop (self : ToObjFile) (prog : List FuncDeclaration) (F : Nat)
    (hself : SelfEnds prog F self) (l : List Nat) (st : LowerState) (B : Nat)
    (hB : B + l.length + 1 ≤ F) (h : Within prog st B) :
    Ends prog (B + l.length) (deferToObjLoop self prog l st) := by
  induction l generalizing st B with
  | nil =>
    simp only [deferToObjLoop]
    exact h
  | cons s rest ih =>
    simp only [List.length_cons] at hB ⊢
    rw [deferToObjLoop]
    split
    · rename_i fdp _
      have := ih (st.pushDeferred fdp s) (B + 1) (by omega)
        (within_pushDeferred prog st B fdp s h)
      rw [show B + (rest.length + 1) = B + 1 + rest.length by omega]
      exact this
    · have hc := hself B (by omega) false s st h
      cases hs : self false s st with
      | error f =>
        rw [hs] at hc
        exact hc
      | ok st1 =>
        rw [hs] at hc
        have := ih st1 (B + 1) (by omega) (within_mono prog st1 B (B + 1) hc (by omega))
        rw [show B + (rest.length + 1) = B + 1 + rest.length by omega]
        exact this

theorem ends_deferredLoop (self : ToObjFile) (prog : List FuncDeclaration) (F : Nat)
    (hself : SelfEnds prog F self) (fd0 : FuncDeclaration) (hfd0 : fd0 ∈ prog)
    (n i : Nat) (st : LowerState) (B : Nat) (hB : B + 1 ≤ F) (hn : B + 1 ≤ n + i)
    (h : Within prog st B) :
    Ends prog B (deferredLoop self fd0.ident n i st) := by
  induction n generalizing i st with
  | zero =>
    rw [deferredLoop]
    cases hq : (st.deferred fd0.ident)[i]? with
    | none => exact h
    | some x =>
      exfalso
      have hlen := (List.getElem?_eq_some_iff.mp hq).1
      have := h fd0 hfd0
      omega
  | succ m ih =>
    rw [deferredLoop]
    cases hq : (st.deferred fd0.ident)[i]? with
    | none => exact h
    | some x =>
      simp only []
      have hc := hself B hB false x st h
      cases hs : self false x st with
      | error f =>
        rw [hs] at hc
        exact hc
      | ok st1 =>
        rw [hs] at hc
        exact ih (i + 1) st1 (by omega) hc

theorem fillLoop_error (vs : List VarDeclaration) (params : List Symbol) (st : SymState)
    (f : Fault) (h : fillLoop vs params st = .error f) : f = .assertFailed := by
  induction vs generalizing params st with
  | nil => simp [fillLoop] at h
  | cons v rest ih =>
    rw [fillLoop] at h
    split at h
    · cases h; rfl
    · exact ih _ _ h

theorem toObjFile_params_error (gp : Param) (fd : FuncDeclaration) (st : SymState)
    (f : Fault) (h : toObjFile_params gp fd st = .error f) : f = .assertFailed := by
  unfold toObjFile_params at h
  split at h
  · rename_i g hg
    cases h
    unfold paramsBeforeSwap at hg
    simp only [] at hg
    split at hg
    · rename_i g2 hg2
      cases hg
      unfold makeSthis at hg2
      split at hg2
      · cases hg2
      · split at hg2
        · cases hg2; rfl
        · cases hg2
    · split at hg
      · rename_i g3 hg3
        cases hg
        unfold fillParams at hg3
        simp only [] at hg3
        split at hg3
        · exact fillLoop_error _ _ _ _ hg3
        · cases hg3
      · cases hg
  · split at h <;> cases h

theorem ends_emit (self : ToObjFile) (prog : List FuncDeclaration) (gp : Param) (F : Nat)
    (hself : SelfEnds prog F self) (fd : FuncDeclaration) (hfd : fd ∈ prog)
    (st : LowerState) (B : Nat) (hB : B + fd.bodyDefers.length + 1 ≤ F)
    (h : Within prog st B) :
    Ends prog (B + fd.bodyDefers.length) (toObjFile_emit self prog gp F fd st) := by
  unfold toObjFile_emit
  cases hp : toObjFile_params gp fd st.syms with
  | error f =>
    simp only []
    exact toObjFile_params_error gp fd _ f hp
  | ok pl =>
    simp only []
    split
    · rfl
    · split
      · exact within_mono prog _ B _ (within_congr prog st _ B h rfl rfl) (by omega)
      · have hw : Within prog
            (if fd.isExport = true then
              { ({ ({ st with syms := pl.st, bk := toObjFile_register fd st.bk } : LowerState)
                    with written := push st.written fd.sym } : LowerState) with
                exported := push st.exported fd.sym }
            else { ({ st with syms := pl.st, bk := toObjFile_register fd st.bk } : LowerState)
                    with written := push st.written fd.sym }) B := by
          split
          · exact within_congr prog st _ B h rfl rfl
          · exact within_congr prog st _ B h rfl rfl
        have hd := ends_deferToObjLoop self prog F hself fd.bodyDefers _ B hB hw
        revert hd
        generalize deferToObjLoop self prog fd.bodyDefers _ = rd
        intro hd
        cases rd with
        | error f => exact hd
        | ok st4 =>
          simp only []
          exact ends_deferredLoop self prog F hself fd hfd F 0 st4 _ hB (by omega) hd

theorem ends_body (self : ToObjFile) (prog : List FuncDeclaration) (gp : Param) (F : Nat)
    (hself : SelfEnds prog F self) (mo : Bool) (fd : FuncDeclaration)
    (hfd : fd ∈ prog) (st : LowerState) (B : Nat) (hB : B ≤ F) (h : Within prog st B) :
    Ends prog B (toObjFile_body self prog gp F mo fd st) := by
  cases hs : skipped gp fd st with
  | true =>
    rw [body_skipped self prog gp F mo fd st hs]
    exact h
  | false =>
    rw [body_not_skipped self prog gp F mo fd st hs]
    split
    · exact within_congr prog st _ B h rfl rfl
    · split
      · rfl
      · have hge : (st.semanticRun fd.ident).geObj = false := by
          unfold skipped at hs
          simp only [Bool.or_eq_false_iff] at hs
          exact hs.1.1.1
        obtain ⟨hb1, hw1⟩ := within_setObj prog st B fd hfd hge h
        have hpre : Ends prog (B - (fd.bodyDefers.length + 1))
            (if fd.isNested = true then
              toObjFile_enclosing self prog mo fd (st.setSemanticRun fd.ident .PASSobj)
            else .ok (toObjFile_startup gp fd (st.setSemanticRun fd.ident .PASSobj))) := by
          split
          · exact ends_enclosing self prog F hself mo fd _ _ (by omega) hw1
          · exact within_startup prog gp fd _ _ hw1
        revert hpre
        generalize (if fd.isNested = true then
              toObjFile_enclosing self prog mo fd (st.setSemanticRun fd.ident .PASSobj)
            else .ok (toObjFile_startup gp fd (st.setSemanticRun fd.ident .PASSobj))) = rp
        intro hpre
        cases rp with
        | error f => exact hpre
        | ok st3 =>
          simp only []
          have he := ends_emit self prog gp F hself fd hfd st3 _ (by omega) hpre
          revert he
          generalize toObjFile_emit self prog gp F fd st3 = re
          intro he
          cases re with
          | error f => exact he
          | ok st2 => exact within_mono prog st2 _ B he (by omega)

theorem toObjFile_ends (prog : List FuncDeclaration) (gp : Param) (F : Nat) :
    SelfEnds prog F (toObjFile prog gp F) := by
  induction F with
  | zero =>
    intro B hB
    omega
  | succ n ih =>
    intro B hB mo id st h
    rw [toObjFile]
    cases hl : lookupFunc prog id with
    | none => exact h
    | some fd =>
      simp only []
      exact ends_body _ prog gp n ih mo fd (lookupFunc_mem prog id fd hl) st B (by omega) h

/-- With fuel of at least `fuelBound`, `toObjFile` does not stop for lack of
fuel: it returns, or it stops on a failed assertion of the source. -/
theorem toObjFile_terminates (prog : List FuncDeclaration) (gp : Param) (fuel : Nat)
    (mo : Bool) (id : Nat) (st : LowerState) (hf : fuelBound prog st ≤ fuel) :
    toObjFile prog gp fuel mo id st = .error .assertFailed ∨
    ∃ st2, toObjFile prog gp fuel mo id st = .ok st2 := by
  have h := toObjFile_ends prog gp fuel (fuelBound prog st - 1)
    (by unfold fuelBound at *; omega) mo id st (within_fuelBound prog st)
  cases hr : toObjFile prog gp fuel mo id st with
  | error f =>
    rw [hr] at h
    left
    exact congrArg _ h
  | ok st2 => exact Or.inr ⟨st2, rfl⟩

theorem membersLoop_ends (prog : List FuncDeclaration) (gp : Param) (F : Nat) (mo : Bool)
    (l : List Nat) (st : LowerState) (B : Nat) (hB : B + 1 ≤ F) (h : Within prog st B) :
    Ends prog B (membersLoop (toObjFile prog gp F) mo l st) := by
  induction l generalizing st with
  | nil => exact h
  | cons x rest ih =>
    rw [membersLoop]
    have hc := toObjFile_ends prog gp F B hB mo x st h
    cases hx : toObjFile prog gp F mo x st with
    | error f =>
      rw [hx] at hc
      exact hc
    | ok st1 =>
      rw [hx] at hc
      exact ih st1 hc

theorem genobjfile_reference_error (m : Module) (f : Fault)
    (h : genobjfile_reference m = .error f) : f = .assertFailed := by
  unfold genobjfile_reference at h
  split at h
  · split at h
    · cases h; rfl
    · split at h
      · split at h <;> cases h
      · cases h
  · cases h

theorem genobjfile_ends (prog : List FuncDeclaration) (gp : Param) (fuel : Nat) (m : Module)
    (mo : Bool) (st : LowerState) (B : Nat) (hB : B + 1 ≤ fuel) (h : Within prog st B) :
    genobjfile prog gp fuel m mo st = .error .assertFailed ∨
    ∃ r, genobjfile prog gp fuel m mo st = .ok r ∧ Within prog r.2.2 B := by
  have hc := genobjfile_cov_core gp m (genobjfile_init m st)
  have hcf := genobjfile_cov_fields gp m (genobjfile_init m st)
  have hw1 : Within prog (genobjfile_cov gp m (genobjfile_init m st)).2.2 B :=
    within_congr prog st _ B h hc.1 hc.2.1
  have hm := membersLoop_ends prog gp fuel mo
    (genobjfile_cov gp m (genobjfile_init m st)).1.members _ B hB hw1
  cases hr : genobjfile prog gp fuel m mo st with
  | error f =>
    left
    unfold genobjfile at hr
    split at hr
    · rename_i f2 hf
      cases hr
      rw [genobjfile_reference_error m _ hf]
    · simp only [] at hr
      split at hr
      · rename_i f2 hf
        cases hr
        rw [hf] at hm
        exact congrArg _ hm
      · rename_i st2 h2
        exfalso
        obtain ⟨fds, hl⟩ := membersLoop_lowers prog gp fuel mo _ _ _ h2
        have hbk : st2.bk = registerAll fds := by
          rw [hl.1, hcf.2.2.2.2.2.2]
          rfl
        have b := genobjfile_bcov_fields gp (genobjfile_cov gp m (genobjfile_init m st)).1 st2
        obtain ⟨w1, w2⟩ := registerAll_gates_wf fds
        obtain ⟨_, _, _, _, _, _, _, _, _, _, hd⟩ := genobjfile_drivers_ok
          (genobjfile_bcov gp (genobjfile_cov gp m (genobjfile_init m st)).1 st2).2.1
          (registerAll fds) w1 w2
        rw [b.2.2.2.1, hbk, hd] at hr
        cases hr
  | ok r =>
    right
    refine ⟨r, rfl, ?_⟩
    obtain ⟨refs, st2, drv, _, h2, _, hr2⟩ := genobjfile_ok prog gp fuel m mo st r hr
    rw [h2] at hm
    have bc := genobjfile_bcov_core gp (genobjfile_cov gp m (genobjfile_init m st)).1 st2
    have ec := genobjfile_exit_core gp m st refs
      (genobjfile_cov gp m (genobjfile_init m st)) st2
      (genobjfile_bcov gp (genobjfile_cov gp m (genobjfile_init m st)).1 st2) drv
    rw [← hr2] at ec
    exact within_congr prog st2 _ B hm (ec.1.1.trans bc.1) (ec.1.2.1.trans bc.2.1)

theorem obj_write_deferred_step_ends (prog : List FuncDeclaration) (gp : Param) (fuel : Nat)
    (getModule : Nat → Option Module) (toChars : Nat → List Nat)
    (removeExt : String → String) (s : Nat) (st : LowerState) (B : Nat)
    (hB : B + 1 ≤ fuel) (h : Within prog st B) :
    obj_write_deferred_step prog gp fuel getModule toChars removeExt s st =
      .error .assertFailed ∨
    ∃ r, obj_write_deferred_step prog gp fuel getModule toChars removeExt s st = .ok r ∧
      Within prog r.2 B ∧ r.2.obj_symbols_towrite = st.obj_symbols_towrite := by
  cases hr : obj_write_deferred_step prog gp fuel getModule toChars removeExt s st with
  | ok r =>
    right
    refine ⟨r, rfl, ?_, ?_⟩
    · obtain ⟨mname, _, md2, _, _, _, _, _, _, _, hg, _, _⟩ :=
        obj_write_deferred_step_spec prog gp fuel getModule toChars removeExt s st r hr
      have hw : Within prog { st with lastmname := some mname, count := st.count + 1 } B :=
        within_congr prog st _ B h rfl rfl
      rcases genobjfile_ends prog gp fuel r.1.md false _ B hB hw with g | ⟨r2, g1, g2⟩
      · rw [hg] at g
        cases g
      · rw [hg] at g1
        cases g1
        exact g2
    · obtain ⟨_, _, _, _, _, _, _, _, _, _, _, _, hq⟩ :=
        obj_write_deferred_step_spec prog gp fuel getModule toChars removeExt s st r hr
      exact hq
  | error f =>
    left
    unfold obj_write_deferred_step at hr
    simp only [] at hr
    split at hr
    · cases hr; rfl
    · rename_i mname hm
      have hw : Within prog { st with lastmname := some mname, count := st.count + 1 } B :=
        within_congr prog st _ B h rfl rfl
      split at hr
      · rename_i f2 hf
        cases hr
        rcases genobjfile_ends prog gp fuel _ false _ B hB hw with g | ⟨r2, g1, _⟩
        · rw [hf] at g
          cases g
          rfl
        · rw [hf] at g1
          cases g1
      · cases hr

theorem obj_write_deferred_loop_ends
    (step : Nat → LowerState → Except Fault (Shadow × LowerState))
    (P : LowerState → Prop)
    (hstep : ∀ s st, P st → step s st = .error .assertFailed ∨
      ∃ r, step s st = .ok r ∧ P r.2 ∧ r.2.obj_symbols_towrite = st.obj_symbols_towrite)
    (n i : Nat) (st : LowerState) (acc : List Shadow)
    (hn : st.obj_symbols_towrite.length ≤ n + i) (hP : P st) :
    obj_write_deferred_loop step n i st acc = .error .assertFailed ∨
    ∃ r, obj_write_deferred_loop step n i st acc = .ok r := by
  induction n generalizing i st acc with
  | zero =>
    rw [obj_write_deferred_loop]
    cases hq : st.obj_symbols_towrite[i]? with
    | none => exact Or.inr ⟨_, rfl⟩
    | some s =>
      exfalso
      have := (List.getElem?_eq_some_iff.mp hq).1
      omega
  | succ k ih =>
    rw [obj_write_deferred_loop]
    cases hq : st.obj_symbols_towrite[i]? with
    | none => exact Or.inr ⟨_, rfl⟩
    | some s =>
      simp only []
      rcases hstep s st hP with hs | ⟨r, hs, p1, p2⟩
      · rw [hs]
        exact Or.inl rfl
      · rw [hs]
        exact ih (i + 1) r.2 _ (by rw [p2]; omega) p1

/-- With fuel of at least `fuelBound`, `Module::genobjfile` does not stop for
lack of fuel: it returns, or it stops on a failed assertion of the source. -/
theorem genobjfile_terminates (prog : List FuncDeclaration) (gp : Param) (fuel : Nat)
    (m : Module) (mo : Bool) (st : LowerState) (hf : fuelBound prog st ≤ fuel) :
    genobjfile prog gp fuel m mo st = .error .assertFailed ∨
    ∃ r, genobjfile prog gp fuel m mo st = .ok r := by
  rcases genobjfile_ends prog gp fuel m mo st (fuelBound prog st - 1)
    (by unfold fuelBound at *; omega) (within_fuelBound prog st) with g | ⟨r, g, _⟩
  · exact Or.inl g
  · exact Or.inr ⟨r, g⟩

/-- With fuel of at least `fuelBound` and a loop bound of at least the length
of the queue, `obj_write_deferred` does not stop for lack of fuel: it returns,
or it stops on a failed assertion of the source. -/
theorem obj_write_deferred_terminates (prog : List FuncDeclaration) (gp : Param) (fuel : Nat)
    (getModule : Nat → Option Module) (toChars : Nat → List Nat)
    (removeExt : String → String) (n : Nat) (st : LowerState)
    (hf : fuelBound prog st ≤ fuel) (hn : st.obj_symbols_towrite.length ≤ n) :
    obj_write_deferred prog gp fuel getModule toChars removeExt n st = .error .assertFailed ∨
    ∃ r, obj_write_deferred prog gp fuel getModule toChars removeExt n st = .ok r := by
  have hl := obj_write_deferred_loop_ends
    (obj_write_deferred_step prog gp fuel getModule toChars removeExt)
    (fun s => Within prog s (fuelBound prog st - 1))
    (fun s st0 hP => obj_write_deferred_step_ends prog gp fuel getModule toChars removeExt s
        st0 (fuelBound prog st - 1) (by unfold fuelBound at *; omega) hP)
    n 0 st [] (by omega) (within_fuelBound prog st)
  unfold obj_write_deferred
  rcases hl with hl | ⟨r, hl⟩
  · rw [hl]
    exact Or.inl rfl
  · rw [hl]
    exact Or.inr ⟨_, rfl⟩

theorem static_init_lowered (prog : List FuncDeclaration) (gp : Param) (fuel : Nat)
    (mo : Bool) (id : Nat) (fd : FuncDeclaration) (st st2 : LowerState)
    (hfd : lookupFunc prog id = some fd)
    (hk : (fd.isStaticDtorDeclaration || fd.isStaticCtorDeclaration) = true)
    (hs : skipped gp fd st = false)
    (h : toObjFile prog gp fuel mo id st = .ok st2) :
    ∃ f1 f2, Lowered prog st st2 (f1 ++ fd :: f2) ∧
      st2.bk = f2.foldl (fun bk g => toObjFile_register g bk)
        (toObjFile_register fd (f1.foldl (fun bk g => toObjFile_register g bk) st.bk)) := by
  cases fuel with
  | zero => simp [toObjFile] at h
  | succ n =>
    rw [toObjFile, hfd] at h
    simp only [] at h
    have hid := lookupFunc_ident prog id fd hfd
    rcases lowered_body _ prog (toObjFile_lowers prog gp n) gp n mo fd st st2
        (by rw [hid]; exact hfd) h with ⟨s1, _⟩ | ⟨_, q, _⟩ | ⟨_, _, f1, f2, hl⟩
    · rw [hs] at s1
      cases s1
    · exfalso
      simp only [Bool.and_eq_true, Bool.not_eq_true', Bool.or_eq_true] at q hk
      rcases hk with hk | hk
      · rw [hk] at q; cases q.1.2
      · rw [hk] at q; cases q.2
    · refine ⟨f1, f2, hl, ?_⟩
      rw [hl.1, List.foldl_append]
      rfl

theorem shared_drivers_of_completed_run (prog : List FuncDeclaration) (gp : Param)
    (fuel : Nat) (m : Module) (mo : Bool) (st : LowerState)
    (r : Module × UnitOutput × LowerState)
    (h : genobjfile prog gp fuel m mo st = .ok r) :
    ∃ fds, Lowered prog (genobjfile_init m st) r.2.2 fds ∧
      (∀ x ∈ m.members, ∀ fd, lookupFunc prog x = some fd →
        (fd.isStaticDtorDeclaration || fd.isStaticCtorDeclaration) = true →
        skipped gp fd st = false → fd ∈ fds) ∧
      ∃ c d sc sd,
        callFuncsAndGates (some r.2.2.bk.sctors) (some r.2.2.bk.ectorgates)
          "__modctor" = .ok c ∧
        callFuncsAndGates (some r.2.2.bk.sdtors) none "__moddtor" = .ok d ∧
        callFuncsAndGates (some r.2.2.bk.ssharedctors) (some r.2.2.bk.esharedctorgates)
          "__modsharedctor" = .ok sc ∧
        callFuncsAndGates (some r.2.2.bk.sshareddtors) none "__modshareddtor" = .ok sd ∧
        driverBody sc =
          ((sharedDtors fds).filterMap (fun fd => fd.vgate)).map Elem.gateInc ++
            ((sharedCtors fds).map (fun fd => fd.sym)).map Elem.ucall ∧
        driverBody sd =
          (((sharedDtors fds).map (fun fd => fd.sym)).reverse).map Elem.ucall ∧
        driverBody c =
          ((ordinaryDtors fds).filterMap (fun fd => fd.vgate)).map Elem.gateInc ++
            ((ordinaryCtors fds).map (fun fd => fd.sym)).map Elem.ucall ∧
        driverBody d =
          (((ordinaryDtors fds).map (fun fd => fd.sym)).reverse).map Elem.ucall ∧
        (∀ x, sc = some x → r.1.ssharedctor = some x ∧ x ∈ r.2.1.drivers) ∧
        (∀ x, sd = some x → r.1.sshareddtor = some x ∧ x ∈ r.2.1.drivers) := by
  obtain ⟨fds, e, drv, hl, hbk, hf, _, hd, hw, hent⟩ :=
    genobjfile_lowers prog gp fuel m mo st r h
  obtain ⟨d1, d2, d3, d4, b1, b2, b3, b4, hx⟩ := registerAll_drivers e fds drv hd
  refine ⟨fds, hl, ?_, drv.sctor, drv.sdtor, drv.ssharedctor, drv.sshareddtor, ?_, ?_, ?_,
    ?_, b3, b4, b1, b2, ?_, ?_⟩
  · intro x hx fd hfd hk hs
    exact genobjfile_members_lowered prog gp fuel m mo st r fds h hl x hx fd hfd
      (Or.inr hk) hs
  · rw [hbk]; exact d1
  · rw [hbk]; exact d2
  · rw [hbk]; exact d3
  · rw [hbk]; exact d4
  · intro x hxd
    obtain ⟨m1, m2⟩ := hx x (Or.inr (Or.inr (Or.inl hxd)))
    rw [(hent m2).2.2.1, hw]
    exact ⟨hxd, m1⟩
  · intro x hxd
    obtain ⟨m1, m2⟩ := hx x (Or.inr (Or.inr (Or.inr hxd)))
    rw [(hent m2).2.2.2.1, hw]
    exact ⟨hxd, m1⟩

/-- C1: a run of `Module::genobjfile` with enough fuel in which no assertion of
the source fails returns; let `fds` be the routines lowered by
`FuncDeclaration::toObjFile` in it, in the order in which they were registered
(with no error reported, the order in which `writefunc` wrote them); every
member that is a static destructor and is not skipped is among them.  Then
`sdtors` holds the symbols of the ordinary static destructors among `fds` in
reverse order, and the destruct driver built by
`callFuncsAndGates(&sdtors, NULL, "__moddtor")` calls them in exactly that
reversed order, whatever else was lowered, and in whatever order; when there is
such a driver it is the module's `sdtor` and is among the drivers written. -/
theorem C1_destruct_driver_reverse_registration (prog : List FuncDeclaration) (gp : Param)
    (fuel : Nat) (m : Module) (mo : Bool) (st : LowerState)
    (hf : fuelBound prog st ≤ fuel)
    (hnf : genobjfile prog gp fuel m mo st ≠ .error .assertFailed) :
    ∃ r fds,
      genobjfile prog gp fuel m mo st = .ok r ∧
      Lowered prog (genobjfile_init m st) r.2.2 fds ∧
      (∀ x ∈ m.members, ∀ fd, lookupFunc prog x = some fd →
        fd.isStaticDtorDeclaration = true → skipped gp fd st = false → fd ∈ fds) ∧
      (r.2.2.errors = 0 → r.2.1.funcs = fds.map (fun fd => fd.sym)) ∧
      r.2.2.bk.sdtors = ((ordinaryDtors fds).map (fun fd => fd.sym)).reverse ∧
      ∃ d, callFuncsAndGates (some r.2.2.bk.sdtors) none "__moddtor" = .ok d ∧
        driverBody d =
          (((ordinaryDtors fds).map (fun fd => fd.sym)).reverse).map Elem.ucall ∧
        ∀ x, d = some x → r.1.sdtor = some x ∧ x ∈ r.2.1.drivers := by
  rcases genobjfile_terminates prog gp fuel m mo st hf with g | ⟨r, g⟩
  · exact absurd g hnf
  · obtain ⟨fds, k⟩ := destruct_driver_of_completed_run prog gp fuel m mo st r g
    exact ⟨r, fds, g, k⟩

/-- Witness for C1: the unit of the spec's scenario (constructors 101, 102,
then destructors 103 and 104): `sdtors` is `[104, 103]` and `__moddtor` calls
104, then 103. -/
theorem C1_destruct_driver_reverse_registration_witness :
    observeRun (genobjfile scenarioM {} 5 exScenarioUnit false {}) =
      .ok ([101, 102, 103, 104], [101, 102], [104, 103],
        [.gateInc ⟨7⟩, .ucall 101, .ucall 102], [.ucall 104, .ucall 103]) ∧
    ∃ r fds,
      genobjfile scenarioM {} 5 exScenarioUnit false {} = .ok r ∧
      Lowered scenarioM (genobjfile_init exScenarioUnit {}) r.2.2 fds ∧
      (∀ x ∈ exScenarioUnit.members, ∀ fd, lookupFunc scenarioM x = some fd →
        fd.isStaticDtorDeclaration = true → skipped {} fd {} = false → fd ∈ fds) ∧
      (r.2.2.errors = 0 → r.2.1.funcs = fds.map (fun fd => fd.sym)) ∧
      r.2.2.bk.sdtors = ((ordinaryDtors fds).map (fun fd => fd.sym)).reverse ∧
      ∃ d, callFuncsAndGates (some r.2.2.bk.sdtors) none "__moddtor" = .ok d ∧
        driverBody d =
          (((ordinaryDtors fds).map (fun fd => fd.sym)).reverse).map Elem.ucall ∧
        ∀ x, d = some x → r.1.sdtor = some x ∧ x ∈ r.2.1.drivers :=
  ⟨rfl, C1_destruct_driver_reverse_registration scenarioM {} 5 exScenarioUnit false {}
    (by decide)
    (fun h => by
      have e : (genobjfile scenarioM {} 5 exScenarioUnit false {}).isOk = true := rfl
      rw [h] at e
      cases e)⟩

/-- C2: a run of `Module::genobjfile` with enough fuel in which no assertion of
the source fails returns; let `fds` be the routines lowered by
`FuncDeclaration::toObjFile` in it, in the order in which they were registered;
every member that is a static constructor or destructor and is not skipped is
among them.  The construct driver `__modctor` is built without fault, and its
body is exactly one gate increment per gated ordinary destructor among `fds`,
in the order those destructors were registered, followed by one call per
ordinary constructor in registration order; so the number of increments of a
gate equals the number of registered destructors carrying that gate (one
each), destructors without a gate add none, and all increments come before all
constructor calls.  When there is such a driver it is the module's `sctor` and
is among the drivers written. -/
theorem C2_construct_driver_gates_then_ctors (prog : List FuncDeclaration) (gp : Param)
    (fuel : Nat) (m : Module) (mo : Bool) (st : LowerState)
    (hf : fuelBound prog st ≤ fuel)
    (hnf : genobjfile prog gp fuel m mo st ≠ .error .assertFailed) :
    ∃ r fds,
      genobjfile prog gp fuel m mo st = .ok r ∧
      Lowered prog (genobjfile_init m st) r.2.2 fds ∧
      (∀ x ∈ m.members, ∀ fd, lookupFunc prog x = some fd →
        (fd.isStaticDtorDeclaration || fd.isStaticCtorDeclaration) = true →
        skipped gp fd st = false → fd ∈ fds) ∧
      (r.2.2.errors = 0 → r.2.1.funcs = fds.map (fun fd => fd.sym)) ∧
      ∃ d, callFuncsAndGates (some r.2.2.bk.sctors) (some r.2.2.bk.ectorgates)
            "__modctor" = .ok d ∧
        driverBody d =
          ((ordinaryDtors fds).filterMap (fun fd => fd.vgate)).map Elem.gateInc ++
            ((ordinaryCtors fds).map (fun fd => fd.sym)).map Elem.ucall ∧
        (∀ g : VarDeclaration, (driverBody d).count (Elem.gateInc g) =
          ((ordinaryDtors fds).filter (fun fd => fd.vgate == some g)).length) ∧
        ∀ x, d = some x → r.1.sctor = some x ∧ x ∈ r.2.1.drivers := by
  rcases genobjfile_terminates prog gp fuel m mo st hf with g | ⟨r, g⟩
  · exact absurd g hnf
  · obtain ⟨fds, k⟩ := construct_driver_of_completed_run prog gp fuel m mo st r g
    exact ⟨r, fds, g, k⟩

/-- Witness for C2: the unit of the spec's scenario: `__modctor` increments the
gate of destructor 103 and then calls the constructors 101 and 102. -/
theorem C2_construct_driver_gates_then_ctors_witness :
    observeRun (genobjfile scenarioM {} 5 exScenarioUnit false {}) =
      .ok ([101, 102, 103, 104], [101, 102], [104, 103],
        [.gateInc ⟨7⟩, .ucall 101, .ucall 102], [.ucall 104, .ucall 103]) ∧
    ∃ r fds,
      genobjfile scenarioM {} 5 exScenarioUnit false {} = .ok r ∧
      Lowered scenarioM (genobjfile_init exScenarioUnit {}) r.2.2 fds ∧
      (∀ x ∈ exScenarioUnit.members, ∀ fd, lookupFunc scenarioM x = some fd →
        (fd.isStaticDtorDeclaration || fd.isStaticCtorDeclaration) = true →
        skipped {} fd {} = false → fd ∈ fds) ∧
      (r.2.2.errors = 0 → r.2.1.funcs = fds.map (fun fd => fd.sym)) ∧
      ∃ d, callFuncsAndGates (some r.2.2.bk.sctors) (some r.2.2.bk.ectorgates)
            "__modctor" = .ok d ∧
        driverBody d =
          ((ordinaryDtors fds).filterMap (fun fd => fd.vgate)).map Elem.gateInc ++
            ((ordinaryCtors fds).map (fun fd => fd.sym)).map Elem.ucall ∧
        (∀ g : VarDeclaration, (driverBody d).count (Elem.gateInc g) =
          ((ordinaryDtors fds).filter (fun fd => fd.vgate == some g)).length) ∧
        ∀ x, d = some x → r.1.sctor = some x ∧ x ∈ r.2.1.drivers :=
  ⟨rfl, C2_construct_driver_gates_then_ctors scenarioM {} 5 exScenarioUnit false {}
    (by decide)
    (fun h => by
      have e : (genobjfile scenarioM {} 5 exScenarioUnit false {}).isOk = true := rfl
      rw [h] at e
      cases e)⟩

/-- C19: a static constructor or destructor that `toObjFile` lowers (it is not
skipped; the call, given enough fuel, returns unless an assertion of the source
fails) is registered exactly once, after the routines lowered before it and
before those lowered after it in the same call; its registration enters a
shared variant in `ssharedctors`, or in front of `sshareddtors` (with its gate
appended to `esharedctorgates`), and leaves `sctors`, `ectorgates`, `sdtors`
unchanged, and enters an ordinary one in the ordinary sequences and leaves the
shared ones unchanged; so after any completed call each sequence has gained
exactly the routines of its own family among those lowered.  In a run of
`Module::genobjfile` the shared-construct and shared-destruct drivers are built
from the shared sequences by the rule of the ordinary drivers: gate increments
in registration order, then constructor calls in registration order;
destructor calls in reverse registration order. -/
theorem C19_shared_and_ordinary_families (prog : List FuncDeclaration) (gp : Param) :
    (∀ fuel mo id fd st, lookupFunc prog id = some fd →
      (fd.isStaticDtorDeclaration || fd.isStaticCtorDeclaration) = true →
      skipped gp fd st = false → fuelBound prog st ≤ fuel →
      toObjFile prog gp fuel mo id st ≠ .error .assertFailed →
      ∃ st2 f1 f2, toObjFile prog gp fuel mo id st = .ok st2 ∧
        Lowered prog st st2 (f1 ++ fd :: f2) ∧
        st2.bk = f2.foldl (fun bk g => toObjFile_register g bk)
          (toObjFile_register fd (f1.foldl (fun bk g => toObjFile_register g bk) st.bk))) ∧
    (∀ (fd : FuncDeclaration) (bk : Bookkeeping),
      ((fd.kind = .sharedStaticCtor ∨ fd.kind = .sharedStaticDtor) →
        (toObjFile_register fd bk).sctors = bk.sctors ∧
        (toObjFile_register fd bk).ectorgates = bk.ectorgates ∧
        (toObjFile_register fd bk).sdtors = bk.sdtors) ∧
      ((fd.kind = .staticCtor ∨ fd.kind = .staticDtor) →
        (toObjFile_register fd bk).ssharedctors = bk.ssharedctors ∧
        (toObjFile_register fd bk).esharedctorgates = bk.esharedctorgates ∧
        (toObjFile_register fd bk).sshareddtors = bk.sshareddtors) ∧
      (fd.kind = .sharedStaticCtor →
        (toObjFile_register fd bk).ssharedctors = bk.ssharedctors ++ [fd.sym]) ∧
      (fd.kind = .sharedStaticDtor →
        (toObjFile_register fd bk).sshareddtors = fd.sym :: bk.sshareddtors ∧
        (toObjFile_register fd bk).esharedctorgates =
          if fd.vgate.isSome then bk.esharedctorgates ++ [fd] else bk.esharedctorgates) ∧
      (fd.kind = .staticCtor → (toObjFile_register fd bk).sctors = bk.sctors ++ [fd.sym]) ∧
      (fd.kind = .staticDtor →
        (toObjFile_register fd bk).sdtors = fd.sym :: bk.sdtors ∧
        (toObjFile_register fd bk).ectorgates =
          if fd.vgate.isSome then bk.ectorgates ++ [fd] else bk.ectorgates)) ∧
    (∀ fuel mo id st st2, toObjFile prog gp fuel mo id st = .ok st2 →
      ∃ fds, Lowered prog st st2 fds ∧
        st2.bk.sctors = st.bk.sctors ++ (ordinaryCtors fds).map (fun fd => fd.sym) ∧
        st2.bk.ectorgates =
          st.bk.ectorgates ++ (ordinaryDtors fds).filter (fun fd => fd.vgate.isSome) ∧
        st2.bk.sdtors = ((ordinaryDtors fds).map (fun fd => fd.sym)).reverse ++ st.bk.sdtors ∧
        st2.bk.ssharedctors = st.bk.ssharedctors ++ (sharedCtors fds).map (fun fd => fd.sym) ∧
        st2.bk.esharedctorgates =
          st.bk.esharedctorgates ++ (sharedDtors fds).filter (fun fd => fd.vgate.isSome) ∧
        st2.bk.sshareddtors =
          ((sharedDtors fds).map (fun fd => fd.sym)).reverse ++ st.bk.sshareddtors) ∧
    (∀ fuel m mo st, fuelBound prog st ≤ fuel →
      genobjfile prog gp fuel m mo st ≠ .error .assertFailed →
      ∃ r fds, genobjfile prog gp fuel m mo st = .ok r ∧
        Lowered prog (genobjfile_init m st) r.2.2 fds ∧
        (∀ x ∈ m.members, ∀ fd, lookupFunc prog x = some fd →
          (fd.isStaticDtorDeclaration || fd.isStaticCtorDeclaration) = true →
          skipped gp fd st = false → fd ∈ fds) ∧
        ∃ c d sc sd,
          callFuncsAndGates (some r.2.2.bk.sctors) (some r.2.2.bk.ectorgates)
            "__modctor" = .ok c ∧
          callFuncsAndGates (some r.2.2.bk.sdtors) none "__moddtor" = .ok d ∧
          callFuncsAndGates (some r.2.2.bk.ssharedctors) (some r.2.2.bk.esharedctorgates)
            "__modsharedctor" = .ok sc ∧
          callFuncsAndGates (some r.2.2.bk.sshareddtors) none "__modshareddtor" = .ok sd ∧
          driverBody sc =
            ((sharedDtors fds).filterMap (fun fd => fd.vgate)).map Elem.gateInc ++
              ((sharedCtors fds).map (fun fd => fd.sym)).map Elem.ucall ∧
          driverBody sd =
            (((sharedDtors fds).map (fun fd => fd.sym)).reverse).map Elem.ucall ∧
          driverBody c =
            ((ordinaryDtors fds).filterMap (fun fd => fd.vgate)).map Elem.gateInc ++
              ((ordinaryCtors fds).map (fun fd => fd.sym)).map Elem.ucall ∧
          driverBody d =
            (((ordinaryDtors fds).map (fun fd => fd.sym)).reverse).map Elem.ucall ∧
          (∀ x, sc = some x → r.1.ssharedctor = some x ∧ x ∈ r.2.1.drivers) ∧
          (∀ x, sd = some x → r.1.sshareddtor = some x ∧ x ∈ r.2.1.drivers)) := by
  refine ⟨?_, ?_, ?_, ?_⟩
  · intro fuel mo id fd st hfd hk hs hf hnf
    rcases toObjFile_terminates prog gp fuel mo id st hf with g | ⟨st2, g⟩
    · exact absurd g hnf
    · obtain ⟨f1, f2, k⟩ := static_init_lowered prog gp fuel mo id fd st st2 hfd hk hs g
      exact ⟨st2, f1, f2, g, k⟩
  · intro fd bk
    refine ⟨?_, ?_, ?_, ?_, ?_, ?_⟩
    · rintro (h | h) <;>
        simp [register_sctors, register_ectorgates, register_sdtors, h]
    · rintro (h | h) <;>
        simp [register_ssharedctors, register_esharedctorgates, register_sshareddtors, h]
    · intro h
      simp [register_ssharedctors, h]
    · intro h
      simp [register_sshareddtors, register_esharedctorgates, h]
    · intro h
      simp [register_sctors, h]
    · intro h
      simp [register_sdtors, register_ectorgates, h]
  · intro fuel mo id st st2 h
    obtain ⟨fds, hl⟩ := toObjFile_lowers prog gp fuel mo id st st2 h
    obtain ⟨k1, k2, k3, k4, k5, k6, _⟩ := lowered_fields prog st st2 fds hl
    exact ⟨fds, hl, k1, k2, k3, k4, k5, k6⟩
  · intro fuel m mo st hf hnf
    rcases genobjfile_terminates prog gp fuel m mo st hf with g | ⟨r, g⟩
    · exact absurd g hnf
    · obtain ⟨fds, k⟩ := shared_drivers_of_completed_run prog gp fuel m mo st r g
      exact ⟨r, fds, g, k⟩

/-- The unit of `progFamilies`: each routine is entered in the sequences of its
own family, and the four drivers are built by the same rule; the shared
destructor, number 3, lowered by `toObjFile` on its own, is registered once,
between the routines lowered before and after it. -/
theorem C19_shared_and_ordinary_families_witness :
    fuelBound progFamilies {} ≤ 5 ∧
    observeFamilies (genobjfile progFamilies {} 5 { members := [1, 2, 3, 4] } false {}) =
      .ok ([22], [24], [21], [23],
        [{ id := "__modctor", Belem := some (.ucall 22) },
         { id := "__moddtor", Belem := some (.ucall 24) },
         { id := "__modsharedctor", Belem := some (.comma (.gateInc ⟨8⟩) (.ucall 21)) },
         { id := "__modshareddtor", Belem := some (.ucall 23) }]) ∧
    ∃ st2 f1 f2, toObjFile progFamilies {} 5 false 3 {} = .ok st2 ∧
      Lowered progFamilies {} st2
        (f1 ++ { ident := 3, sym := 23, kind := .sharedStaticDtor, vgate := some ⟨8⟩ } :: f2) ∧
      st2.bk = f2.foldl (fun bk g => toObjFile_register g bk)
        (toObjFile_register { ident := 3, sym := 23, kind := .sharedStaticDtor, vgate := some ⟨8⟩ }
          (f1.foldl (fun bk g => toObjFile_register g bk) ({} : LowerState).bk)) :=
  ⟨by decide, rfl,
    (C19_shared_and_ordinary_families progFamilies {}).1 5 false 3
      { ident := 3, sym := 23, kind := .sharedStaticDtor, vgate := some ⟨8⟩ } {} rfl rfl rfl
      (by decide)
      (fun h => by
        have e : (toObjFile progFamilies {} 5 false 3 {}).isOk = true := rfl
        rw [h] at e
        cases e)⟩

/-- C14: `genobjfile(0)` never changes the queue `obj_symbols_towrite`; so for a
queue holding `s1..sn`, `obj_write_deferred`, given enough fuel (and a loop
bound of at least `n`), returns unless an assertion of the source fails, and it
has then written exactly one object file per queue entry, in queue order (the
symbols of the shadows, in order, are the queue), the sequence numbers being
consecutive.  Each shadow module has its symbol as only member; when the symbol
has an owning module `m` the shadow is marked doppelganger, imports exactly `m`
and inherits `massert`, `munittest` and `marray` of `m`; it is the module that
`genobjfile(0)` was run on.  The queue is empty afterwards. -/
theorem C14_one_shadow_per_queue_entry (prog : List FuncDeclaration) (gp : Param) (fuel : Nat)
    (getModule : Nat → Option Module) (toChars : Nat → List Nat)
    (removeExt : String → String) (n : Nat) (st : LowerState)
    (hf : fuelBound prog st ≤ fuel)
    (hn : st.obj_symbols_towrite.length ≤ n)
    (hnf : obj_write_deferred prog gp fuel getModule toChars removeExt n st ≠
      .error .assertFailed) :
    (∀ md st1 r, genobjfile prog gp fuel md false st1 = .ok r →
      r.2.2.obj_symbols_towrite = st1.obj_symbols_towrite) ∧
    ∃ r, obj_write_deferred prog gp fuel getModule toChars removeExt n st = .ok r ∧
      r.1.map Shadow.sym = st.obj_symbols_towrite ∧
      r.1.length = st.obj_symbols_towrite.length ∧
      r.1.map Shadow.count = List.range' (st.count + 1) st.obj_symbols_towrite.length ∧
      (∀ sh ∈ r.1, sh.md.members = [sh.sym] ∧
        (∀ m, getModule sh.sym = some m →
          sh.md.doppelganger = true ∧ sh.md.aimports = [m.toImport] ∧
          sh.md.massert = m.massert ∧ sh.md.munittest = m.munittest ∧
          sh.md.marray = m.marray) ∧
        (getModule sh.sym = none → sh.md.doppelganger = false ∧ sh.md.aimports = []) ∧
        ∃ md2 st1 st2, genobjfile prog gp fuel sh.md false st1 = .ok (md2, sh.out, st2)) ∧
      r.2.obj_symbols_towrite = [] := by
  obtain ⟨k1, _, k3⟩ :=
    shadows_of_completed_run prog gp fuel getModule toChars removeExt n st hn
  refine ⟨k1, ?_⟩
  rcases obj_write_deferred_terminates prog gp fuel getModule toChars removeExt n st hf hn
    with g | ⟨r, g⟩
  · exact absurd g hnf
  · exact ⟨r, g, k3 r g⟩

/-- Witness for C14: the two queued routines of `progTwo`, both owned by
`exOriginal`, give two shadow units, for symbol 1 and then symbol 2, and an
empty queue. -/
theorem C14_one_shadow_per_queue_entry_witness :
    observeShadows (obj_write_deferred progTwo {} 3 exGetModule exToChars exRemoveExt 2
      exQueued) =
      .ok ([(1, 1, "a_1_144.o", [1], true, [11]), (2, 2, "a_2_135.o", [2], true, [12])], []) ∧
    (∀ md st1 r, genobjfile progTwo {} 3 md false st1 = .ok r →
      r.2.2.obj_symbols_towrite = st1.obj_symbols_towrite) ∧
    ∃ r, obj_write_deferred progTwo {} 3 exGetModule exToChars exRemoveExt 2 exQueued =
        .ok r ∧
      r.1.map Shadow.sym = exQueued.obj_symbols_towrite ∧
      r.1.length = exQueued.obj_symbols_towrite.length ∧
      r.1.map Shadow.count =
        List.range' (exQueued.count + 1) exQueued.obj_symbols_towrite.length ∧
      (∀ sh ∈ r.1, sh.md.members = [sh.sym] ∧
        (∀ m, exGetModule sh.sym = some m →
          sh.md.doppelganger = true ∧ sh.md.aimports = [m.toImport] ∧
          sh.md.massert = m.massert ∧ sh.md.munittest = m.munittest ∧
          sh.md.marray = m.marray) ∧
        (exGetModule sh.sym = none → sh.md.doppelganger = false ∧ sh.md.aimports = []) ∧
        ∃ md2 st1 st2, genobjfile progTwo {} 3 sh.md false st1 = .ok (md2, sh.out, st2)) ∧
      r.2.obj_symbols_towrite = [] :=
  ⟨rfl,
    C14_one_shadow_per_queue_entry progTwo {} 3 exGetModule exToChars exRemoveExt 2 exQueued
      (by decide) (by decide)
      (fun h => by
        have e : (obj_write_deferred progTwo {} 3 exGetModule exToChars exRemoveExt 2
          exQueued).isOk = true := rfl
        rw [h] at e
        cases e)⟩

/-- C20: with coverage enabled, `Module::genobjfile`, given enough fuel,
returns unless an assertion of the source fails, and it has then handed the
table `__coverage` and then the table `__bcoverage` to `outdata` (followed by
the file-name symbol when it had to be created); the body of the coverage-init
driver `__modictor` starts with the `_d_cover_register` call taking both
tables, each with length `numlines`, and the file-name symbol; it is written
before the drivers built by `callFuncsAndGates`, the construct driver first
among them; and the bodies of those drivers hold gate increments and calls
only, never the registration call. -/
theorem C20_coverage_init_driver_first (prog : List FuncDeclaration) (gp : Param) (fuel : Nat)
    (m : Module) (mo : Bool) (st : LowerState)
    (hcov : gp.cov = true) (hf : fuelBound prog st ≤ fuel)
    (hnf : genobjfile prog gp fuel m mo st ≠ .error .assertFailed) :
    ∃ r, genobjfile prog gp fuel m mo st = .ok r ∧
      ∃ bcov sf d,
        r.1.sfilename = some sf ∧
        r.2.1.data = r.1.cov :: bcov :: (if m.sfilename.isSome then [] else [sf]) ∧
        r.1.sictor = some d ∧ d.id = "__modictor" ∧
        (elemSeq d.Belem).head? = some (.dcover m.numlines r.1.cov m.numlines bcov (some sf)) ∧
        r.2.1.drivers = d :: (r.1.sctor.toList ++ r.1.sdtor.toList ++ r.1.ssharedctor.toList ++
          r.1.sshareddtor.toList ++ r.1.stest.toList) ∧
        (∀ e ∈ driverBody r.1.sctor, ∀ a x b y f, e ≠ .dcover a x b y f) ∧
        (∀ d2 ∈ r.1.sctor.toList ++ r.1.sdtor.toList ++ r.1.ssharedctor.toList ++
            r.1.sshareddtor.toList ++ r.1.stest.toList,
          ∀ e ∈ elemSeq d2.Belem, ∀ a x b y f, e ≠ .dcover a x b y f) := by
  rcases genobjfile_terminates prog gp fuel m mo st hf with g | ⟨r, g⟩
  · exact absurd g hnf
  · exact ⟨r, g, coverage_init_of_completed_run prog gp fuel m mo st r hcov g⟩

/-- Witness for C20: the unit of the spec's scenario compiled with coverage on.
The tables are symbols 0 and 1, the file-name symbol is 2; `__modictor` is
written first, then `__modctor` and `__moddtor`. -/
theorem C20_coverage_init_driver_first_witness :
    observeUnit (genobjfile scenarioM exCov 5 exCovModule false {}) =
      .ok ({ data := [0, 1, 2], funcs := [101, 102, 103, 104],
             drivers := [{ id := "__modictor", Belem := some (.dcover 5 0 5 1 (some 2)) },
               { id := "__modctor",
                 Belem := some (.comma (.comma (.gateInc ⟨7⟩) (.ucall 101)) (.ucall 102)) },
               { id := "__moddtor", Belem := some (.comma (.ucall 104) (.ucall 103)) }],
             moduleInfo := 1 },
           [some { id := "__modictor", Belem := some (.dcover 5 0 5 1 (some 2)) },
            some { id := "__modctor",
                   Belem := some (.comma (.comma (.gateInc ⟨7⟩) (.ucall 101)) (.ucall 102)) },
            some { id := "__moddtor", Belem := some (.comma (.ucall 104) (.ucall 103)) },
            none, none, none]) ∧
    ∃ r, genobjfile scenarioM exCov 5 exCovModule false {} = .ok r ∧
      ∃ bcov sf d,
        r.1.sfilename = some sf ∧
        r.2.1.data = r.1.cov :: bcov :: (if exCovModule.sfilename.isSome then [] else [sf]) ∧
        r.1.sictor = some d ∧ d.id = "__modictor" ∧
        (elemSeq d.Belem).head? = some (.dcover exCovModule.numlines r.1.cov
          exCovModule.numlines bcov (some sf)) ∧
        r.2.1.drivers = d :: (r.1.sctor.toList ++ r.1.sdtor.toList ++ r.1.ssharedctor.toList ++
          r.1.sshareddtor.toList ++ r.1.stest.toList) ∧
        (∀ e ∈ driverBody r.1.sctor, ∀ a x b y f, e ≠ .dcover a x b y f) ∧
        (∀ d2 ∈ r.1.sctor.toList ++ r.1.sdtor.toList ++ r.1.ssharedctor.toList ++
            r.1.sshareddtor.toList ++ r.1.stest.toList,
          ∀ e ∈ elemSeq d2.Belem, ∀ a x b y f, e ≠ .dcover a x b y f) :=
  ⟨rfl, C20_coverage_init_driver_first scenarioM exCov 5 exCovModule false {} rfl (by decide)
    (fun h => by
      have e : (genobjfile scenarioM exCov 5 exCovModule false {}).isOk = true := rfl
      rw [h] at e
      cases e)⟩

/-- C13 (amended): in unit-splitting mode every static constructor and static
destructor (shared variants included) that is not skipped is exempt from
deferral: `toObjFile`, given enough fuel, returns unless an assertion of the
source fails, and a call that returns does not append the routine to
`obj_symbols_towrite`, lowers it inline (`semanticRun` becomes `PASSobj`) and
registers it in the bookkeeping sequence of its kind.  Unit tests are not
exempt. -/
theorem C13_static_ctor_dtor_lowered_inline (prog : List FuncDeclaration) (gp : Param)
    (fuel id : Nat) (fd : FuncDeclaration) (st : LowerState)
    (hlook : lookupFunc prog id = some fd)
    (hk : fd.isStaticCtorDeclaration = true ∨ fd.isStaticDtorDeclaration = true)
    (hrun : st.semanticRun fd.ident = .PASSsemantic3done)
    (herr : fd.retError = false) (hbody : fd.fbody = true) :
    (fuelBound prog st ≤ fuel + 1 →
      toObjFile prog gp (fuel + 1) true id st ≠ .error .assertFailed →
      ∃ st2, toObjFile prog gp (fuel + 1) true id st = .ok st2) ∧
    ∀ st2, toObjFile prog gp (fuel + 1) true id st = .ok st2 →
      (st2.semanticRun fd.ident).geObj = true ∧
      st2.obj_symbols_towrite.count fd.ident = st.obj_symbols_towrite.count fd.ident ∧
      (fd.kind = .staticCtor → fd.sym ∈ st2.bk.sctors) ∧
      (fd.kind = .sharedStaticCtor → fd.sym ∈ st2.bk.ssharedctors) ∧
      (fd.kind = .staticDtor → fd.sym ∈ st2.bk.sdtors ∧
        (fd.vgate.isSome = true → fd ∈ st2.bk.ectorgates)) ∧
      (fd.kind = .sharedStaticDtor → fd.sym ∈ st2.bk.sshareddtors ∧
        (fd.vgate.isSome = true → fd ∈ st2.bk.esharedctorgates)) := by
  refine ⟨fun hf hnf => ?_, fun st2 h =>
    static_init_inline_of_completed_call prog gp fuel id fd st st2 hlook hk hrun herr hbody h⟩
  rcases toObjFile_terminates prog gp (fuel + 1) true id st hf with g | g
  · exact absurd g hnf
  · exact g

/-- Witness for C13 (amended): the static constructor of `progCtor` is lowered,
written and registered in `sctors`, and the queue stays empty. -/
theorem C13_static_ctor_dtor_lowered_inline_witness :
    observeSplit (toObjFile progCtor {} 3 true 1 {}) =
      .ok ([], .PASSobj, [11], [], [11]) ∧
    ∃ st2, toObjFile progCtor {} 3 true 1 {} = .ok st2 ∧
      (st2.semanticRun exCtor.ident).geObj = true ∧
      st2.obj_symbols_towrite.count exCtor.ident =
        ({} : LowerState).obj_symbols_towrite.count exCtor.ident ∧
      (exCtor.kind = .staticCtor → exCtor.sym ∈ st2.bk.sctors) ∧
      (exCtor.kind = .sharedStaticCtor → exCtor.sym ∈ st2.bk.ssharedctors) ∧
      (exCtor.kind = .staticDtor → exCtor.sym ∈ st2.bk.sdtors ∧
        (exCtor.vgate.isSome = true → exCtor ∈ st2.bk.ectorgates)) ∧
      (exCtor.kind = .sharedStaticDtor → exCtor.sym ∈ st2.bk.sshareddtors ∧
        (exCtor.vgate.isSome = true → exCtor ∈ st2.bk.esharedctorgates)) := by
  refine ⟨rfl, ?_⟩
  have hc := C13_static_ctor_dtor_lowered_inline progCtor {} 2 1 exCtor {} rfl (Or.inl rfl) rfl
    rfl rfl
  obtain ⟨st2, hr⟩ := hc.1 (by decide) (fun h => by
    have e : (toObjFile progCtor {} 3 true 1 {}).isOk = true := rfl
    rw [h] at e
    cases e)
  exact ⟨st2, hr, hc.2 st2 hr⟩

/-- C16 (amended): for a doppelganger, `Module::genobjfile`, given enough fuel,
returns unless an assertion of the source fails.  A run that returns makes at
most one reference, to the module-info symbol of the module it imports, and
makes it exactly when that module has a coverage-init, construct, destruct,
shared-construct or shared-destruct driver and the symbol has no external
number yet.  It writes no driver and generates no module info exactly when
coverage is off and the bookkeeping sequences are empty after its member was
lowered; otherwise it writes drivers and generates its module info once.  It
writes no support function. -/
theorem C16_shadow_drivers_only_when_registered (prog : List FuncDeclaration) (gp : Param)
    (fuel : Nat) (m : Module) (mo : Bool) (st : LowerState)
    (hd : m.doppelganger = true) :
    (fuelBound prog st ≤ fuel → genobjfile prog gp fuel m mo st ≠ .error .assertFailed →
      ∃ r, genobjfile prog gp fuel m mo st = .ok r) ∧
    ∀ r, genobjfile prog gp fuel m mo st = .ok r →
      (∃ m0, m.aimports[0]? = some m0 ∧
        r.2.1.refs = if (m0.sictor || m0.sctor || m0.sdtor || m0.ssharedctor ||
            m0.sshareddtor) && m0.Sxtrnnum == 0 then [m0.infoSym] else []) ∧
      ((gp.cov = false ∧ r.2.2.bk = Bookkeeping.reset) →
        r.2.1.drivers = [] ∧ r.2.1.moduleInfo = 0) ∧
      (¬ (gp.cov = false ∧ r.2.2.bk = Bookkeeping.reset) →
        r.2.1.drivers ≠ [] ∧ r.2.1.moduleInfo = 1) ∧
      r.2.1.support = [] := by
  refine ⟨fun hf hnf => ?_, fun r h =>
    doppelganger_of_completed_run prog gp fuel m mo st r hd h⟩
  rcases genobjfile_terminates prog gp fuel m mo st hf with g | g
  · exact absurd g hnf
  · exact g

/-- Witness for C16 (amended): the shadow unit made for the ordinary routine of
`progOne`, deferred from a unit with a construct driver, refers to that unit's
module-info symbol (50) and writes the routine (symbol 11), no driver and no
module info. -/
theorem C16_shadow_drivers_only_when_registered_witness :
    observeUnit (genobjfile progOne {} 2 exShadowTest false {}) =
      .ok ({ refs := [50], funcs := [11] }, [none, none, none, none, none, none]) ∧
    ∃ r, genobjfile progOne {} 2 exShadowTest false {} = .ok r ∧
      (∃ m0, exShadowTest.aimports[0]? = some m0 ∧
        r.2.1.refs = if (m0.sictor || m0.sctor || m0.sdtor || m0.ssharedctor ||
            m0.sshareddtor) && m0.Sxtrnnum == 0 then [m0.infoSym] else []) ∧
      (((({} : Param).cov = false ∧ r.2.2.bk = Bookkeeping.reset)) →
        r.2.1.drivers = [] ∧ r.2.1.moduleInfo = 0) ∧
      (¬ (({} : Param).cov = false ∧ r.2.2.bk = Bookkeeping.reset) →
        r.2.1.drivers ≠ [] ∧ r.2.1.moduleInfo = 1) ∧
      r.2.1.support = [] := by
  refine ⟨rfl, ?_⟩
  have hc := C16_shadow_drivers_only_when_registered progOne {} 2 exShadowTest false {} rfl
  obtain ⟨r, hr⟩ := hc.1 (by decide) (fun h => by
    have e : (genobjfile progOne {} 2 exShadowTest false {}).isOk = true := rfl
    rw [h] at e
    cases e)
  exact ⟨r, hr, hc.2 r hr⟩

end Glue
